import Mathlib

/-!
# PMEM-CSI device manager: shallow embedding and verified properties

Embedding of `pkg/pmem-device-manager/pmd-lvm.go` (pool backend, LVM) and
`pkg/pmem-device-manager/pmd-ndctl.go` (direct backend, ndctl).

Conventions of the embedding:

* `uint64` values are natural numbers; every addition and multiplication that the
  Go code performs on `uint64` is reduced modulo `2 ^ 64`.
* Go strings are Lean strings (sequences of Unicode scalar values, i.e. valid UTF-8).
* Go `error` values are terms of `GoError`; `nil` is `none`.
* The collaborators that the two files call but do not define (the command runner
  `pmemexec.RunCommand`, the `ndctl` library, `clearDevice`, `waitDeviceAppears`)
  are fields of an environment `Env W` acting on an arbitrary world type `W`.
  Every call made to a collaborator is appended to a trace.
* The package-level mutexes are not modelled: the embedding describes one call
  running alone, which is what holding the mutex for the whole call provides.
-/

namespace PmemCSI

/-! ## Errors -/

/-- Go error values seen by the device manager. The four sentinels are the ones the
two files compare against with `errors.Is`; `tool` is any other error value produced
by a collaborator; `wrap` is a collaborator error carrying an `Unwrap` chain;
`errorf` and `errorfErr` are errors built by `fmt.Errorf` with verbs other than `%w`
(no `Unwrap` chain), kept as format string and arguments. -/
inductive GoError where
  | ErrDeviceExists
  | ErrDeviceNotFound
  | ErrNotEnoughSpace
  | ErrNotExist
  | tool (msg : String)
  | wrap (msg : String) (inner : GoError)
  | errorf (format : String) (args : List String)
  | errorfErr (format : String) (args : List String) (cause : GoError)
deriving DecidableEq, Repr

/-- Go `errors.Is(err, target)` for a sentinel `target`: `err` is the target or
reaches it through its `Unwrap` chain. -/
def errorsIs : GoError → GoError → Bool
  | .wrap msg inner, target => (GoError.wrap msg inner == target) || errorsIs inner target
  | e, target => e == target

/-! ## Machine integers -/

/-- Largest `uint64`. -/
def maxUint64 : Nat := 2 ^ 64 - 1

/-- Addition on `uint64`. -/
def add64 (a b : Nat) : Nat := (a + b) % 2 ^ 64

/-- Multiplication on `uint64`. -/
def mul64 (a b : Nat) : Nat := (a * b) % 2 ^ 64

/-! ## The Go string functions used by the parsers -/

/-- Go `unicode.IsSpace`. -/
def isSpace (c : Char) : Bool :=
  let n := c.toNat
  (9 ≤ n && n ≤ 13) || n = 32 || n = 0x85 || n = 0xA0 || n = 0x1680 ||
  (0x2000 ≤ n && n ≤ 0x200A) || n = 0x2028 || n = 0x2029 || n = 0x202F ||
  n = 0x205F || n = 0x3000

/-- Worker of `Fields`: `cur` is the field being read, reversed. -/
def fieldsAux : List Char → List Char → List String
  | [], cur => if cur.isEmpty then [] else [String.mk cur.reverse]
  | c :: cs, cur =>
    if isSpace c then
      if cur.isEmpty then fieldsAux cs [] else String.mk cur.reverse :: fieldsAux cs []
    else fieldsAux cs (c :: cur)

/-- Go `strings.Fields`: the maximal runs of non-space characters. -/
def Fields (s : String) : List String := fieldsAux s.toList []

/-- Go `strings.TrimSpace`. -/
def TrimSpace (s : String) : String :=
  String.mk ((s.toList.dropWhile isSpace).reverse.dropWhile isSpace).reverse

/-- Go `strings.SplitN(s, "\n", n)` for `n ≥ 0` on the characters of `s`: nothing
for `n = 0`, otherwise at most `n` pieces, the last one being the unsplit rest. -/
def splitNAux : List Char → Nat → List (List Char)
  | _, 0 => []
  | s, 1 => [s]
  | [], _ + 2 => [[]]
  | c :: cs, n + 2 =>
    if c = '\n' then [] :: splitNAux cs (n + 1)
    else
      match splitNAux cs (n + 2) with
      | [] => [[c]]
      | l :: ls => (c :: l) :: ls

/-- Go `strings.SplitN(s, "\n", n)` for `n ≥ 0`. -/
def SplitN (s : String) (n : Nat) : List String := (splitNAux s.toList n).map String.mk

/-- Go `strings.Split(s, "\n")` on the characters of `s`. -/
def splitAux : List Char → List (List Char)
  | [] => [[]]
  | c :: cs =>
    if c = '\n' then [] :: splitAux cs
    else
      match splitAux cs with
      | [] => [[c]]
      | l :: ls => (c :: l) :: ls

/-- Go `strings.Split(s, "\n")`. -/
def Split (s : String) : List String := (splitAux s.toList).map String.mk

/-- Loop of `strconv.ParseUint(s, 10, 64)`, returning only the value: a character
that is not a decimal digit gives `0` (syntax error), a value that leaves the
`uint64` range gives `maxUint64` (range error); the first failure in reading order
decides. -/
def parseUintLoop : List Char → Nat → Nat
  | [], n => n
  | c :: cs, n =>
    if c.isDigit then
      if n ≥ maxUint64 / 10 + 1 then maxUint64
      else
        let n1 := n * 10 + (c.toNat - 48)
        if n1 > maxUint64 then maxUint64 else parseUintLoop cs n1
    else 0

/-- Value returned by Go `strconv.ParseUint(s, 10, 64)`; the callers discard the
error, so only the value is modelled (`0` for the empty string). -/
def ParseUint (s : String) : Nat := parseUintLoop s.toList 0

/-- Go `strconv.FormatUint(n, 10)`. -/
def FormatUint (n : Nat) : String := Nat.repr n

/-! ## Data model -/

/-- `PmemDeviceInfo` of the device manager. -/
structure PmemDeviceInfo where
  VolumeId : String
  Path : String
  Size : Nat
deriving DecidableEq, Repr

/-- `Capacity` of the device manager. -/
structure Capacity where
  Available : Nat
  Managed : Nat
  Total : Nat
  MaxVolumeSize : Nat
deriving DecidableEq, Repr

/-- Zero value of `Capacity`. -/
def Capacity.zero : Capacity := ⟨0, 0, 0, 0⟩

/-- Go `map[string]*PmemDeviceInfo`, as an association list with distinct keys. -/
abbrev DeviceMap := List (String × PmemDeviceInfo)

/-- Go `m[k]` with the comma-ok form. -/
def DeviceMap.get (m : DeviceMap) (k : String) : Option PmemDeviceInfo :=
  match m with
  | [] => none
  | (k1, v) :: rest => if k1 = k then some v else DeviceMap.get rest k

/-- Go `delete(m, k)`. -/
def DeviceMap.delete (m : DeviceMap) (k : String) : DeviceMap :=
  m.filter (fun p => p.1 ≠ k)

/-- Go `m[k] = v`. -/
def DeviceMap.set (m : DeviceMap) (k : String) (v : PmemDeviceInfo) : DeviceMap :=
  (k, v) :: DeviceMap.delete m k

/-- `vgInfo` of pmd-lvm.go. -/
structure vgInfo where
  name : String
  size : Nat
  free : Nat
deriving DecidableEq, Repr

/-- `pmemLvm` of pmd-lvm.go. -/
structure pmemLvm where
  volumeGroups : List String
  devices : DeviceMap
deriving DecidableEq, Repr

/-- `pmemNdctl` of pmd-ndctl.go. -/
structure pmemNdctl where
  pmemPercentage : Nat
deriving DecidableEq, Repr

/-! ## The ndctl library, as far as the two files read it -/

/-- What the files read of an `ndctl.Namespace`. -/
structure Namespace where
  Name : String
  BlockDeviceName : String
  Size : Nat
  Mode : String
deriving DecidableEq, Repr

/-- What the files read of an `ndctl.Region`. -/
structure Region where
  Size : Nat
  AvailableSize : Nat
  MaxAvailableExtent : Nat
  InterleaveWays : Nat
  Enabled : Bool
deriving DecidableEq, Repr

/-- An `ndctl.Bus`: its regions, as returned by `AllRegions`. -/
structure Bus where
  AllRegions : List Region
deriving DecidableEq, Repr

/-- `ndctl.CreateNamespaceOpts`, the fields the files set. -/
structure CreateNamespaceOpts where
  Name : String
  Size : Nat
  Align : Nat
  Mode : String
deriving DecidableEq, Repr

/-! ## Collaborators and the call trace -/

/-- One call made to a collaborator. -/
inductive Call where
  | RunCommand (cmd : String) (args : List String)
  | clearDevice (dev : PmemDeviceInfo) (flush : Bool)
  | waitDeviceAppears (dev : PmemDeviceInfo)
  | NewContext
  | Free
  | GetBuses
  | GetNamespaceByName (name : String)
  | CreateNamespace (opts : CreateNamespaceOpts)
  | DestroyNamespaceByName (name : String)
  | ActiveRegions (bus : Nat)
  | RegionCreateNamespace (bus region : Nat) (opts : CreateNamespaceOpts)
  | MountList
deriving DecidableEq, Repr

/-- The collaborators, acting on a world `W`. -/
structure Env (W : Type) where
  /-- Collaborator `pmemexec.RunCommand`. -/
  RunCommand : W → String → List String → Except GoError String × W
  /-- Collaborator `clearDevice` of the device manager package. -/
  clearDevice : W → PmemDeviceInfo → Bool → Option GoError × W
  /-- Collaborator `waitDeviceAppears` of the device manager package. -/
  waitDeviceAppears : W → PmemDeviceInfo → Option GoError × W
  /-- Collaborator `ndctl.NewContext`: `none` is success. -/
  NewContext : W → Option GoError × W
  /-- Collaborator `Context.GetBuses` with the regions of each bus. -/
  GetBuses : W → List Bus
  /-- Collaborator `Context.GetNamespaceByName`. -/
  GetNamespaceByName : W → String → Except GoError Namespace × W
  /-- Collaborator `Context.CreateNamespace`. -/
  CreateNamespace : W → CreateNamespaceOpts → Except GoError Namespace × W
  /-- Collaborator `Context.DestroyNamespaceByName`. -/
  DestroyNamespaceByName : W → String → Option GoError × W

/-- The world together with the calls made so far, oldest first. -/
structure Sys (W : Type) where
  world : W
  trace : List Call

variable {W : Type}

/-- Call of `pmemexec.RunCommand`, recorded in the trace. -/
def pmemexec.RunCommand (env : Env W) (cmd : String) (args : List String) (s : Sys W) :
    Except GoError String × Sys W :=
  let r := env.RunCommand s.world cmd args
  (r.1, ⟨r.2, s.trace ++ [Call.RunCommand cmd args]⟩)

/-- Call of `clearDevice`, recorded in the trace. -/
def clearDevice (env : Env W) (dev : PmemDeviceInfo) (flush : Bool) (s : Sys W) :
    Option GoError × Sys W :=
  let r := env.clearDevice s.world dev flush
  (r.1, ⟨r.2, s.trace ++ [Call.clearDevice dev flush]⟩)

/-- Call of `waitDeviceAppears`, recorded in the trace. -/
def waitDeviceAppears (env : Env W) (dev : PmemDeviceInfo) (s : Sys W) :
    Option GoError × Sys W :=
  let r := env.waitDeviceAppears s.world dev
  (r.1, ⟨r.2, s.trace ++ [Call.waitDeviceAppears dev]⟩)

/-- Call of `ndctl.NewContext`, recorded in the trace. -/
def ndctl.NewContext (env : Env W) (s : Sys W) : Option GoError × Sys W :=
  let r := env.NewContext s.world
  (r.1, ⟨r.2, s.trace ++ [Call.NewContext]⟩)

/-- Call of `ndctx.Free` (deferred in the source), recorded in the trace. -/
def ndctl.Free (s : Sys W) : Sys W := ⟨s.world, s.trace ++ [Call.Free]⟩

/-- Call of `ndctx.GetBuses`, recorded in the trace. -/
def ndctl.GetBuses (env : Env W) (s : Sys W) : List Bus × Sys W :=
  (env.GetBuses s.world, ⟨s.world, s.trace ++ [Call.GetBuses]⟩)

/-- Call of `ndctx.GetNamespaceByName`, recorded in the trace. -/
def ndctl.GetNamespaceByName (env : Env W) (name : String) (s : Sys W) :
    Except GoError Namespace × Sys W :=
  let r := env.GetNamespaceByName s.world name
  (r.1, ⟨r.2, s.trace ++ [Call.GetNamespaceByName name]⟩)

/-- Call of `ndctx.CreateNamespace`, recorded in the trace. -/
def ndctl.CreateNamespace (env : Env W) (opts : CreateNamespaceOpts) (s : Sys W) :
    Except GoError Namespace × Sys W :=
  let r := env.CreateNamespace s.world opts
  (r.1, ⟨r.2, s.trace ++ [Call.CreateNamespace opts]⟩)

/-- Call of `ndctx.DestroyNamespaceByName`, recorded in the trace. -/
def ndctl.DestroyNamespaceByName (env : Env W) (name : String) (s : Sys W) :
    Option GoError × Sys W :=
  let r := env.DestroyNamespaceByName s.world name
  (r.1, ⟨r.2, s.trace ++ [Call.DestroyNamespaceByName name]⟩)

/-! ## pmd-lvm.go -/

/-- Constant `lvmAlign`: 4 MB alignment is used by LVM. -/
def lvmAlign : Nat := 4 * 1024 * 1024

/-- Variable `lvsArgs`. -/
def lvsArgs : List String :=
  ["--noheadings", "--nosuffix", "-o", "lv_name,lv_path,lv_size", "--units", "B"]

/-- Variable `vgsArgs`. -/
def vgsArgs : List String :=
  ["--noheadings", "--nosuffix", "-o", "vg_name,vg_size,vg_free", "--units", "B"]

/-- Loop of `getVolumeGroups` over the lines of the `vgs` output: a line that does
not have exactly three fields stops the loop with an error, the records read so
far being returned with it. -/
def getVolumeGroupsLoop : List String → List vgInfo → List vgInfo × Option GoError
  | [], vgs => (vgs, none)
  | line :: rest, vgs =>
    match Fields (TrimSpace line) with
    | [f0, f1, f2] => getVolumeGroupsLoop rest (vgs ++ [⟨f0, ParseUint f1, ParseUint f2⟩])
    | _ => (vgs, some (.errorf "failed to parse vgs output: %q" [line]))

/-- Function `getVolumeGroups`. -/
def getVolumeGroups (env : Env W) (groups : List String) (s : Sys W) :
    (List vgInfo × Option GoError) × Sys W :=
  match pmemexec.RunCommand env "vgs" (vgsArgs ++ groups) s with
  | (.error err, s1) => (([], some (.errorfErr "vgs failure: %v" [] err)), s1)
  | (.ok output, s1) => (getVolumeGroupsLoop (SplitN output groups.length) [], s1)

/-- Loop of `parseLVSOutput` over the lines: a line that does not have exactly
three fields is skipped. -/
def parseLVSOutputLoop : List String → DeviceMap → DeviceMap
  | [], devices => devices
  | line :: rest, devices =>
    match Fields (TrimSpace line) with
    | [f0, f1, f2] => parseLVSOutputLoop rest (devices.set f0 ⟨f0, f1, ParseUint f2⟩)
    | _ => parseLVSOutputLoop rest devices

/-- Function `parseLVSOutput`; its error result is always `nil`. -/
def parseLVSOutput (output : String) : DeviceMap × Option GoError :=
  (parseLVSOutputLoop (Split output) [], none)

/-- Function `listDevices`. -/
def listDevices (env : Env W) (volumeGroups : List String) (s : Sys W) :
    Except GoError DeviceMap × Sys W :=
  match pmemexec.RunCommand env "lvs" (lvsArgs ++ volumeGroups) s with
  | (.error err, s1) => (.error (.errorfErr "lvs failure : %v" [] err), s1)
  | (.ok output, s1) =>
    match parseLVSOutput output with
    | (_, some err) => (.error err, s1)
    | (devices, none) => (.ok devices, s1)

/-- Function `getUncachedDevice`. -/
def getUncachedDevice (env : Env W) (volumeId : String) (volumeGroup : String) (s : Sys W) :
    Except GoError PmemDeviceInfo × Sys W :=
  match listDevices env [volumeGroup] s with
  | (.error err, s1) => (.error err, s1)
  | (.ok devices, s1) =>
    match devices.get volumeId with
    | some dev => (.ok dev, s1)
    | none => (.error .ErrDeviceNotFound, s1)

/-- Method `pmemLvm.getDevice`. -/
def pmemLvm.getDevice (lvm : pmemLvm) (volumeId : String) : Except GoError PmemDeviceInfo :=
  match lvm.devices.get volumeId with
  | some dev => .ok dev
  | none => .error .ErrDeviceNotFound

/-- Method `pmemLvm.GetDevice`. -/
def pmemLvm.GetDevice (lvm : pmemLvm) (volumeId : String) : Except GoError PmemDeviceInfo :=
  lvm.getDevice volumeId

/-- Size adjustment of `pmemLvm.CreateDevice` (lines 146 to 150): up to the next
alignment boundary if not aligned already, in `uint64` arithmetic. -/
def lvmAlignedSize (size : Nat) : Nat :=
  let reminder := size % lvmAlign
  if reminder ≠ 0 then add64 size (lvmAlign - reminder) else size

/-- Argument list of the `lvcreate` call of `pmemLvm.CreateDevice`. -/
def lvcreateArgs (strSz volumeId vgName : String) : List String :=
  ["-Zn", "-L", strSz, "-n", volumeId, vgName]

/-- Loop of `pmemLvm.CreateDevice` over the volume groups, `size` being the aligned
size and `strSz` its text. -/
def pmemLvm.CreateDeviceLoop (env : Env W) (lvm : pmemLvm) (volumeId : String) (size : Nat)
    (strSz : String) : List vgInfo → Sys W → (Option GoError × pmemLvm) × Sys W
  | [], s => ((some .ErrNotEnoughSpace, lvm), s)
  | vg :: rest, s =>
    if vg.free ≥ size then
      match pmemexec.RunCommand env "lvcreate" (lvcreateArgs strSz volumeId vg.name) s with
      | (.error _, s1) => pmemLvm.CreateDeviceLoop env lvm volumeId size strSz rest s1
      | (.ok _, s1) =>
        match getUncachedDevice env volumeId vg.name s1 with
        | (.error err, s2) => ((some err, lvm), s2)
        | (.ok device, s2) =>
          match waitDeviceAppears env device s2 with
          | (some err, s3) => ((some err, lvm), s3)
          | (none, s3) =>
            match clearDevice env device false s3 with
            | (some err, s4) =>
              ((some (.errorfErr "clear device %q: %v" [volumeId] err), lvm), s4)
            | (none, s4) =>
              ((none, { lvm with devices := lvm.devices.set device.VolumeId device }), s4)
    else pmemLvm.CreateDeviceLoop env lvm volumeId size strSz rest s

/-- Method `pmemLvm.CreateDevice`: the error, the manager afterwards and the system
afterwards. -/
def pmemLvm.CreateDevice (env : Env W) (lvm : pmemLvm) (volumeId : String) (size : Nat)
    (s : Sys W) : (Option GoError × pmemLvm) × Sys W :=
  match lvm.getDevice volumeId with
  | .ok _ => ((some .ErrDeviceExists, lvm), s)
  | .error _ =>
    match getVolumeGroups env lvm.volumeGroups s with
    | ((_, some err), s1) => ((some err, lvm), s1)
    | ((vgs, none), s1) =>
      let size1 := lvmAlignedSize size
      let strSz := FormatUint size1 ++ "B"
      pmemLvm.CreateDeviceLoop env lvm volumeId size1 strSz vgs s1

/-- Method `pmemLvm.DeleteDevice`. -/
def pmemLvm.DeleteDevice (env : Env W) (lvm : pmemLvm) (volumeId : String) (flush : Bool)
    (s : Sys W) : (Option GoError × pmemLvm) × Sys W :=
  match lvm.getDevice volumeId with
  | .error err =>
    if errorsIs err .ErrDeviceNotFound then ((none, lvm), s) else ((some err, lvm), s)
  | .ok device =>
    match clearDevice env device flush s with
    | (some err, s1) =>
      if errorsIs err .ErrDeviceNotFound then
        ((none, { lvm with devices := lvm.devices.delete volumeId }), s1)
      else ((some err, lvm), s1)
    | (none, s1) =>
      match pmemexec.RunCommand env "lvremove" ["-fy", device.Path] s1 with
      | (.error err, s2) => ((some err, lvm), s2)
      | (.ok _, s2) => ((none, { lvm with devices := lvm.devices.delete volumeId }), s2)

/-- Loops of `totalSize` over the buses and their regions. -/
def totalSizeLoop (buses : List Bus) (size : Nat) : Nat :=
  buses.foldl (fun acc bus => bus.AllRegions.foldl (fun a region => add64 a region.Size) acc) size

/-- Function `totalSize` of pmd-ndctl.go. -/
def totalSize (env : Env W) (s : Sys W) : (Nat × Option GoError) × Sys W :=
  match ndctl.NewContext env s with
  | (some err, s1) => ((0, some err), s1)
  | (none, s1) =>
    match ndctl.GetBuses env s1 with
    | (buses, s2) => ((totalSizeLoop buses 0, none), ndctl.Free s2)

/-- Loop of `pmemLvm.GetCapacity` over the volume groups; on an error of
`totalSize` the capacity accumulated so far is returned with the error. -/
def pmemLvm.GetCapacityLoop (env : Env W) :
    List vgInfo → Capacity → Sys W → (Capacity × Option GoError) × Sys W
  | [], capacity, s => ((capacity, none), s)
  | vg :: rest, capacity, s =>
    let c1 := if vg.free > capacity.MaxVolumeSize then
      { capacity with MaxVolumeSize := vg.free } else capacity
    let c2 := { c1 with Available := add64 c1.Available vg.free }
    let c3 := { c2 with Managed := add64 c2.Managed vg.size }
    match totalSize env s with
    | ((size, some err), s1) => (({ c3 with Total := size }, some err), s1)
    | ((size, none), s1) => pmemLvm.GetCapacityLoop env rest { c3 with Total := size } s1

/-- Method `pmemLvm.GetCapacity`. -/
def pmemLvm.GetCapacity (env : Env W) (lvm : pmemLvm) (s : Sys W) :
    (Capacity × Option GoError) × Sys W :=
  match getVolumeGroups env lvm.volumeGroups s with
  | ((_, some err), s1) => ((Capacity.zero, some err), s1)
  | ((vgs, none), s1) => pmemLvm.GetCapacityLoop env vgs Capacity.zero s1

/-! ## pmd-ndctl.go -/

/-- Constant `ndctlAlign`: 1 GB. -/
def ndctlAlign : Nat := 1024 * 1024 * 1024

/-- Function `namespaceToPmemInfo`. -/
def namespaceToPmemInfo (ns : Namespace) : PmemDeviceInfo :=
  { VolumeId := ns.Name, Path := "/dev/" ++ ns.BlockDeviceName, Size := ns.Size }

/-- Function `getDevice` of pmd-ndctl.go. -/
def getDevice (env : Env W) (volumeId : String) (s : Sys W) :
    Except GoError PmemDeviceInfo × Sys W :=
  match ndctl.GetNamespaceByName env volumeId s with
  | (.error err, s1) =>
    if errorsIs err .ErrNotExist then (.error .ErrDeviceNotFound, s1)
    else (.error (.errorfErr "error getting device %q: %v" [volumeId] err), s1)
  | (.ok ns, s1) => (.ok (namespaceToPmemInfo ns), s1)

/-- Body of the region loop of `pmemNdctl.GetCapacity`; `none` is the run-time panic
of an integer division by zero. -/
def pmemNdctl.GetCapacityRegions : List Region → Capacity → Option Capacity
  | [], capacity => some capacity
  | r :: rest, capacity =>
    let c1 := { capacity with Total := add64 capacity.Total r.Size }
    if !r.Enabled then pmemNdctl.GetCapacityRegions rest c1
    else
      let realalign := mul64 ndctlAlign r.InterleaveWays
      if realalign = 0 then none
      else
        let available := mul64 (r.MaxAvailableExtent / realalign) realalign
        let c2 := if available > c1.MaxVolumeSize then
          { c1 with MaxVolumeSize := available } else c1
        let c3 := { c2 with Available := add64 c2.Available available }
        pmemNdctl.GetCapacityRegions rest { c3 with Managed := add64 c3.Managed r.Size }

/-- Bus loop of `pmemNdctl.GetCapacity`. -/
def pmemNdctl.GetCapacityBuses : List Bus → Capacity → Option Capacity
  | [], capacity => some capacity
  | bus :: rest, capacity =>
    match pmemNdctl.GetCapacityRegions bus.AllRegions capacity with
    | none => none
    | some c1 => pmemNdctl.GetCapacityBuses rest c1

/-- Method `pmemNdctl.GetCapacity`; `none` is the run-time panic of an integer
division by zero. -/
def pmemNdctl.GetCapacity (env : Env W) (_pmem : pmemNdctl) (s : Sys W) :
    Option ((Capacity × Option GoError) × Sys W) :=
  match ndctl.NewContext env s with
  | (some err, s1) => some ((Capacity.zero, some err), s1)
  | (none, s1) =>
    match ndctl.GetBuses env s1 with
    | (buses, s2) =>
      match pmemNdctl.GetCapacityBuses buses Capacity.zero with
      | none => none
      | some capacity => some ((capacity, none), ndctl.Free s2)

/-- Method `pmemNdctl.CreateDevice`. -/
def pmemNdctl.CreateDevice (env : Env W) (_pmem : pmemNdctl) (volumeId : String) (size : Nat)
    (s : Sys W) : Option GoError × Sys W :=
  match ndctl.NewContext env s with
  | (some err, s1) => (some err, s1)
  | (none, s1) =>
    match getDevice env volumeId s1 with
    | (.ok _, s2) => (some .ErrDeviceExists, ndctl.Free s2)
    | (.error _, s2) =>
      let size1 := add64 size ndctlAlign
      match ndctl.CreateNamespace env
          { Name := volumeId, Size := size1, Align := ndctlAlign, Mode := "fsdax" } s2 with
      | (.error err, s3) => (some err, ndctl.Free s3)
      | (.ok _, s3) =>
        match getDevice env volumeId s3 with
        | (.error err, s4) => (some err, ndctl.Free s4)
        | (.ok device, s4) =>
          match clearDevice env device false s4 with
          | (some err, s5) =>
            (some (.errorfErr "clear device %q: %v" [volumeId] err), ndctl.Free s5)
          | (none, s5) => (none, ndctl.Free s5)

/-- Method `pmemNdctl.DeleteDevice`. -/
def pmemNdctl.DeleteDevice (env : Env W) (_pmem : pmemNdctl) (volumeId : String)
    (flush : Bool) (s : Sys W) : Option GoError × Sys W :=
  match ndctl.NewContext env s with
  | (some err, s1) => (some err, s1)
  | (none, s1) =>
    match getDevice env volumeId s1 with
    | (.error err, s2) =>
      if errorsIs err .ErrDeviceNotFound then (none, ndctl.Free s2)
      else (some err, ndctl.Free s2)
    | (.ok device, s2) =>
      match clearDevice env device flush s2 with
      | (some err, s3) =>
        if errorsIs err .ErrDeviceNotFound then (none, ndctl.Free s3)
        else (some err, ndctl.Free s3)
      | (none, s3) =>
        match ndctl.DestroyNamespaceByName env volumeId s3 with
        | (r, s4) => (r, ndctl.Free s4)

/-! ## Fixed-answer collaborators for concrete runs -/

/-- Answers of the collaborators in a world where every command and library call
has one fixed answer. -/
structure Fixture where
  vgs : Except GoError String
  lvs : Except GoError String
  lvcreate : Except GoError String
  lvremove : Except GoError String
  clear : Option GoError
  wait : Option GoError
  context : Option GoError
  buses : List Bus
  lookup : Except GoError Namespace
  create : Except GoError Namespace
  destroy : Option GoError

/-- The collaborators answering from a fixture. -/
def Fixture.env (f : Fixture) : Env Unit where
  RunCommand := fun w cmd _ =>
    if cmd = "vgs" then (f.vgs, w)
    else if cmd = "lvs" then (f.lvs, w)
    else if cmd = "lvcreate" then (f.lvcreate, w)
    else if cmd = "lvremove" then (f.lvremove, w)
    else (.error (.tool "unknown command"), w)
  clearDevice := fun w _ _ => (f.clear, w)
  waitDeviceAppears := fun w _ => (f.wait, w)
  NewContext := fun w => (f.context, w)
  GetBuses := fun _ => f.buses
  GetNamespaceByName := fun w _ => (f.lookup, w)
  CreateNamespace := fun w _ => (f.create, w)
  DestroyNamespaceByName := fun w _ => (f.destroy, w)

/-- The system before any call. -/
def Sys.start : Sys Unit := ⟨(), []⟩

/-- Two pools with 10 GiB and 3 GiB free, and a volume `v1` of 5 GiB listed by `lvs`;
every command and library call succeeds. -/
def twoPools : Fixture where
  vgs := .ok "  vg0 10737418240 10737418240\n  vg1 3221225472 3221225472\n"
  lvs := .ok "  v1 /dev/vg0/v1 5368709120\n"
  lvcreate := .ok ""
  lvremove := .ok ""
  clear := none
  wait := none
  context := none
  buses := [⟨[⟨17179869184, 0, 0, 1, true⟩]⟩]
  lookup := .ok ⟨"v1", "pmem0.1", 5368709120, "fsdax"⟩
  create := .ok ⟨"v1", "pmem0.1", 5368709120, "fsdax"⟩
  destroy := none

/-- A pool backend managing `vg0` and `vg1` with an empty cache. -/
def emptyLvm : pmemLvm := ⟨["vg0", "vg1"], []⟩

/-- The device `v1` as listed by the fixture `twoPools`. -/
def devV1 : PmemDeviceInfo := ⟨"v1", "/dev/vg0/v1", 5368709120⟩

/-- A pool backend managing `vg0` and `vg1` with `v1` in its cache. -/
def lvmWithV1 : pmemLvm := ⟨["vg0", "vg1"], [("v1", devV1)]⟩

/-- As `twoPools`, but clearing a device fails with a tool error. -/
def clearFails : Fixture := { twoPools with clear := some (.tool "zeroing failed") }

/-- As `twoPools`, but clearing a device reports that the device is gone. -/
def clearNotFound : Fixture := { twoPools with clear := some .ErrDeviceNotFound }

/-- As `twoPools`, but `lvremove` fails. -/
def lvremoveFails : Fixture := { twoPools with lvremove := .error (.tool "lvremove failed") }

/-- As `twoPools`, but the name lookup of the library reports that the namespace
does not exist. -/
def nothingAllocated : Fixture := { twoPools with lookup := .error .ErrNotExist }

/-- The regions of all buses, in the order the nested loops visit them. -/
def allRegions : List Bus → List Region
  | [] => []
  | bus :: rest => bus.AllRegions ++ allRegions rest

/-- A backend that manages no pool. -/
def noPools : pmemLvm := ⟨[], []⟩

/-- A pool backend managing `vg0` only. -/
def onePool : pmemLvm := ⟨["vg0"], []⟩

/-- One region of 1 GiB whose reported maximum extent is 2 GiB, and one pool `vg0`
of size 1 GiB whose reported free space is 2 GiB. -/
def freeAboveSize : Fixture :=
  { twoPools with
    vgs := .ok "  vg0 1073741824 2147483648\n"
    buses := [⟨[⟨1073741824, 0, 2147483648, 1, true⟩]⟩] }

/-- One region of 1 GiB and one pool `vg0` reported with a size of 4 GiB. -/
def poolAboveRegions : Fixture :=
  { twoPools with
    vgs := .ok "  vg0 4294967296 1073741824\n"
    buses := [⟨[⟨1073741824, 0, 0, 1, true⟩]⟩] }

/-- Two regions of `2 ^ 63` bytes each, the second one disabled. -/
def hugeRegions : Fixture :=
  { twoPools with
    buses := [⟨[⟨9223372036854775808, 0, 0, 1, true⟩, ⟨9223372036854775808, 0, 0, 1, false⟩]⟩] }

/-- The alignment unit of a region in the direct backend's `GetCapacity`:
`ndctlAlign * r.InterleaveWays()` in `uint64`. -/
def realAlign (r : Region) : Nat := mul64 ndctlAlign r.InterleaveWays

/-- The maximum available extent of a region aligned down as the direct backend's
`GetCapacity` does: divided by the alignment unit, then multiplied by it. -/
def alignedExtent (r : Region) : Nat :=
  mul64 (r.MaxAvailableExtent / realAlign r) (realAlign r)

/-- The enabled regions of a list. -/
def enabledRegions (rs : List Region) : List Region := rs.filter (fun r => r.Enabled)

/-- Two pools of `2 ^ 63` bytes each, entirely free. -/
def hugePools : Fixture :=
  { twoPools with
    vgs := .ok "vg0 9223372036854775808 9223372036854775808\nvg1 9223372036854775808 9223372036854775808" }

/-- The capacity that `twoPools` gives in the pool backend. -/
def twoPoolsCapacity : Capacity := ⟨13958643712, 13958643712, 17179869184, 10737418240⟩

/-- The capacity that `twoPools` gives in the direct backend. -/
def oneRegionCapacity : Capacity := ⟨0, 17179869184, 17179869184, 0⟩

/-- The largest multiple of `unit` that is at most `x`. -/
def alignDown (x unit : Nat) : Nat := x / unit * unit

/-- The capacity of the direct backend as the specification words it, over the
regions of the inventory: total is the sum of all region sizes, managed the sum of
the sizes of the enabled regions, available the sum over the enabled regions of
the maximum available extent aligned down to `1 GiB * interleave width`, and the
maximum volume size the largest of those aligned extents (`0` without one). -/
def directCapacity (rs : List Region) : Capacity where
  Available :=
    ((enabledRegions rs).map
      (fun r => alignDown r.MaxAvailableExtent (2 ^ 30 * r.InterleaveWays))).sum
  Managed := ((enabledRegions rs).map Region.Size).sum
  Total := (rs.map Region.Size).sum
  MaxVolumeSize :=
    ((enabledRegions rs).map
      (fun r => alignDown r.MaxAvailableExtent (2 ^ 30 * r.InterleaveWays))).foldl max 0

/-- One enabled region that reports an interleave width of `0`. -/
def zeroInterleave : Fixture :=
  { twoPools with buses := [⟨[⟨17179869184, 0, 17179869184, 0, true⟩]⟩] }

/-- An enabled region of 16 GiB with 5.5 GiB of contiguous space on two interleaved
modules, and a disabled region of 8 GiB. -/
def mixedRegions : Fixture :=
  { twoPools with
    buses := [⟨[⟨17179869184, 6442450944, 5905580032, 2, true⟩]⟩,
      ⟨[⟨8589934592, 8589934592, 8589934592, 1, false⟩]⟩] }

/-- Collaborators whose world counts the lookups by name: the first lookup fails
with a library error that is not not-found, the later ones find the namespace;
everything else succeeds. -/
def flakyLookup : Env Nat where
  RunCommand := fun w _ _ => (.ok "", w)
  clearDevice := fun w _ _ => (none, w)
  waitDeviceAppears := fun w _ => (none, w)
  NewContext := fun w => (none, w)
  GetBuses := fun _ => []
  GetNamespaceByName := fun w name =>
    if w = 0 then (.error (.tool "ndctl: sysfs read failed"), w + 1)
    else (.ok ⟨name, "pmem0.1", 2147483648, "fsdax"⟩, w + 1)
  CreateNamespace := fun w opts => (.ok ⟨opts.Name, "pmem0.1", opts.Size, opts.Mode⟩, w)
  DestroyNamespaceByName := fun w _ => (none, w)

/-! ## pmem-grpc/grpc.go: the server's TLS configuration -/

/-- An `x509.Certificate`, as far as `serverConfig` reads it. -/
structure Certificate where
  SubjectCommonName : String
deriving DecidableEq, Repr

/-- Go `tls.ClientAuthType`; `NoClientCert` is the zero value. -/
inductive ClientAuthType where
  | NoClientCert
  | RequestClientCert
  | RequireAnyClientCert
  | VerifyClientCertIfGiven
  | RequireAndVerifyClientCert
deriving DecidableEq, Repr

/-- Go `tls.ClientHelloInfo`, as far as `serverConfig` reads it. -/
structure ClientHelloInfo where
  CipherSuites : List Nat
deriving DecidableEq, Repr

/-- The fields of `tls.Config` that `serverConfig` sets for a client; `Pool` is
`*x509.CertPool` and `KeyPair` is `tls.Certificate`. -/
structure TLSConfig (Pool KeyPair : Type) where
  MinVersion : Nat
  Renegotiation : Nat
  Certificates : List KeyPair
  ClientCAs : Pool
  CipherSuites : List Nat
  VerifyPeerCertificate : List (List Nat) → List (List Certificate) → Option GoError
  ClientAuth : ClientAuthType

/-- Constant `tls.VersionTLS12`. -/
def VersionTLS12 : Nat := 0x0303

/-- Constant `tls.RenegotiateNever`. -/
def RenegotiateNever : Nat := 0

/-- The cipher suites that `serverConfig` filters out of the client's offer, with
their values in `crypto/tls`, in the order of the `case` list. -/
def insecureCiphers : List Nat :=
  [0xc012, 0x000a, 0xc011, 0xc013, 0xc014, 0x0005, 0xc007, 0xc009, 0xc00a, 0x002f, 0x0035]

/-- The `VerifyPeerCertificate` closure of `serverConfig`; the errors made with
`errors.New` are kept as a format without arguments. -/
def serverConfig.VerifyPeerCertificate (peerName : String) (_rawCerts : List (List Nat))
    (verifiedChains : List (List Certificate)) : Option GoError :=
  if peerName = "" then none
  else
    match verifiedChains with
    | [] => some (.errorf "no valid certificate" [])
    | [] :: _ => some (.errorf "no valid certificate" [])
    | (leaf :: _) :: _ =>
      let commonName := leaf.SubjectCommonName
      if commonName ≠ peerName then
        some (.errorf "expected CN %q, got %q" [peerName, commonName])
      else none

/-- The `GetConfigForClient` closure of the configuration that `serverConfig`
returns; `none` as argument is a nil `info`. -/
def serverConfig {Pool KeyPair : Type} (certPool : Pool) (peerCert : KeyPair)
    (peerName : String) (info : Option ClientHelloInfo) :
    Except GoError (TLSConfig Pool KeyPair) :=
  match info with
  | none => .error (.errorf "nil client info passed" [])
  | some info =>
    let ciphers := info.CipherSuites.filter (fun c => decide (c ∉ insecureCiphers))
    let config : TLSConfig Pool KeyPair :=
      { MinVersion := VersionTLS12
        Renegotiation := RenegotiateNever
        Certificates := [peerCert]
        ClientCAs := certPool
        CipherSuites := ciphers
        VerifyPeerCertificate := serverConfig.VerifyPeerCertificate peerName
        ClientAuth := .NoClientCert }
    if peerName ≠ "" then .ok { config with ClientAuth := .RequireAndVerifyClientCert }
    else .ok config

/-! ## metrics-merger/handler.go: merging the scraped metric families -/

/-- Go `prom.MetricFamily`, over any type `M` of metrics: `Merge` never looks into
a metric. -/
structure MetricFamily (M : Type) where
  Name : String
  Help : String
  MetricType : Nat
  Metric : List M
deriving DecidableEq, Repr

/-- Go `map[string]*prom.MetricFamily`, as an association list; the order of the
list is the order in which a `range` visits the map. -/
abbrev Families (M : Type) := List (String × MetricFamily M)

/-- Lines 93 to 98 of `Merge`: a family whose name is already in `mfs` has its
metrics appended to the family stored there, a new name is stored with its
family. -/
def mergeFamily {M : Type} (mfs : Families M) (n : String) (mf : MetricFamily M) :
    Families M :=
  match mfs with
  | [] => [(n, mf)]
  | (k, mfo) :: rest =>
    if k = n then (k, { mfo with Metric := mfo.Metric ++ mf.Metric }) :: rest
    else (k, mfo) :: mergeFamily rest n mf

/-- Inner loop of `Merge` (line 92) over one response. -/
def mergePart {M : Type} (mfs : Families M) (part : Families M) : Families M :=
  part.foldl (fun acc p => mergeFamily acc p.1 p.2) mfs

/-- Outer loop of `Merge` (line 91) over the responses. -/
def mergeResponses {M : Type} (responses : List (Families M)) : Families M :=
  responses.foldl mergePart []

/-- Go `mfs[n]`. -/
def Families.get {M : Type} (mfs : Families M) (n : String) : Option (MetricFamily M) :=
  match mfs with
  | [] => none
  | (k, mf) :: rest => if k = n then some mf else Families.get rest n

/-- Go string comparison `a < b` on the characters of two strings. -/
def stringLess : List Char → List Char → Bool
  | [], [] => false
  | [], _ :: _ => true
  | _ :: _, [] => false
  | a :: as, b :: bs =>
    if a.toNat < b.toNat then true
    else if b.toNat < a.toNat then false
    else stringLess as bs

/-- Insertion of a name into an increasing list of names. -/
def insertName (n : String) : List String → List String
  | [] => [n]
  | m :: rest =>
    if stringLess m.toList n.toList then m :: insertName n rest else n :: m :: rest

/-- Go `sort.Strings`: the names in increasing order. -/
def sortStrings : List String → List String
  | [] => []
  | n :: rest => insertName n (sortStrings rest)

/-- Loop of `Merge` over the sorted names (lines 110 to 116): each family is handed
to the encoder, whose state `σ` stands for the writer; the first encoding error
ends the loop. The second component lists the names and families encoded without
error. A name without a family cannot occur, the names being the keys of `mfs`. -/
def encodeFamilies {M σ : Type} (Encode : σ → MetricFamily M → Option GoError × σ)
    (mfs : Families M) : List String → σ → σ × List (String × MetricFamily M)
  | [], w => (w, [])
  | n :: rest, w =>
    match mfs.get n with
    | none => (w, [])
    | some mf =>
      match Encode w mf with
      | (some _, w1) => (w1, [])
      | (none, w1) =>
        let r := encodeFamilies Encode mfs rest w1
        (r.1, (n, mf) :: r.2)

/-- Method `Handler.Merge` from line 91 on, `parts` being the responses that were
scraped and parsed, in the order in which they were appended to the 1024 empty
entries that `responses` starts with. -/
def Handler.Merge {M σ : Type} (Encode : σ → MetricFamily M → Option GoError × σ)
    (parts : List (Families M)) (w : σ) : σ × List (String × MetricFamily M) :=
  let responses := List.replicate 1024 [] ++ parts
  let mfs := mergeResponses responses
  let names := sortStrings (mfs.map Prod.fst)
  encodeFamilies Encode mfs names w

/-- The metrics that the sources carry under the name `n`, source after source. -/
def metricsUnder {M : Type} (parts : List (Families M)) (n : String) : List M :=
  parts.flatMap (fun part => (part.filter (fun p => p.1 = n)).flatMap (fun p => p.2.Metric))

/-- The first exporter of the test of the handler: `foo 1`, `conflict 2`,
`shared{meh="a"} 3`, every metric being its sample line. -/
def exporter1 : Families String :=
  [("foo", ⟨"foo", "", 3, ["foo 1"]⟩), ("conflict", ⟨"conflict", "", 3, ["conflict 2"]⟩),
   ("shared", ⟨"shared", "", 3, ["shared\x7bmeh=\"a\"\x7d 3"]⟩)]

/-- The second exporter of the test of the handler: `bar 4`, `conflict 5`,
`shared{meh="b"} 6`. -/
def exporter2 : Families String :=
  [("bar", ⟨"bar", "", 3, ["bar 4"]⟩), ("conflict", ⟨"conflict", "", 3, ["conflict 5"]⟩),
   ("shared", ⟨"shared", "", 3, ["shared\x7bmeh=\"b\"\x7d 6"]⟩)]

/-- An encoder that never fails and whose state counts the families written. -/
def countingEncoder : Nat → MetricFamily String → Option GoError × Nat :=
  fun w _ => (none, w + 1)

/-- The writer after the encoder has written the families of a list, one after the
other. -/
def writerAfter {M σ : Type} (Encode : σ → MetricFamily M → Option GoError × σ)
    (written : List (String × MetricFamily M)) (w : σ) : σ :=
  written.foldl (fun w1 p => (Encode w1 p.2).2) w

/-- An encoder over a writer that takes one family and fails on every write after
it, as a connection does that the client has closed; the state counts the families
written. -/
def closedWriter : Nat → MetricFamily String → Option GoError × Nat :=
  fun w _ => if w = 0 then (none, w + 1) else (some (.tool "write: broken pipe"), w)

/-- The names and families that `Merge` hands to the encoder when no encoding
fails: the merged families in the increasing order of their names. -/
def mergedFamilies {M : Type} (parts : List (Families M)) : List (String × MetricFamily M) :=
  (sortStrings ((mergeResponses parts).map Prod.fst)).filterMap
    (fun n => ((mergeResponses parts).get n).map (fun mf => (n, mf)))

/-! ## Startup: the constructors of the two backends -/

/-- Go `ndctl.RegionType`, of which the sources name `PmemRegion` only. -/
inductive RegionType where
  | PmemRegion
  | other (name : String)
deriving DecidableEq, Repr

/-- What startup reads of an active region through its handle, at one moment:
`VgName` is `pmemcommon.VgName(bus, r)`, the other fields are the methods of
`ndctl.Region` of the same name. -/
structure RegionView where
  VgName : String
  RegionType : RegionType
  DeviceName : String
  Size : Nat
  AvailableSize : Nat
  MaxAvailableExtent : Nat
  InterleaveWays : Nat
  ActiveNamespaces : List Namespace
deriving DecidableEq, Repr

/-- Go `mount.MountPoint`, as far as `NewPmemDeviceManagerNdctl` reads it. -/
structure MountPoint where
  Device : String
  Path : String
  Opts : List String
deriving DecidableEq, Repr

/-- The collaborators of startup, in addition to those of `Env`. A bus is named by
its index in `GetBuses`, a region by the handle that `ActiveRegions` gives. -/
structure StartupEnv (W : Type) extends Env W where
  /-- Collaborator `Bus.ActiveRegions`: the handles of the active regions of a bus. -/
  ActiveRegions : W → Nat → List Nat
  /-- The methods of `ndctl.Region` that read the present state of a region. -/
  Region : W → Nat → Nat → RegionView
  /-- Collaborator `Region.CreateNamespace`. -/
  RegionCreateNamespace : W → Nat → Nat → CreateNamespaceOpts → Except GoError Namespace × W
  /-- Collaborator `mount.New("").List()`; its error is discarded by the caller. -/
  MountList : W → List MountPoint × W

/-- Call of `bus.ActiveRegions`, recorded in the trace. -/
def ndctl.ActiveRegions (env : StartupEnv W) (bus : Nat) (s : Sys W) : List Nat × Sys W :=
  (env.ActiveRegions s.world bus, ⟨s.world, s.trace ++ [Call.ActiveRegions bus]⟩)

/-- Call of `r.CreateNamespace`, recorded in the trace. -/
def ndctl.RegionCreateNamespace (env : StartupEnv W) (bus region : Nat)
    (opts : CreateNamespaceOpts) (s : Sys W) : Except GoError Namespace × Sys W :=
  let r := env.RegionCreateNamespace s.world bus region opts
  (r.1, ⟨r.2, s.trace ++ [Call.RegionCreateNamespace bus region opts]⟩)

/-- Call of `mount.New("").List()`, recorded in the trace. -/
def mount.List (env : StartupEnv W) (s : Sys W) : List MountPoint × Sys W :=
  let r := env.MountList s.world
  (r.1, ⟨r.2, s.trace ++ [Call.MountList]⟩)

/-- Constant `GB` of pmd-lvm.go. -/
def GB : Nat := 1024 * 1024 * 1024

/-- Subtraction on `uint64`. -/
def sub64 (a b : Nat) : Nat := (a + 2 ^ 64 - b % 2 ^ 64) % 2 ^ 64

/-- Loop of `setupNS` over the active namespaces (lines 320 to 331): the size of
every namespace named `pmem-csi` is subtracted in `uint64`, the difference is read
as an `int64`, and a difference that is not positive gives `0`. -/
def setupNS.subtract (canUse : Nat) : List Namespace → Nat
  | [] => canUse
  | ns :: rest =>
    if ns.Name ≠ "pmem-csi" then setupNS.subtract canUse rest
    else
      let diff := sub64 canUse ns.Size
      if diff = 0 ∨ 2 ^ 63 ≤ diff then setupNS.subtract 0 rest
      else setupNS.subtract diff rest

/-- The size that `setupNS` computes for a region (lines 314 to 345); `none` is the
run-time panic of an integer division by zero. -/
def setupNS.canUse (r : RegionView) (percentage : Nat) : Option Nat :=
  let align := GB
  let realalign := mul64 align r.InterleaveWays
  let canUse := mul64 percentage (r.Size / 100)
  let canUse := setupNS.subtract canUse r.ActiveNamespaces
  let canUse := if r.AvailableSize < canUse then r.AvailableSize else canUse
  let canUse := if r.MaxAvailableExtent < canUse then r.MaxAvailableExtent else canUse
  if realalign = 0 then none
  else some (mul64 (canUse / realalign) realalign)

/-- Function `setupNS`; `none` is the run-time panic of an integer division by
zero. -/
def setupNS (env : StartupEnv W) (bus region : Nat) (percentage : Nat) (s : Sys W) :
    Option (Option GoError × Sys W) :=
  let r := env.Region s.world bus region
  match setupNS.canUse r percentage with
  | none => none
  | some canUse =>
    let minsize := 2 * GB
    if canUse ≥ minsize then
      match ndctl.RegionCreateNamespace env bus region
          { Name := "pmem-csi", Size := canUse, Align := GB, Mode := "fsdax" } s with
      | (.error err, s1) =>
        some (some (.errorfErr
          "failed to create PMEM namespace with size '%d' in region '%s': %v"
          [FormatUint canUse, r.DeviceName] err), s1)
      | (.ok _, s1) => some (none, s1)
    else some (none, s)

/-- Loop of `setupVG` over the namespaces: the block devices of the namespaces
named `pmem-csi` that `pvs` does not report as part of a volume group. -/
def setupVG.devNames (env : Env W) : List Namespace → Sys W → List String × Sys W
  | [], s => ([], s)
  | ns :: rest, s =>
    if ns.Name = "pmem-csi" then
      let devName := "/dev/" ++ ns.BlockDeviceName
      match pmemexec.RunCommand env "pvs" ["--noheadings", "-o", "vg_name", devName] s with
      | (.error _, s1) =>
        let r := setupVG.devNames env rest s1
        (devName :: r.1, r.2)
      | (.ok output, s1) =>
        let r := setupVG.devNames env rest s1
        if (TrimSpace output).length = 0 then (devName :: r.1, r.2) else r
    else setupVG.devNames env rest s

/-- Function `setupVG`. -/
def setupVG (env : StartupEnv W) (bus region : Nat) (vgName : String) (s : Sys W) :
    Option GoError × Sys W :=
  let nsArray := (env.Region s.world bus region).ActiveNamespaces
  if nsArray.length = 0 then (none, s)
  else
    match setupVG.devNames env.toEnv nsArray s with
    | (devNames, s1) =>
      if devNames.length = 0 then (none, s1)
      else
        match (match pmemexec.RunCommand env.toEnv "vgdisplay" [vgName] s1 with
            | (.error _, s2) => ("vgcreate", s2)
            | (.ok _, s2) => ("vgextend", s2)) with
        | (cmd, s2) =>
          match pmemexec.RunCommand env.toEnv cmd (["--force", vgName] ++ devNames) s2 with
          | (.error err, s3) =>
            (some (.errorfErr "failed to create/extend volume group '%s': %v" [vgName] err), s3)
          | (.ok _, s3) => (none, s3)

/-- Function `NewPmemDeviceManagerLVMForVGs`. -/
def NewPmemDeviceManagerLVMForVGs (env : Env W) (volumeGroups : List String) (s : Sys W) :
    Except GoError pmemLvm × Sys W :=
  match listDevices env volumeGroups s with
  | (.error err, s1) => (.error err, s1)
  | (.ok devices, s1) => (.ok { volumeGroups := volumeGroups, devices := devices }, s1)

/-- Inner loop of `NewPmemDeviceManagerLVM` over the active regions of a bus. -/
def NewPmemDeviceManagerLVM.regions (env : StartupEnv W) (pmemPercentage : Nat) (bus : Nat) :
    List Nat → List String → Sys W → Option (Except GoError (List String) × Sys W)
  | [], volumeGroups, s => some (.ok volumeGroups, s)
  | r :: rest, volumeGroups, s =>
    let view := env.Region s.world bus r
    let vgName := view.VgName
    if view.RegionType ≠ .PmemRegion then
      NewPmemDeviceManagerLVM.regions env pmemPercentage bus rest volumeGroups s
    else
      match setupNS env bus r pmemPercentage s with
      | none => none
      | some (some err, s1) => some (.error err, s1)
      | some (none, s1) =>
        match setupVG env bus r vgName s1 with
        | (some err, s2) => some (.error err, s2)
        | (none, s2) =>
          match pmemexec.RunCommand env.toEnv "vgs" [vgName] s2 with
          | (.error _, s3) =>
            NewPmemDeviceManagerLVM.regions env pmemPercentage bus rest volumeGroups s3
          | (.ok _, s3) =>
            NewPmemDeviceManagerLVM.regions env pmemPercentage bus rest
              (volumeGroups ++ [vgName]) s3

/-- Outer loop of `NewPmemDeviceManagerLVM` over the buses. -/
def NewPmemDeviceManagerLVM.buses (env : StartupEnv W) (pmemPercentage : Nat) :
    List Nat → List String → Sys W → Option (Except GoError (List String) × Sys W)
  | [], volumeGroups, s => some (.ok volumeGroups, s)
  | bus :: rest, volumeGroups, s =>
    match ndctl.ActiveRegions env bus s with
    | (regions, s1) =>
      match NewPmemDeviceManagerLVM.regions env pmemPercentage bus regions volumeGroups s1 with
      | none => none
      | some (.error err, s2) => some (.error err, s2)
      | some (.ok volumeGroups1, s2) =>
        NewPmemDeviceManagerLVM.buses env pmemPercentage rest volumeGroups1 s2

/-- Lines 46 to 75 of `NewPmemDeviceManagerLVM`, the body that runs with the mutex
held: the context is opened, every suitable region is provisioned, the manager is
built, and the deferred `Free` runs when the body returns. -/
def NewPmemDeviceManagerLVM.provision (env : StartupEnv W) (pmemPercentage : Nat)
    (s : Sys W) : Option (Except GoError pmemLvm × Sys W) :=
  match ndctl.NewContext env.toEnv s with
  | (some err, s1) => some (.error err, s1)
  | (none, s1) =>
    match ndctl.GetBuses env.toEnv s1 with
    | (buses, s2) =>
      match NewPmemDeviceManagerLVM.buses env pmemPercentage (List.range buses.length) [] s2 with
      | none => none
      | some (.error err, s3) => some (.error err, ndctl.Free s3)
      | some (.ok volumeGroups, s3) =>
        match NewPmemDeviceManagerLVMForVGs env.toEnv volumeGroups s3 with
        | (r, s4) => some (r, ndctl.Free s4)

/-- What a run of `NewPmemDeviceManagerLVM` does, in order: `Lock` is
`lvmMutex.Lock()` (line 43), `Unlock` is the deferred `lvmMutex.Unlock()` (line 44),
which runs after the deferred `Free`, and `call` is a call to a collaborator. -/
inductive StartupStep where
  | Lock
  | Unlock
  | call (c : Call)
deriving DecidableEq, Repr

/-- Function `NewPmemDeviceManagerLVM`, started in the world `w`: what it returns,
the world afterwards and the steps it took, in order. The range check (lines 40 to
42) comes first and returns without a step; otherwise the mutex is taken, the body
runs and the mutex is released. `none` is the run-time panic of an integer division
by zero in `setupNS`. -/
def NewPmemDeviceManagerLVM (env : StartupEnv W) (pmemPercentage : Nat) (w : W) :
    Option (Except GoError pmemLvm × W × List StartupStep) :=
  if pmemPercentage > 100 then
    some (.error (.errorf "invalid pmemPercentage '%d'. Value must be 0..100"
      [FormatUint pmemPercentage]), w, [])
  else
    match NewPmemDeviceManagerLVM.provision env pmemPercentage ⟨w, []⟩ with
    | none => none
    | some (r, s1) =>
      some (r, s1.world,
        [StartupStep.Lock] ++ s1.trace.map StartupStep.call ++ [StartupStep.Unlock])

/-- Loop of `NewPmemDeviceManagerNdctl` over the options of the `/sys` mount. -/
def NewPmemDeviceManagerNdctl.options (pmemPercentage : Nat) :
    List String → Except GoError pmemNdctl
  | [] => .error (.errorf
      "FATAL: /sys mount entry exists but does not have neither 'rw' or 'ro' option" [])
  | opt :: rest =>
    if opt = "rw" then .ok { pmemPercentage := pmemPercentage }
    else if opt = "ro" then
      .error (.errorf "FATAL: /sys mounted read-only, can not operate" [])
    else NewPmemDeviceManagerNdctl.options pmemPercentage rest

/-- Loop of `NewPmemDeviceManagerNdctl` over the mounts. -/
def NewPmemDeviceManagerNdctl.mounts (pmemPercentage : Nat) :
    List MountPoint → Except GoError pmemNdctl
  | [] => .error (.errorf "FATAL: /sys mount entry not present" [])
  | mnt :: rest =>
    if mnt.Device = "sysfs" ∧ mnt.Path = "/sys" then
      NewPmemDeviceManagerNdctl.options pmemPercentage mnt.Opts
    else NewPmemDeviceManagerNdctl.mounts pmemPercentage rest

/-- Function `NewPmemDeviceManagerNdctl`. -/
def NewPmemDeviceManagerNdctl (env : StartupEnv W) (pmemPercentage : Nat) (s : Sys W) :
    Except GoError pmemNdctl × Sys W :=
  if pmemPercentage > 100 then
    (.error (.errorf "invalid pmemPercentage '%d'. Value must be 0..100"
      [FormatUint pmemPercentage]), s)
  else
    match mount.List env s with
    | (mounts, s1) => (NewPmemDeviceManagerNdctl.mounts pmemPercentage mounts, s1)

/-- A host with one bus and one active region of 16 GiB, entirely available, on one
module, without namespaces, and with `/sys` mounted read-write; the commands and
the library answer as in `twoPools`. -/
def oneRegionHost : StartupEnv Unit :=
  { twoPools.env with
    ActiveRegions := fun _ _ => [0]
    Region := fun _ _ _ =>
      { VgName := "ndbus0region0", RegionType := .PmemRegion, DeviceName := "region0",
        Size := 17179869184, AvailableSize := 17179869184,
        MaxAvailableExtent := 17179869184, InterleaveWays := 1, ActiveNamespaces := [] }
    RegionCreateNamespace := fun w _ _ opts =>
      (.ok ⟨opts.Name, "pmem0", opts.Size, opts.Mode⟩, w)
    MountList := fun w =>
      ([⟨"proc", "/proc", ["rw"]⟩, ⟨"sysfs", "/sys", ["nosuid", "rw"]⟩], w) }

/-! ## Sequences of calls on the pool backend -/

/-- One call of a sequence of calls on the pool backend. -/
inductive Op where
  | CreateDevice (volumeId : String) (size : Nat)
  | DeleteDevice (volumeId : String) (flush : Bool)
deriving DecidableEq, Repr

/-- One call on the pool backend, whatever it returns: the manager and the system
afterwards. -/
def pmemLvm.call (env : Env W) (lvm : pmemLvm) (op : Op) (s : Sys W) : pmemLvm × Sys W :=
  match op with
  | .CreateDevice volumeId size =>
    ((pmemLvm.CreateDevice env lvm volumeId size s).1.2,
      (pmemLvm.CreateDevice env lvm volumeId size s).2)
  | .DeleteDevice volumeId flush =>
    ((pmemLvm.DeleteDevice env lvm volumeId flush s).1.2,
      (pmemLvm.DeleteDevice env lvm volumeId flush s).2)

/-- A sequence of calls on the pool backend, one after the other. -/
def pmemLvm.calls (env : Env W) : List Op → pmemLvm → Sys W → pmemLvm × Sys W
  | [], lvm, s => (lvm, s)
  | op :: rest, lvm, s =>
    pmemLvm.calls env rest (pmemLvm.call env lvm op s).1 (pmemLvm.call env lvm op s).2

/-- What the cache of the pool backend can rely on in a tool. `vols w` are the
volumes of the managed pools in the world `w`, by name.

* The listing of the managed pools succeeds and shows exactly `vols`; listing and
  the pool inventory change no volume.
* A failed `lvcreate` or `lvremove` changes no volume; a successful `lvremove` of
  the path of a volume removes that volume and no other.
* After a successful `lvcreate` the listing of its pool shows the new volume, the
  device node of the volume appears, zeroing it succeeds, and the volumes are then
  the ones from before and the new one.
* Clearing a device changes no volume, and does not report a volume as not found
  that the tool has. -/
structure FaithfulTool (env : Env W) (volumeGroups : List String)
    (vols : W → String → Option PmemDeviceInfo) : Prop where
  lvs_managed : ∀ w, ∃ output,
    (env.RunCommand w "lvs" (lvsArgs ++ volumeGroups)).1 = .ok output ∧
      ∀ k, (parseLVSOutput output).1.get k = vols w k
  lvs_keeps : ∀ w args k, vols (env.RunCommand w "lvs" args).2 k = vols w k
  vgs_keeps : ∀ w args k, vols (env.RunCommand w "vgs" args).2 k = vols w k
  lvcreate_failed : ∀ w args err w1,
    env.RunCommand w "lvcreate" args = (.error err, w1) → ∀ k, vols w1 k = vols w k
  lvcreate_done : ∀ w strSz volumeId vgName output w1,
    env.RunCommand w "lvcreate" (lvcreateArgs strSz volumeId vgName) = (.ok output, w1) →
    ∃ listing device,
      (env.RunCommand w1 "lvs" (lvsArgs ++ [vgName])).1 = .ok listing ∧
      (parseLVSOutput listing).1.get volumeId = some device ∧
      (env.waitDeviceAppears (env.RunCommand w1 "lvs" (lvsArgs ++ [vgName])).2 device).1 =
        none ∧
      (env.clearDevice (env.waitDeviceAppears
        (env.RunCommand w1 "lvs" (lvsArgs ++ [vgName])).2 device).2 device false).1 = none ∧
      ∀ k, vols (env.clearDevice (env.waitDeviceAppears
          (env.RunCommand w1 "lvs" (lvsArgs ++ [vgName])).2 device).2 device false).2 k =
        if k = volumeId then some device else vols w k
  lvremove_failed : ∀ w args err w1,
    env.RunCommand w "lvremove" args = (.error err, w1) → ∀ k, vols w1 k = vols w k
  lvremove_done : ∀ w device output w1, vols w device.VolumeId = some device →
    env.RunCommand w "lvremove" ["-fy", device.Path] = (.ok output, w1) →
    ∀ k, vols w1 k = if k = device.VolumeId then none else vols w k
  clear_keeps : ∀ w device flush k, vols (env.clearDevice w device flush).2 k = vols w k
  clear_found : ∀ w device flush err, vols w device.VolumeId = some device →
    (env.clearDevice w device flush).1 = some err → errorsIs err .ErrDeviceNotFound = false

/-- The volume that `oneVolumeHost` has room for. -/
def smallV1 : PmemDeviceInfo := ⟨"v1", "/dev/vg0/v1", 4194304⟩

/-- A host with one pool `vg0` of 4 MiB, which has room for one volume only, `v1` of
4 MiB: the world says whether `v1` exists. `lvs` lists it, `lvcreate` creates it
when it does not exist, `lvremove` removes it when it exists, every other request
to create or remove fails, and clearing a device answers `clear`. -/
def oneVolumeHost (clear : Option GoError) : Env Bool where
  RunCommand := fun w cmd args =>
    if cmd = "vgs" then
      (.ok (if w then "  vg0 4194304 0\n" else "  vg0 4194304 4194304\n"), w)
    else if cmd = "lvs" then
      (.ok (if w then "  v1 /dev/vg0/v1 4194304\n" else ""), w)
    else if cmd = "lvcreate" then
      if args = lvcreateArgs "4194304B" "v1" "vg0" ∧ w = false then (.ok "", true)
      else (.error (.tool "lvcreate failed"), w)
    else if cmd = "lvremove" then
      if args = ["-fy", "/dev/vg0/v1"] ∧ w = true then (.ok "", false)
      else (.error (.tool "lvremove failed"), w)
    else (.error (.tool "unknown command"), w)
  clearDevice := fun w _ _ => (clear, w)
  waitDeviceAppears := fun w _ => (none, w)
  NewContext := fun w => (none, w)
  GetBuses := fun _ => []
  GetNamespaceByName := fun w _ => (.error .ErrNotExist, w)
  CreateNamespace := fun w _ => (.error (.tool "no region"), w)
  DestroyNamespaceByName := fun w _ => (none, w)

/-- The volumes of `oneVolumeHost`, by name. -/
def oneVolumeHost.vols (w : Bool) (k : String) : Option PmemDeviceInfo :=
  if w = true ∧ k = "v1" then some smallV1 else none

/-! ## The allocation attempts of the pool backend -/

/-- The `lvcreate` attempts of one allocation as the specification words them
(scan the pools in the reported order, try a pool with `free ≥ size`, continue
with the next pool after a failure, end the scan at the first success): the pools
tried, each with the outcome of its `lvcreate` (`true` for success), and the world
after the last attempt. -/
def lvcreateAttempts (env : Env W) (strSz volumeId : String) (size : Nat) :
    List vgInfo → W → List (vgInfo × Bool) × W
  | [], w => ([], w)
  | vg :: rest, w =>
    if vg.free ≥ size then
      match env.RunCommand w "lvcreate" (lvcreateArgs strSz volumeId vg.name) with
      | (.error _, w1) =>
        ((vg, false) :: (lvcreateAttempts env strSz volumeId size rest w1).1,
          (lvcreateAttempts env strSz volumeId size rest w1).2)
      | (.ok _, w1) => ([(vg, true)], w1)
    else lvcreateAttempts env strSz volumeId size rest w

/-- The `lvcreate` call of an attempt. -/
def lvcreateCall (strSz volumeId : String) (a : vgInfo × Bool) : Call :=
  Call.RunCommand "lvcreate" (lvcreateArgs strSz volumeId a.1.name)

/-! ## Rows of the listings -/

/-- A pool record as the specification words it: read from a row with exactly three
whitespace-separated columns (name, size, free); no record for any other row. -/
def vgRow (row : String) : Option vgInfo :=
  match Fields row with
  | [f0, f1, f2] => some ⟨f0, ParseUint f1, ParseUint f2⟩
  | _ => none

/-- As `twoPools`, but the pool listing has one row only, without a line break at
its end. -/
def oneRowListed : Fixture := { twoPools with vgs := .ok "  vg0 10737418240 10737418240" }

/-- As `twoPools`, but the pool listing spreads one record over three rows. -/
def columnPerRow : Fixture := { twoPools with vgs := .ok "vg0\n10737418240\n10737418240\n" }

/-- The number that a run of decimal digits denotes after the digits already read
gave `n`. -/
def decimalDigits (cs : List Char) (n : Nat) : Nat :=
  cs.foldl (fun n c => n * 10 + (c.toNat - 48)) n

/-- The decimal value of a text: the number it denotes when it is a non-empty run
of decimal digits, none otherwise. -/
def decimalValue (s : String) : Option Nat :=
  if s.toList ≠ [] ∧ s.toList.all Char.isDigit = true then some (decimalDigits s.toList 0)
  else none

/-! ## A host with two pools on which zeroing fails -/

/-- A host with two pools `vg0` and `vg1` of 8 MiB each, on which a volume `v1` of
4 MiB can be created once per pool: the world says whether `v1` exists in `vg0` and
whether it exists in `vg1`. `vgs` and `lvs` report what exists, `lvcreate` creates
`v1` in a pool that does not have it and fails in a pool that has it, the device
node of a created volume appears, and zeroing a device always fails. -/
def zeroingFailsHost : Env (Bool × Bool) where
  RunCommand := fun w cmd args =>
    if cmd = "vgs" then
      (.ok ((if w.1 then "  vg0 8388608 4194304\n" else "  vg0 8388608 8388608\n") ++
        (if w.2 then "  vg1 8388608 4194304\n" else "  vg1 8388608 8388608\n")), w)
    else if cmd = "lvs" then
      if args = lvsArgs ++ ["vg0"] then
        (.ok (if w.1 then "  v1 /dev/vg0/v1 4194304\n" else ""), w)
      else if args = lvsArgs ++ ["vg1"] then
        (.ok (if w.2 then "  v1 /dev/vg1/v1 4194304\n" else ""), w)
      else
        (.ok ((if w.1 then "  v1 /dev/vg0/v1 4194304\n" else "") ++
          (if w.2 then "  v1 /dev/vg1/v1 4194304\n" else "")), w)
    else if cmd = "lvcreate" then
      if args = lvcreateArgs "4194304B" "v1" "vg0" ∧ w.1 = false then (.ok "", (true, w.2))
      else if args = lvcreateArgs "4194304B" "v1" "vg1" ∧ w.2 = false then (.ok "", (w.1, true))
      else (.error (.tool "lvcreate failed"), w)
    else (.error (.tool "unknown command"), w)
  clearDevice := fun w _ _ => (some (.tool "zeroing failed"), w)
  waitDeviceAppears := fun w _ => (none, w)
  NewContext := fun w => (none, w)
  GetBuses := fun _ => []
  GetNamespaceByName := fun w _ => (.error .ErrNotExist, w)
  CreateNamespace := fun w _ => (.error (.tool "no region"), w)
  DestroyNamespaceByName := fun w _ => (none, w)

/-! ## The steps of `setupNS` -/

/-- Line 316 of `setupNS`: the desired usable size of a region,
`uint64(percentage) * (r.Size() / 100)`. -/
def setupNS.desired (r : RegionView) (percentage : Nat) : Nat :=
  mul64 percentage (r.Size / 100)

/-- Lines 334 to 342 of `setupNS`: the size is limited to the available size of the
region, then to its maximum available extent. -/
def setupNS.clamp (r : RegionView) (canUse : Nat) : Nat :=
  let canUse := if r.AvailableSize < canUse then r.AvailableSize else canUse
  if r.MaxAvailableExtent < canUse then r.MaxAvailableExtent else canUse

/-- A host as `oneRegionHost` whose region reports an interleave width of `2 ^ 34`. -/
def wideInterleaveHost : StartupEnv Unit :=
  { oneRegionHost with
    Region := fun _ _ _ =>
      { VgName := "ndbus0region0", RegionType := .PmemRegion, DeviceName := "region0",
        Size := 17179869184, AvailableSize := 17179869184,
        MaxAvailableExtent := 17179869184, InterleaveWays := 17179869184,
        ActiveNamespaces := [] } }

/-- A host as `oneRegionHost` whose region reports an interleave width of
`2 ^ 34 + 1`. -/
def widerInterleaveHost : StartupEnv Unit :=
  { oneRegionHost with
    Region := fun _ _ _ =>
      { VgName := "ndbus0region0", RegionType := .PmemRegion, DeviceName := "region0",
        Size := 17179869184, AvailableSize := 17179869184,
        MaxAvailableExtent := 17179869184, InterleaveWays := 17179869185,
        ActiveNamespaces := [] } }

/-- A region of 16 GiB on one module that already holds two namespaces named
`pmem-csi`, of 4 GiB and 2 GiB, and a namespace of another name. -/
def restartedRegion : RegionView :=
  { VgName := "ndbus0region0", RegionType := .PmemRegion, DeviceName := "region0",
    Size := 17179869184, AvailableSize := 6442450944, MaxAvailableExtent := 6442450944,
    InterleaveWays := 1,
    ActiveNamespaces := [⟨"pmem-csi", "pmem0", 4294967296, "fsdax"⟩,
      ⟨"other", "pmem1", 4294967296, "fsdax"⟩, ⟨"pmem-csi", "pmem2", 2147483648, "fsdax"⟩] }

/-! ## pmem-grpc: endpoints -/

/-- Go `unicode.ToLower` on the characters that it maps into ASCII: the letters `A`
to `Z`, the capital I with dot above (U+0130, mapped to `i`) and the Kelvin sign
(U+212A, mapped to `k`). Go maps every other character to itself or to a character
outside ASCII; such a character is left as it is here, which a comparison of the
result with ASCII text, the only use `parseEndpoint` makes of it, cannot tell
apart. -/
def unicode.ToLower (c : Char) : Char :=
  if c.toNat = 0x130 then 'i' else if c.toNat = 0x212A then 'k' else c.toLower

/-- Go `strings.ToLower`: `unicode.ToLower` on every character. -/
def ToLower (s : String) : String := String.mk (s.toList.map unicode.ToLower)

/-- Go `strings.HasPrefix`. -/
def HasPrefix (s p : String) : Bool := p.toList.isPrefixOf s.toList

/-- Search of the first occurrence of a separator: the characters before it,
collected in `before` in reverse, and the characters after it. -/
def splitOnceAux (sep : List Char) : List Char → List Char → Option (List Char × List Char)
  | _, [] => none
  | before, c :: cs =>
    if sep.isPrefixOf (c :: cs) then some (before.reverse, (c :: cs).drop sep.length)
    else splitOnceAux sep (c :: before) cs

/-- Go `strings.SplitN(s, sep, 2)` for a separator that is not empty: the text
before the first separator and the text after it, or the text alone when it has no
separator. -/
def SplitN2 (s sep : String) : List String :=
  match splitOnceAux sep.toList [] s.toList with
  | some (a, b) => [String.mk a, String.mk b]
  | none => [s]

/-- Function `parseEndpoint` of grpc.go: protocol and address, or the error; `none`
is the run-time panic of an index out of range at `s[1]`. -/
def parseEndpoint (ep : String) : Option (Except GoError (String × String)) :=
  if HasPrefix (ToLower ep) "unix://" || HasPrefix (ToLower ep) "tcp://" then
    match SplitN2 ep "://" with
    | s0 :: s1 :: _ =>
      if s1 ≠ "" then some (.ok (s0, s1))
      else some (.error (.errorf "Invalid endpoint: %v" [ep]))
    | _ => none
  else some (.error (.errorf "Invalid endpoint: %v" [ep]))

/-- What `Connect` and `NewServer` do with the protocol and the address of the
endpoint. -/
inductive EndpointStep where
  | SetDefaultScheme (scheme : String)
  | WithDialer
  | Dial (address : String)
  | Remove (path : String)
  | Listen (network address : String)
deriving DecidableEq, Repr

/-- Function `Connect` of grpc.go, as far as it depends on the endpoint: the
resolver scheme set for `tcp` (line 44), the unix dialer added for `unix`
(line 46) and the call of `grpc.Dial` with the address (line 54). -/
def Connect (endpoint : String) : Option (Except GoError (List EndpointStep)) :=
  match parseEndpoint endpoint with
  | none => none
  | some (.error err) => some (.error err)
  | some (.ok (proto, address)) =>
    let steps :=
      if proto = "tcp" then [EndpointStep.SetDefaultScheme "dns"]
      else if proto = "unix" then [EndpointStep.WithDialer]
      else []
    some (.ok (steps ++ [EndpointStep.Dial address]))

/-- Function `NewServer` of grpc.go up to the call of `net.Listen` (lines 59 to
70): for `unix` the socket file is removed first, `remove` being the answer of
`os.Remove`, and a failure other than a missing file is returned. -/
def NewServer (remove : String → Option GoError) (endpoint : String) :
    Option (Except GoError (List EndpointStep)) :=
  match parseEndpoint endpoint with
  | none => none
  | some (.error err) => some (.error err)
  | some (.ok (proto, addr)) =>
    if proto = "unix" then
      match remove addr with
      | some err =>
        if !errorsIs err .ErrNotExist then some (.error err)
        else some (.ok [EndpointStep.Remove addr, EndpointStep.Listen proto addr])
      | none => some (.ok [EndpointStep.Remove addr, EndpointStep.Listen proto addr])
    else some (.ok [EndpointStep.Listen proto addr])

/-! # Theorems -/

/-! ## Association-list facts -/

theorem DeviceMap.get_delete_self (m : DeviceMap) (k : String) :
    DeviceMap.get (DeviceMap.delete m k) k = none := by
  induction m with
  | nil => rfl
  | cons p rest ih =>
    obtain ⟨k1, v⟩ := p
    by_cases h : k1 = k
    · simpa [DeviceMap.delete, List.filter_cons, h] using ih
    · simpa [DeviceMap.delete, List.filter_cons, h, DeviceMap.get] using ih

theorem DeviceMap.get_delete_ne (m : DeviceMap) (k id : String) (hne : id ≠ k) :
    DeviceMap.get (DeviceMap.delete m k) id = DeviceMap.get m id := by
  induction m with
  | nil => rfl
  | cons p rest ih =>
    obtain ⟨k1, v⟩ := p
    by_cases h : k1 = k
    · subst h
      have h2 : ¬ k1 = id := fun e => hne e.symm
      simpa [DeviceMap.delete, List.filter_cons, DeviceMap.get, h2] using ih
    · by_cases h3 : k1 = id
      · subst h3
        simp [DeviceMap.delete, List.filter_cons, h, DeviceMap.get]
      · simpa [DeviceMap.delete, List.filter_cons, h, DeviceMap.get, h3] using ih

theorem DeviceMap.get_set_self (m : DeviceMap) (k : String) (v : PmemDeviceInfo) :
    DeviceMap.get (DeviceMap.set m k v) k = some v := by
  simp [DeviceMap.set, DeviceMap.get]

theorem DeviceMap.get_set_ne (m : DeviceMap) (k id : String) (v : PmemDeviceInfo)
    (hne : id ≠ k) : DeviceMap.get (DeviceMap.set m k v) id = DeviceMap.get m id := by
  have h : ¬ k = id := fun e => hne e.symm
  simp [DeviceMap.set, DeviceMap.get, h, DeviceMap.get_delete_ne m k id hne]

/-! ## Alignment -/

theorem lvmAlignedSize_spec (size : Nat) (hpos : 0 < size) (hfit : size + lvmAlign ≤ 2 ^ 64) :
    lvmAlign ∣ lvmAlignedSize size ∧ size ≤ lvmAlignedSize size ∧
    ∀ m, lvmAlign ∣ m → size ≤ m → lvmAlignedSize size ≤ m := by
  have hA : lvmAlign = 4194304 := by decide
  rw [hA] at hfit
  by_cases h : size % 4194304 = 0
  · have e : lvmAlignedSize size = size := by
      simp [lvmAlignedSize, hA, h]
    rw [e, hA]
    exact ⟨by omega, le_refl _, fun m _ hm => hm⟩
  · have e : lvmAlignedSize size = size + (4194304 - size % 4194304) := by
      have hlt : size + (4194304 - size % 4194304) < 2 ^ 64 := by omega
      have hw : add64 size (4194304 - size % 4194304) = size + (4194304 - size % 4194304) :=
        Nat.mod_eq_of_lt hlt
      simp [lvmAlignedSize, hA, h, hw]
    rw [e, hA]
    refine ⟨by omega, by omega, fun m hm1 hm2 => by omega⟩

/-! ## Listing volumes -/

theorem parseLVSOutputLoop_keyed (lines : List String) (devices : DeviceMap)
    (h : ∀ k d, DeviceMap.get devices k = some d → d.VolumeId = k) :
    ∀ k d, DeviceMap.get (parseLVSOutputLoop lines devices) k = some d → d.VolumeId = k := by
  induction lines generalizing devices with
  | nil => simpa [parseLVSOutputLoop] using h
  | cons line rest ih =>
    unfold parseLVSOutputLoop
    split
    · rename_i f0 f1 f2 _
      apply ih
      intro k d hk
      by_cases e : k = f0
      · subst e
        rw [DeviceMap.get_set_self] at hk
        cases hk
        rfl
      · rw [DeviceMap.get_set_ne _ _ _ _ e] at hk
        exact h k d hk
    · exact ih devices h

theorem getUncachedDevice_volumeId (env : Env W) (volumeId volumeGroup : String) (s s1 : Sys W)
    (dev : PmemDeviceInfo)
    (h : getUncachedDevice env volumeId volumeGroup s = (.ok dev, s1)) :
    dev.VolumeId = volumeId := by
  unfold getUncachedDevice listDevices at h
  split at h
  · cases h
  · rename_i devices s2 hl
    split at hl
    · cases hl
    · rename_i output s3 _
      split at hl
      · cases hl
      · rename_i devs hp
        simp only [parseLVSOutput, Prod.mk.injEq, and_true] at hp
        simp only [Prod.mk.injEq, Except.ok.injEq] at hl
        obtain ⟨hd, _⟩ := hl
        subst hd
        subst hp
        split at h
        · rename_i d hg
          simp only [Prod.mk.injEq, Except.ok.injEq] at h
          obtain ⟨hd, _⟩ := h
          subst hd
          exact parseLVSOutputLoop_keyed _ [] (by intro k d hk; cases hk) _ _ hg
        · cases h

/-! ## The allocation loop of the pool backend -/

theorem CreateDeviceLoop_error (env : Env W) (lvm : pmemLvm) (volumeId : String) (size : Nat)
    (strSz : String) (vgs : List vgInfo) (s s1 : Sys W) (err : GoError) (lvm1 : pmemLvm)
    (h : pmemLvm.CreateDeviceLoop env lvm volumeId size strSz vgs s = ((some err, lvm1), s1)) :
    lvm1 = lvm := by
  induction vgs generalizing s with
  | nil =>
    simp only [pmemLvm.CreateDeviceLoop, Prod.mk.injEq] at h
    exact h.1.2.symm
  | cons vg rest ih =>
    unfold pmemLvm.CreateDeviceLoop at h
    split at h
    · split at h
      · exact ih _ h
      · split at h
        · simp only [Prod.mk.injEq] at h
          exact h.1.2.symm
        · split at h
          · simp only [Prod.mk.injEq] at h
            exact h.1.2.symm
          · split at h
            · simp only [Prod.mk.injEq] at h
              exact h.1.2.symm
            · simp only [Prod.mk.injEq] at h
              cases h.1.1
    · exact ih _ h

theorem CreateDeviceLoop_success (env : Env W) (lvm : pmemLvm) (volumeId : String) (size : Nat)
    (strSz : String) (vgs : List vgInfo) (s s1 : Sys W) (lvm1 : pmemLvm)
    (h : pmemLvm.CreateDeviceLoop env lvm volumeId size strSz vgs s = ((none, lvm1), s1)) :
    ∃ vg ∈ vgs, ∃ (sa sb : Sys W) (device : PmemDeviceInfo),
      size ≤ vg.free ∧
      getUncachedDevice env volumeId vg.name sa = (.ok device, sb) ∧
      lvm1 = { lvm with devices := lvm.devices.set device.VolumeId device } := by
  induction vgs generalizing s with
  | nil =>
    simp only [pmemLvm.CreateDeviceLoop, Prod.mk.injEq] at h
    cases h.1.1
  | cons vg rest ih =>
    unfold pmemLvm.CreateDeviceLoop at h
    split at h
    · rename_i hfree
      split at h
      · obtain ⟨vg1, hm, r⟩ := ih _ h
        exact ⟨vg1, List.mem_cons_of_mem _ hm, r⟩
      · rename_i sa _
        split at h
        · simp only [Prod.mk.injEq] at h
          cases h.1.1
        · rename_i device sb hu
          split at h
          · simp only [Prod.mk.injEq] at h
            cases h.1.1
          · split at h
            · simp only [Prod.mk.injEq] at h
              cases h.1.1
            · simp only [Prod.mk.injEq] at h
              exact ⟨vg, List.mem_cons_self _ _, sa, sb, device, hfree, hu, h.1.2.symm⟩
    · obtain ⟨vg1, hm, r⟩ := ih _ h
      exact ⟨vg1, List.mem_cons_of_mem _ hm, r⟩

theorem CreateDeviceLoop_no_space (env : Env W) (lvm : pmemLvm) (volumeId : String) (size : Nat)
    (strSz : String) (vgs : List vgInfo) (s : Sys W) (h : ∀ vg ∈ vgs, vg.free < size) :
    pmemLvm.CreateDeviceLoop env lvm volumeId size strSz vgs s =
      ((some .ErrNotEnoughSpace, lvm), s) := by
  induction vgs with
  | nil => rfl
  | cons vg rest ih =>
    unfold pmemLvm.CreateDeviceLoop
    have h1 : ¬ vg.free ≥ size := Nat.not_le.mpr (h vg (List.mem_cons_self _ _))
    rw [if_neg h1]
    exact ih (fun v hv => h v (List.mem_cons_of_mem _ hv))

theorem getVolumeGroups_trace (env : Env W) (groups : List String) (s : Sys W) :
    (getVolumeGroups env groups s).2.trace =
      s.trace ++ [Call.RunCommand "vgs" (vgsArgs ++ groups)] := by
  unfold getVolumeGroups pmemexec.RunCommand
  split <;> rename_i h <;> simp only [Prod.mk.injEq] at h <;> obtain ⟨_, h2⟩ := h <;>
    subst h2 <;> rfl

/-! ## Claims -/

/-- C1 (code defect at the top of the `uint64` range): for the requested size
`2 ^ 64 - 1` the size adjustment of the pool backend's `CreateDevice` wraps around
to `0`, which is smaller than the request and not the smallest multiple of
`lvmAlign` above it, and `lvcreate` is invoked with the size text `0B`. -/
theorem C1_lvcreate_size_wraps_to_zero :
    lvmAlignedSize (2 ^ 64 - 1) = 0 ∧ ¬ (2 ^ 64 - 1 ≤ lvmAlignedSize (2 ^ 64 - 1)) ∧
    Call.RunCommand "lvcreate" ["-Zn", "-L", "0B", "-n", "v1", "vg0"] ∈
      (pmemLvm.CreateDevice twoPools.env emptyLvm "v1" (2 ^ 64 - 1) Sys.start).2.trace := by
  refine ⟨by decide, by decide, by decide⟩

/-- C2: when `volumeId` is already allocated, `CreateDevice` returns
`ErrDeviceExists` without any allocating call. Pool backend: the id is in the
cache, and then the manager (cache included) and the system (trace included) are
returned unchanged, so no command at all is run. Direct backend: the library
context opens and the name lookup finds a namespace, and then the only calls made
are `NewContext`, `GetNamespaceByName` and `Free`, so `CreateNamespace` is never
requested. -/
theorem C2_create_existing_fails_before_allocating (env : Env W) (lvm : pmemLvm)
    (pmem : pmemNdctl) (volumeId : String) (size : Nat) (s : Sys W) :
    (∀ dev, lvm.devices.get volumeId = some dev →
      pmemLvm.CreateDevice env lvm volumeId size s = ((some .ErrDeviceExists, lvm), s)) ∧
    (∀ ns w1 w2, env.NewContext s.world = (none, w1) →
      env.GetNamespaceByName w1 volumeId = (.ok ns, w2) →
      pmemNdctl.CreateDevice env pmem volumeId size s =
        (some .ErrDeviceExists,
          ⟨w2, s.trace ++ [Call.NewContext, Call.GetNamespaceByName volumeId, Call.Free]⟩)) := by
  constructor
  · intro dev h
    simp [pmemLvm.CreateDevice, pmemLvm.getDevice, h]
  · intro ns w1 w2 hc hn
    simp [pmemNdctl.CreateDevice, ndctl.NewContext, getDevice, ndctl.GetNamespaceByName,
      ndctl.Free, hc, hn]

/-- Witness of C2: `v1` is cached in the pool backend and resolvable by name in the
direct backend, and creating it again fails with `ErrDeviceExists` in both. -/
theorem C2_create_existing_fails_before_allocating_witness :
    pmemLvm.CreateDevice twoPools.env lvmWithV1 "v1" 1073741824 Sys.start =
      ((some .ErrDeviceExists, lvmWithV1), Sys.start) ∧
    pmemNdctl.CreateDevice twoPools.env ⟨100⟩ "v1" 1073741824 Sys.start =
      (some .ErrDeviceExists,
        ⟨(), [Call.NewContext, Call.GetNamespaceByName "v1", Call.Free]⟩) :=
  ⟨(C2_create_existing_fails_before_allocating twoPools.env lvmWithV1 ⟨100⟩ "v1" 1073741824
      Sys.start).1 devV1 (by decide),
   (C2_create_existing_fails_before_allocating twoPools.env lvmWithV1 ⟨100⟩ "v1" 1073741824
      Sys.start).2 ⟨"v1", "pmem0.1", 5368709120, "fsdax"⟩ () () rfl rfl⟩

/-- C3: when the pool backend's `CreateDevice volumeId size` succeeds, the cache
afterwards maps `volumeId` to a device whose `VolumeId` is `volumeId`, that device
being the one resolved by listing one pool again; every other id is mapped as
before; `GetDevice volumeId` then succeeds; and any further `CreateDevice` with the
same id fails with `ErrDeviceExists`, whatever the size and the tool do. -/
theorem C3_successful_create_registers_device (env : Env W) (lvm lvm1 : pmemLvm)
    (volumeId : String) (size : Nat) (s s1 : Sys W)
    (h : pmemLvm.CreateDevice env lvm volumeId size s = ((none, lvm1), s1)) :
    (∃ device, lvm1.devices.get volumeId = some device ∧ device.VolumeId = volumeId ∧
      (∃ (vgName : String) (sa sb : Sys W),
        getUncachedDevice env volumeId vgName sa = (.ok device, sb)) ∧
      pmemLvm.GetDevice lvm1 volumeId = .ok device) ∧
    (∀ id, id ≠ volumeId → lvm1.devices.get id = lvm.devices.get id) ∧
    (∀ (env2 : Env W) (size2 : Nat) (s2 : Sys W),
      pmemLvm.CreateDevice env2 lvm1 volumeId size2 s2 =
        ((some .ErrDeviceExists, lvm1), s2)) := by
  unfold pmemLvm.CreateDevice at h
  split at h
  · simp only [Prod.mk.injEq] at h
    cases h.1.1
  · split at h
    · simp only [Prod.mk.injEq] at h
      cases h.1.1
    · obtain ⟨vg, _, sa, sb, device, _, hu, hl⟩ := CreateDeviceLoop_success _ _ _ _ _ _ _ _ _ h
      have hid : device.VolumeId = volumeId := getUncachedDevice_volumeId _ _ _ _ _ _ hu
      have hget : lvm1.devices.get volumeId = some device := by
        rw [hl, hid]
        exact DeviceMap.get_set_self _ _ _
      refine ⟨⟨device, hget, hid, ⟨vg.name, sa, sb, hu⟩, ?_⟩, ?_, ?_⟩
      · simp [pmemLvm.GetDevice, pmemLvm.getDevice, hget]
      · intro id hne
        rw [hl, hid]
        exact DeviceMap.get_set_ne _ _ _ _ hne
      · intro env2 size2 s2
        simp [pmemLvm.CreateDevice, pmemLvm.getDevice, hget]

/-- Witness of C3: with pools of 10 GiB and 3 GiB free, creating `v1` of 5 GiB
succeeds; afterwards `v1` is cached and a second create is refused. -/
theorem C3_successful_create_registers_device_witness :
    pmemLvm.CreateDevice twoPools.env emptyLvm "v1" 5368709120 Sys.start =
      ((none, lvmWithV1),
        (pmemLvm.CreateDevice twoPools.env emptyLvm "v1" 5368709120 Sys.start).2) ∧
    pmemLvm.GetDevice lvmWithV1 "v1" = .ok devV1 ∧
    pmemLvm.CreateDevice twoPools.env lvmWithV1 "v1" 1073741824 Sys.start =
      ((some .ErrDeviceExists, lvmWithV1), Sys.start) :=
  ⟨rfl, rfl,
   (C3_successful_create_registers_device twoPools.env emptyLvm lvmWithV1 "v1" 5368709120
      Sys.start (pmemLvm.CreateDevice twoPools.env emptyLvm "v1" 5368709120 Sys.start).2
      rfl).2.2 twoPools.env 1073741824 Sys.start⟩

/-- C4: whenever the pool backend's `CreateDevice` returns an error, whatever the
cache, the id, the size and the answers of the tool, the manager afterwards has
the cache (and the pool list) it had before the call. -/
theorem C4_failed_create_leaves_cache_unchanged (env : Env W) (lvm lvm1 : pmemLvm)
    (volumeId : String) (size : Nat) (s s1 : Sys W) (err : GoError)
    (h : pmemLvm.CreateDevice env lvm volumeId size s = ((some err, lvm1), s1)) :
    lvm1.devices = lvm.devices ∧ lvm1.volumeGroups = lvm.volumeGroups := by
  have e : lvm1 = lvm := by
    unfold pmemLvm.CreateDevice at h
    split at h
    · simp only [Prod.mk.injEq] at h
      exact h.1.2.symm
    · split at h
      · simp only [Prod.mk.injEq] at h
        exact h.1.2.symm
      · exact CreateDeviceLoop_error _ _ _ _ _ _ _ _ _ _ h
  subst e
  exact ⟨rfl, rfl⟩

/-- Witness of C4: `lvcreate` succeeds but clearing the new device fails; the
create fails and the cache is still empty. -/
theorem C4_failed_create_leaves_cache_unchanged_witness :
    pmemLvm.CreateDevice clearFails.env emptyLvm "v1" 5368709120 Sys.start =
      ((some (.errorfErr "clear device %q: %v" ["v1"] (.tool "zeroing failed")), emptyLvm),
        (pmemLvm.CreateDevice clearFails.env emptyLvm "v1" 5368709120 Sys.start).2) ∧
    emptyLvm.devices = emptyLvm.devices ∧ emptyLvm.volumeGroups = emptyLvm.volumeGroups :=
  ⟨rfl, C4_failed_create_leaves_cache_unchanged clearFails.env emptyLvm emptyLvm "v1" 5368709120
    Sys.start (pmemLvm.CreateDevice clearFails.env emptyLvm "v1" 5368709120 Sys.start).2
    (.errorfErr "clear device %q: %v" ["v1"] (.tool "zeroing failed")) rfl⟩

/-- C5: in the pool backend, when `volumeId` is not cached, the pool listing
succeeds and every listed pool has `free` below the aligned size, `CreateDevice`
returns `ErrNotEnoughSpace` with the manager unchanged; the only call made is the
`vgs` listing, so `lvcreate` is never invoked. -/
theorem C5_exhausted_pools_give_not_enough_space (env : Env W) (lvm : pmemLvm)
    (volumeId : String) (size : Nat) (s s1 : Sys W) (vgs : List vgInfo)
    (hnew : lvm.devices.get volumeId = none)
    (hvgs : getVolumeGroups env lvm.volumeGroups s = ((vgs, none), s1))
    (hfree : ∀ vg ∈ vgs, vg.free < lvmAlignedSize size) :
    pmemLvm.CreateDevice env lvm volumeId size s = ((some .ErrNotEnoughSpace, lvm), s1) ∧
    s1.trace = s.trace ++ [Call.RunCommand "vgs" (vgsArgs ++ lvm.volumeGroups)] ∧
    (∀ args, Call.RunCommand "lvcreate" args ∈ s1.trace →
      Call.RunCommand "lvcreate" args ∈ s.trace) := by
  have htr : s1.trace = s.trace ++ [Call.RunCommand "vgs" (vgsArgs ++ lvm.volumeGroups)] := by
    have := getVolumeGroups_trace env lvm.volumeGroups s
    rw [hvgs] at this
    exact this
  refine ⟨?_, htr, ?_⟩
  · simp only [pmemLvm.CreateDevice, pmemLvm.getDevice, hnew, hvgs]
    exact CreateDeviceLoop_no_space _ _ _ _ _ _ _ hfree
  · intro args hmem
    rw [htr, List.mem_append] at hmem
    rcases hmem with hmem | hmem
    · exact hmem
    · simp at hmem

/-- Witness of C5: pools with 10 GiB and 3 GiB free cannot serve 11 GiB. -/
theorem C5_exhausted_pools_give_not_enough_space_witness :
    (∀ vg ∈ [vgInfo.mk "vg0" 10737418240 10737418240, vgInfo.mk "vg1" 3221225472 3221225472],
      vg.free < lvmAlignedSize 11811160064) ∧
    pmemLvm.CreateDevice twoPools.env emptyLvm "v9" 11811160064 Sys.start =
      ((some .ErrNotEnoughSpace, emptyLvm),
        ⟨(), [Call.RunCommand "vgs" (vgsArgs ++ ["vg0", "vg1"])]⟩) :=
  ⟨by decide,
   (C5_exhausted_pools_give_not_enough_space twoPools.env emptyLvm "v9" 11811160064 Sys.start
      ⟨(), [Call.RunCommand "vgs" (vgsArgs ++ ["vg0", "vg1"])]⟩
      [vgInfo.mk "vg0" 10737418240 10737418240, vgInfo.mk "vg1" 3221225472 3221225472]
      rfl rfl (by decide)).1⟩

/-- C6: deleting an id that is not allocated succeeds without touching anything.
Pool backend: an id absent from the cache gives success with the manager and the
system (trace included) unchanged, so neither clearing nor `lvremove` runs. Direct
backend: when the name lookup reports not-found, the result is success and the only
calls are `NewContext`, `GetNamespaceByName` and `Free`, so neither clearing nor
`DestroyNamespaceByName` runs. After any successful pool-backend delete the id is
absent from the cache, and deleting it again is such a success without effect. -/
theorem C6_delete_is_idempotent (env : Env W) (lvm : pmemLvm) (pmem : pmemNdctl)
    (volumeId : String) (flush : Bool) (s : Sys W) :
    (lvm.devices.get volumeId = none →
      pmemLvm.DeleteDevice env lvm volumeId flush s = ((none, lvm), s)) ∧
    (∀ err w1 w2, env.NewContext s.world = (none, w1) →
      env.GetNamespaceByName w1 volumeId = (.error err, w2) →
      errorsIs err .ErrNotExist = true →
      pmemNdctl.DeleteDevice env pmem volumeId flush s =
        (none, ⟨w2, s.trace ++ [Call.NewContext, Call.GetNamespaceByName volumeId, Call.Free]⟩)) ∧
    (∀ lvm1 s1, pmemLvm.DeleteDevice env lvm volumeId flush s = ((none, lvm1), s1) →
      lvm1.devices.get volumeId = none ∧
      ∀ (env2 : Env W) (flush2 : Bool) (s2 : Sys W),
        pmemLvm.DeleteDevice env2 lvm1 volumeId flush2 s2 = ((none, lvm1), s2)) := by
  have absent : ∀ (e : Env W) (l : pmemLvm) (f : Bool) (t : Sys W),
      l.devices.get volumeId = none →
      pmemLvm.DeleteDevice e l volumeId f t = ((none, l), t) := by
    intro e l f t h
    simp [pmemLvm.DeleteDevice, pmemLvm.getDevice, h, errorsIs]
  refine ⟨absent env lvm flush s, ?_, ?_⟩
  · intro err w1 w2 hc hn hnf
    simp [pmemNdctl.DeleteDevice, ndctl.NewContext, getDevice, ndctl.GetNamespaceByName,
      ndctl.Free, hc, hn, hnf, errorsIs]
  · intro lvm1 s1 h
    have hgone : lvm1.devices.get volumeId = none := by
      unfold pmemLvm.DeleteDevice pmemLvm.getDevice at h
      split at h
      · rename_i err hg
        split at hg
        · cases hg
        · rename_i hnone
          split at h
          · simp only [Prod.mk.injEq] at h
            rw [← h.1.2]
            exact hnone
          · simp only [Prod.mk.injEq] at h
            cases h.1.1
      · split at h
        · split at h
          · simp only [Prod.mk.injEq] at h
            rw [← h.1.2]
            exact DeviceMap.get_delete_self _ _
          · simp only [Prod.mk.injEq] at h
            cases h.1.1
        · split at h
          · simp only [Prod.mk.injEq] at h
            cases h.1.1
          · simp only [Prod.mk.injEq] at h
            rw [← h.1.2]
            exact DeviceMap.get_delete_self _ _
    exact ⟨hgone, fun env2 flush2 s2 => absent env2 lvm1 flush2 s2 hgone⟩

/-- Witness of C6: deleting the never-created `v9` succeeds in both backends, and
after `v1` has been deleted from the pool backend a second delete succeeds too. -/
theorem C6_delete_is_idempotent_witness :
    pmemLvm.DeleteDevice twoPools.env emptyLvm "v9" true Sys.start =
      ((none, emptyLvm), Sys.start) ∧
    pmemNdctl.DeleteDevice nothingAllocated.env ⟨100⟩ "v9" true Sys.start =
      (none, ⟨(), [Call.NewContext, Call.GetNamespaceByName "v9", Call.Free]⟩) ∧
    pmemLvm.DeleteDevice twoPools.env lvmWithV1 "v1" false Sys.start =
      ((none, emptyLvm),
        (pmemLvm.DeleteDevice twoPools.env lvmWithV1 "v1" false Sys.start).2) ∧
    pmemLvm.DeleteDevice twoPools.env emptyLvm "v1" false Sys.start =
      ((none, emptyLvm), Sys.start) :=
  ⟨(C6_delete_is_idempotent twoPools.env emptyLvm ⟨100⟩ "v9" true Sys.start).1 rfl,
   (C6_delete_is_idempotent nothingAllocated.env emptyLvm ⟨100⟩ "v9" true Sys.start).2.1
      .ErrNotExist () () rfl rfl rfl,
   rfl,
   ((C6_delete_is_idempotent twoPools.env lvmWithV1 ⟨100⟩ "v1" false Sys.start).2.2
      emptyLvm (pmemLvm.DeleteDevice twoPools.env lvmWithV1 "v1" false Sys.start).2 rfl).2
      twoPools.env false Sys.start⟩

/-- C7: when `DeleteDevice` finds the device but clearing it reports
`ErrDeviceNotFound`, the result is success and the removal step is not invoked.
Pool backend: the only call is the clearing, `lvremove` is not run, and the cache
afterwards is the old one without `volumeId`: that id is absent and every other id
is mapped as before. Direct backend: the only calls are `NewContext`,
`GetNamespaceByName`, the clearing and `Free`; `DestroyNamespaceByName` is not
requested. -/
theorem C7_device_gone_while_deleting (env : Env W) (lvm : pmemLvm) (pmem : pmemNdctl)
    (volumeId : String) (flush : Bool) (s : Sys W) :
    (∀ device err w1, lvm.devices.get volumeId = some device →
      env.clearDevice s.world device flush = (some err, w1) →
      errorsIs err .ErrDeviceNotFound = true →
      pmemLvm.DeleteDevice env lvm volumeId flush s =
        ((none, { lvm with devices := lvm.devices.delete volumeId }),
          ⟨w1, s.trace ++ [Call.clearDevice device flush]⟩) ∧
      (lvm.devices.delete volumeId).get volumeId = none ∧
      ∀ id, id ≠ volumeId → (lvm.devices.delete volumeId).get id = lvm.devices.get id) ∧
    (∀ ns err w1 w2 w3, env.NewContext s.world = (none, w1) →
      env.GetNamespaceByName w1 volumeId = (.ok ns, w2) →
      env.clearDevice w2 (namespaceToPmemInfo ns) flush = (some err, w3) →
      errorsIs err .ErrDeviceNotFound = true →
      pmemNdctl.DeleteDevice env pmem volumeId flush s =
        (none, ⟨w3, s.trace ++ [Call.NewContext, Call.GetNamespaceByName volumeId,
          Call.clearDevice (namespaceToPmemInfo ns) flush, Call.Free]⟩)) := by
  constructor
  · intro device err w1 hg hc hnf
    refine ⟨?_, DeviceMap.get_delete_self _ _, fun id hne => DeviceMap.get_delete_ne _ _ _ hne⟩
    simp [pmemLvm.DeleteDevice, pmemLvm.getDevice, hg, clearDevice, hc, hnf]
  · intro ns err w1 w2 w3 hc hn hcl hnf
    simp [pmemNdctl.DeleteDevice, ndctl.NewContext, getDevice, ndctl.GetNamespaceByName,
      ndctl.Free, clearDevice, hc, hn, hcl, hnf]

/-- Witness of C7: `v1` is found in both backends, clearing reports that the device
is gone, and the delete succeeds without `lvremove` or `DestroyNamespaceByName`. -/
theorem C7_device_gone_while_deleting_witness :
    pmemLvm.DeleteDevice clearNotFound.env lvmWithV1 "v1" false Sys.start =
      ((none, emptyLvm), ⟨(), [Call.clearDevice devV1 false]⟩) ∧
    pmemNdctl.DeleteDevice clearNotFound.env ⟨100⟩ "v1" false Sys.start =
      (none, ⟨(), [Call.NewContext, Call.GetNamespaceByName "v1",
        Call.clearDevice ⟨"v1", "/dev/pmem0.1", 5368709120⟩ false, Call.Free]⟩) :=
  ⟨((C7_device_gone_while_deleting clearNotFound.env lvmWithV1 ⟨100⟩ "v1" false Sys.start).1
      devV1 .ErrDeviceNotFound () rfl rfl rfl).1,
   (C7_device_gone_while_deleting clearNotFound.env lvmWithV1 ⟨100⟩ "v1" false Sys.start).2
      ⟨"v1", "pmem0.1", 5368709120, "fsdax"⟩ .ErrDeviceNotFound () () () rfl rfl rfl rfl⟩

/-- C8: in the pool backend, for a cached `volumeId`: if clearing fails with an
error that is not `ErrDeviceNotFound`, `DeleteDevice` returns that very error with
the manager unchanged and without running `lvremove`; if clearing succeeds and
`lvremove` fails, it returns the error of `lvremove` with the manager unchanged;
and whenever the id is absent from the cache after the call, either clearing
reported `ErrDeviceNotFound` or clearing and `lvremove` both succeeded. -/
theorem C8_failed_delete_keeps_device (env : Env W) (lvm : pmemLvm) (volumeId : String)
    (flush : Bool) (s : Sys W) (device : PmemDeviceInfo)
    (hdev : lvm.devices.get volumeId = some device) :
    (∀ err w1, env.clearDevice s.world device flush = (some err, w1) →
      errorsIs err .ErrDeviceNotFound = false →
      pmemLvm.DeleteDevice env lvm volumeId flush s =
        ((some err, lvm), ⟨w1, s.trace ++ [Call.clearDevice device flush]⟩)) ∧
    (∀ err w1 w2, env.clearDevice s.world device flush = (none, w1) →
      env.RunCommand w1 "lvremove" ["-fy", device.Path] = (.error err, w2) →
      pmemLvm.DeleteDevice env lvm volumeId flush s =
        ((some err, lvm), ⟨w2, s.trace ++ [Call.clearDevice device flush,
          Call.RunCommand "lvremove" ["-fy", device.Path]]⟩)) ∧
    (∀ r lvm1 s1, pmemLvm.DeleteDevice env lvm volumeId flush s = ((r, lvm1), s1) →
      lvm1.devices.get volumeId = none →
      (∃ err w1, env.clearDevice s.world device flush = (some err, w1) ∧
        errorsIs err .ErrDeviceNotFound = true) ∨
      (∃ w1 out w2, env.clearDevice s.world device flush = (none, w1) ∧
        env.RunCommand w1 "lvremove" ["-fy", device.Path] = (.ok out, w2))) := by
  refine ⟨?_, ?_, ?_⟩
  · intro err w1 hc hnf
    simp [pmemLvm.DeleteDevice, pmemLvm.getDevice, hdev, clearDevice, hc, hnf]
  · intro err w1 w2 hc hr
    simp [pmemLvm.DeleteDevice, pmemLvm.getDevice, hdev, clearDevice, hc,
      pmemexec.RunCommand, hr]
  · intro r lvm1 s1 h hgone
    rcases hcl : env.clearDevice s.world device flush with ⟨cr, w1⟩
    cases cr with
    | some err =>
      cases hnf : errorsIs err .ErrDeviceNotFound with
      | true => exact Or.inl ⟨err, w1, rfl, hnf⟩
      | false =>
        simp [pmemLvm.DeleteDevice, pmemLvm.getDevice, hdev, clearDevice, hcl, hnf] at h
        rw [← h.1.2, hdev] at hgone
        cases hgone
    | none =>
      rcases hr : env.RunCommand w1 "lvremove" ["-fy", device.Path] with ⟨rr, w2⟩
      cases rr with
      | ok out => exact Or.inr ⟨w1, out, w2, rfl, hr⟩
      | error err =>
        simp [pmemLvm.DeleteDevice, pmemLvm.getDevice, hdev, clearDevice, hcl,
          pmemexec.RunCommand, hr] at h
        rw [← h.1.2, hdev] at hgone
        cases hgone

/-- Witness of C8: `v1` is cached, clearing succeeds and `lvremove` fails; the
error of `lvremove` is returned and `v1` stays cached. -/
theorem C8_failed_delete_keeps_device_witness :
    lvmWithV1.devices.get "v1" = some devV1 ∧
    pmemLvm.DeleteDevice lvremoveFails.env lvmWithV1 "v1" false Sys.start =
      ((some (.tool "lvremove failed"), lvmWithV1),
        ⟨(), [Call.clearDevice devV1 false,
          Call.RunCommand "lvremove" ["-fy", "/dev/vg0/v1"]]⟩) :=
  ⟨rfl, (C8_failed_delete_keeps_device lvremoveFails.env lvmWithV1 "v1" false Sys.start devV1
      rfl).2.1 (.tool "lvremove failed") () () rfl rfl⟩

/-! ## Capacity accounting -/

theorem foldl_add64_size (rs : List Region) (acc : Nat) (hacc : acc < 2 ^ 64) :
    rs.foldl (fun a region => add64 a region.Size) acc =
      (acc + (rs.map Region.Size).sum) % 2 ^ 64 := by
  induction rs generalizing acc with
  | nil =>
    simp only [List.foldl_nil, List.map_nil, List.sum_nil, Nat.add_zero]
    exact (Nat.mod_eq_of_lt hacc).symm
  | cons r rest ih =>
    have hlt : add64 acc r.Size < 2 ^ 64 := Nat.mod_lt _ (by positivity)
    rw [List.foldl_cons, ih _ hlt]
    simp only [add64, List.map_cons, List.sum_cons, Nat.mod_add_mod, Nat.add_assoc]

theorem totalSizeLoop_eq (buses : List Bus) (acc : Nat) (hacc : acc < 2 ^ 64) :
    totalSizeLoop buses acc = (acc + ((allRegions buses).map Region.Size).sum) % 2 ^ 64 := by
  induction buses generalizing acc with
  | nil =>
    simp only [totalSizeLoop, allRegions, List.foldl_nil, List.map_nil, List.sum_nil,
      Nat.add_zero]
    exact (Nat.mod_eq_of_lt hacc).symm
  | cons bus rest ih =>
    have hstep : totalSizeLoop (bus :: rest) acc =
        totalSizeLoop rest (bus.AllRegions.foldl (fun a region => add64 a region.Size) acc) := by
      simp [totalSizeLoop]
    rw [hstep, foldl_add64_size _ _ hacc, ih _ (Nat.mod_lt _ (by positivity))]
    simp only [allRegions, List.map_append, List.sum_append, Nat.mod_add_mod, Nat.add_assoc]

theorem totalSizeLoop_lt (buses : List Bus) : totalSizeLoop buses 0 < 2 ^ 64 := by
  rw [totalSizeLoop_eq buses 0 (by positivity)]
  exact Nat.mod_lt _ (by positivity)

theorem totalSize_ok (env : Env W) (s s1 : Sys W) (n : Nat)
    (h : totalSize env s = ((n, none), s1)) :
    n = totalSizeLoop (env.GetBuses (env.NewContext s.world).2) 0 := by
  unfold totalSize at h
  split at h
  · simp only [Prod.mk.injEq] at h
    cases h.1.2
  · rename_i sa hc
    split at h
    rename_i buses sb hb
    simp only [Prod.mk.injEq] at h
    simp only [ndctl.NewContext, Prod.mk.injEq] at hc
    simp only [ndctl.GetBuses, Prod.mk.injEq] at hb
    rw [← h.1.1, ← hb.1, ← hc.2]

theorem foldl_max_le (l : List Nat) (m b : Nat) (hm : m ≤ b) : l.foldl max m ≤ b + l.sum := by
  induction l generalizing m b with
  | nil => simpa using hm
  | cons x rest ih =>
    rw [List.foldl_cons, List.sum_cons]
    have := ih (max m x) (b + x) (by rw [Nat.max_def]; split_ifs <;> omega)
    omega

theorem sum_map_le_sum_map {α : Type} (l : List α) (f g : α → Nat)
    (h : ∀ x ∈ l, f x ≤ g x) : (l.map f).sum ≤ (l.map g).sum := by
  induction l with
  | nil => simp
  | cons x rest ih =>
    have h1 := h x (List.mem_cons_self _ _)
    have h2 := ih (fun y hy => h y (List.mem_cons_of_mem _ hy))
    simp only [List.map_cons, List.sum_cons]
    omega

theorem sum_enabled_le_sum (rs : List Region) :
    ((enabledRegions rs).map Region.Size).sum ≤ (rs.map Region.Size).sum := by
  induction rs with
  | nil => simp [enabledRegions]
  | cons r rest ih =>
    unfold enabledRegions at ih ⊢
    rw [List.filter_cons]
    split_ifs <;> simp only [List.map_cons, List.sum_cons] <;> omega

theorem alignedExtent_le (r : Region) : alignedExtent r ≤ r.MaxAvailableExtent := by
  unfold alignedExtent mul64
  exact le_trans (Nat.mod_le _ _) (Nat.div_mul_le_self _ _)

/-- What the loop of the pool backend's `GetCapacity` computes when it ends
without error, in `uint64` arithmetic: the sums of `free` and of `size`, the
largest `free`, and a total that is the first argument's total for an empty pool
list and the result of a region query otherwise. -/
theorem GetCapacityLoop_spec (env : Env W) (vgs : List vgInfo) (c c1 : Capacity)
    (s s1 : Sys W) (hA : c.Available < 2 ^ 64) (hM : c.Managed < 2 ^ 64)
    (h : pmemLvm.GetCapacityLoop env vgs c s = ((c1, none), s1)) :
    c1.Available = (c.Available + (vgs.map vgInfo.free).sum) % 2 ^ 64 ∧
    c1.Managed = (c.Managed + (vgs.map vgInfo.size).sum) % 2 ^ 64 ∧
    c1.MaxVolumeSize = (vgs.map vgInfo.free).foldl max c.MaxVolumeSize ∧
    (vgs = [] → c1.Total = c.Total) ∧
    (vgs ≠ [] → ∃ w, c1.Total = totalSizeLoop (env.GetBuses w) 0) := by
  induction vgs generalizing c s with
  | nil =>
    simp only [pmemLvm.GetCapacityLoop, Prod.mk.injEq] at h
    obtain ⟨⟨h1, _⟩, _⟩ := h
    subst h1
    simp only [List.map_nil, List.sum_nil, Nat.add_zero, List.foldl_nil, implies_true,
      ne_eq, not_true_eq_false, false_implies, and_true]
    exact ⟨(Nat.mod_eq_of_lt hA).symm, (Nat.mod_eq_of_lt hM).symm⟩
  | cons vg rest ih =>
    unfold pmemLvm.GetCapacityLoop at h
    simp only at h
    split at h
    · simp only [Prod.mk.injEq] at h
      cases h.1.2
    · rename_i size sa ht
      have hmax : (if vg.free > c.MaxVolumeSize then vg.free else c.MaxVolumeSize) =
          max c.MaxVolumeSize vg.free := by
        rw [Nat.max_def]; split_ifs <;> omega
      have hAv : add64 c.Available vg.free < 2 ^ 64 := Nat.mod_lt _ (by positivity)
      have hMg : add64 c.Managed vg.size < 2 ^ 64 := Nat.mod_lt _ (by positivity)
      obtain ⟨r1, r2, r3, _, r5⟩ := ih _ _ (by split_ifs <;> exact hAv)
        (by split_ifs <;> exact hMg) h
      refine ⟨?_, ?_, ?_, ?_, ?_⟩
      · rw [r1]
        split_ifs <;>
          simp only [add64, List.map_cons, List.sum_cons, Nat.mod_add_mod, Nat.add_assoc]
      · rw [r2]
        split_ifs <;>
          simp only [add64, List.map_cons, List.sum_cons, Nat.mod_add_mod, Nat.add_assoc]
      · rw [r3, List.map_cons, List.foldl_cons, ← hmax]
        split_ifs <;> rfl
      · intro e; cases e
      · intro _
        by_cases hr : rest = []
        · subst hr
          simp only [pmemLvm.GetCapacityLoop, Prod.mk.injEq] at h
          refine ⟨(env.NewContext s.world).2, ?_⟩
          rw [← h.1.1]
          exact totalSize_ok env s sa size ht
        · exact r5 hr

theorem GetCapacityRegions_append (a b : List Region) (c : Capacity) :
    pmemNdctl.GetCapacityRegions (a ++ b) c =
      (pmemNdctl.GetCapacityRegions a c).bind (pmemNdctl.GetCapacityRegions b) := by
  induction a generalizing c with
  | nil => rfl
  | cons r rest ih =>
    simp only [List.cons_append, pmemNdctl.GetCapacityRegions]
    split_ifs <;> first | rfl | exact ih _

theorem GetCapacityBuses_eq (buses : List Bus) (c : Capacity) :
    pmemNdctl.GetCapacityBuses buses c = pmemNdctl.GetCapacityRegions (allRegions buses) c := by
  induction buses generalizing c with
  | nil => rfl
  | cons bus rest ih =>
    rw [pmemNdctl.GetCapacityBuses, allRegions, GetCapacityRegions_append]
    cases pmemNdctl.GetCapacityRegions bus.AllRegions c with
    | none => rfl
    | some c1 => exact ih c1

/-- What the region loop of the direct backend's `GetCapacity` computes when it
does not panic, in `uint64` arithmetic: the total is the sum of all sizes, managed
the sum of the sizes of the enabled regions, available the sum of their aligned
extents, the maximum volume size the largest aligned extent; and no enabled region
has a zero alignment unit. -/
theorem GetCapacityRegions_spec (rs : List Region) (c c1 : Capacity)
    (hT : c.Total < 2 ^ 64) (hA : c.Available < 2 ^ 64) (hM : c.Managed < 2 ^ 64)
    (h : pmemNdctl.GetCapacityRegions rs c = some c1) :
    c1.Total = (c.Total + (rs.map Region.Size).sum) % 2 ^ 64 ∧
    c1.Managed = (c.Managed + ((enabledRegions rs).map Region.Size).sum) % 2 ^ 64 ∧
    c1.Available = (c.Available + ((enabledRegions rs).map alignedExtent).sum) % 2 ^ 64 ∧
    c1.MaxVolumeSize = ((enabledRegions rs).map alignedExtent).foldl max c.MaxVolumeSize ∧
    (∀ r ∈ enabledRegions rs, realAlign r ≠ 0) := by
  induction rs generalizing c with
  | nil =>
    simp only [pmemNdctl.GetCapacityRegions, Option.some.injEq] at h
    subst h
    simp only [enabledRegions, List.map_nil, List.sum_nil, Nat.add_zero, List.filter_nil,
      List.foldl_nil, List.not_mem_nil, false_implies, implies_true, and_true]
    exact ⟨(Nat.mod_eq_of_lt hT).symm, (Nat.mod_eq_of_lt hM).symm, (Nat.mod_eq_of_lt hA).symm⟩
  | cons r rest ih =>
    have hTot : add64 c.Total r.Size < 2 ^ 64 := Nat.mod_lt _ (by positivity)
    unfold pmemNdctl.GetCapacityRegions at h
    simp only at h
    cases hE : r.Enabled with
    | false =>
      simp only [hE, Bool.not_false, if_true] at h
      obtain ⟨r1, r2, r3, r4, r5⟩ := ih _ (by exact hTot) (by exact hA) (by exact hM) h
      have hf : enabledRegions (r :: rest) = enabledRegions rest := by
        simp [enabledRegions, List.filter_cons, hE]
      rw [hf]
      refine ⟨?_, r2, r3, r4, r5⟩
      rw [r1]
      simp only [add64, List.map_cons, List.sum_cons, Nat.mod_add_mod, Nat.add_assoc]
    | true =>
      simp only [hE, Bool.not_true, Bool.false_eq_true, if_false] at h
      have hf : enabledRegions (r :: rest) = r :: enabledRegions rest := by
        simp [enabledRegions, List.filter_cons, hE]
      rw [hf]
      split_ifs at h with hz
      all_goals
        first
        | (obtain ⟨r1, r2, r3, r4, r5⟩ := ih _ (by exact hTot)
            (by exact Nat.mod_lt _ (by positivity)) (by exact Nat.mod_lt _ (by positivity)) h
           have hz1 : realAlign r ≠ 0 := hz
           refine ⟨?_, ?_, ?_, ?_, ?_⟩
           · rw [r1]
             simp only [add64, List.map_cons, List.sum_cons, Nat.mod_add_mod, Nat.add_assoc]
           · rw [r2]
             simp only [add64, List.map_cons, List.sum_cons, Nat.mod_add_mod, Nat.add_assoc]
           · rw [r3]
             simp only [add64, alignedExtent, realAlign, List.map_cons, List.sum_cons,
               Nat.mod_add_mod, Nat.add_assoc]
           · rw [r4, List.map_cons, List.foldl_cons]
             congr 1
             simp only [alignedExtent, realAlign, Nat.max_def]
             split_ifs <;> omega
           · intro x hx
             rcases List.mem_cons.mp hx with e | e
             · exact e ▸ hz1
             · exact r5 x e)

/-- C9 (code defect for a backend without pools): the pool backend's `GetCapacity`
assigns `capacity.Total` inside the loop over the pools, so with an empty list of
managed pools it returns without error a capacity whose total is `0`, although the
region query `totalSize` succeeds on the same system and reports 16 GiB. -/
theorem C9_total_is_zero_without_pools :
    pmemLvm.GetCapacity twoPools.env noPools Sys.start =
      ((Capacity.zero, none), ⟨(), [Call.RunCommand "vgs" vgsArgs]⟩) ∧
    (totalSize twoPools.env Sys.start).1 = (17179869184, none) ∧
    (pmemLvm.GetCapacity twoPools.env noPools Sys.start).1.1.Total ≠
      ((allRegions (twoPools.env.GetBuses ())).map Region.Size).sum := by
  refine ⟨rfl, rfl, by decide⟩

/-- C10 (counterexample): the order `available ≤ managed ≤ total` and
`maxVolumeSize ≤ available` fails for capacities returned without error: a pool
listed with more free space than size, and an enabled region with a maximum extent
above its size, give `available > managed`; a pool listed larger than the regions
gives `managed > total` in the pool backend; region sizes that sum to `2 ^ 64` give
`managed > total` in the direct backend; and pools whose free space sums to
`2 ^ 64` give `maxVolumeSize > available`. -/
theorem C10_inconsistent_inventory_breaks_order :
    (∃ cap s1, pmemLvm.GetCapacity freeAboveSize.env onePool Sys.start = ((cap, none), s1) ∧
      ¬ cap.Available ≤ cap.Managed) ∧
    (∃ cap s1, pmemNdctl.GetCapacity freeAboveSize.env ⟨100⟩ Sys.start = some ((cap, none), s1) ∧
      ¬ cap.Available ≤ cap.Managed) ∧
    (∃ cap s1, pmemLvm.GetCapacity poolAboveRegions.env onePool Sys.start = ((cap, none), s1) ∧
      ¬ cap.Managed ≤ cap.Total) ∧
    (∃ cap s1, pmemNdctl.GetCapacity hugeRegions.env ⟨100⟩ Sys.start = some ((cap, none), s1) ∧
      ¬ cap.Managed ≤ cap.Total) ∧
    (∃ cap s1, pmemLvm.GetCapacity hugePools.env emptyLvm Sys.start = ((cap, none), s1) ∧
      ¬ cap.MaxVolumeSize ≤ cap.Available) :=
  ⟨⟨_, _, rfl, by decide⟩, ⟨_, _, rfl, by decide⟩, ⟨_, _, rfl, by decide⟩,
   ⟨_, _, rfl, by decide⟩, ⟨_, _, rfl, by decide⟩⟩

/-- C10 (amended): a capacity returned without error by `GetCapacity` satisfies
each inequality under the condition on the inventory that it needs. Pool backend,
`vgs` being the listed pools: `maxVolumeSize ≤ available` when their free space
sums to less than `2 ^ 64`; `available ≤ managed` when every pool has
`free ≤ size` and their sizes sum to less than `2 ^ 64`; `managed ≤ total` when
their sizes sum to at most the total that the region query computes. Direct
backend, over the regions read after opening the context: `maxVolumeSize ≤
available` when the aligned extents of the enabled regions sum to less than
`2 ^ 64`; `available ≤ managed` when every enabled region has its maximum extent
`≤` its size and the sizes of the enabled regions sum to less than `2 ^ 64`;
`managed ≤ total` when the sizes of all regions sum to less than `2 ^ 64`. -/
theorem C10_capacity_order_for_consistent_inventory (env : Env W) :
    (∀ (lvm : pmemLvm) (s s1 s2 : Sys W) (vgs : List vgInfo) (cap : Capacity),
      getVolumeGroups env lvm.volumeGroups s = ((vgs, none), s1) →
      pmemLvm.GetCapacity env lvm s = ((cap, none), s2) →
      ((vgs.map vgInfo.free).sum < 2 ^ 64 → cap.MaxVolumeSize ≤ cap.Available) ∧
      ((∀ vg ∈ vgs, vg.free ≤ vg.size) → (vgs.map vgInfo.size).sum < 2 ^ 64 →
        cap.Available ≤ cap.Managed) ∧
      ((∀ w, (vgs.map vgInfo.size).sum ≤ totalSizeLoop (env.GetBuses w) 0) →
        cap.Managed ≤ cap.Total)) ∧
    (∀ (pmem : pmemNdctl) (s s1 : Sys W) (cap : Capacity),
      pmemNdctl.GetCapacity env pmem s = some ((cap, none), s1) →
      (((enabledRegions (allRegions (env.GetBuses (env.NewContext s.world).2))).map
          alignedExtent).sum < 2 ^ 64 → cap.MaxVolumeSize ≤ cap.Available) ∧
      ((∀ r ∈ enabledRegions (allRegions (env.GetBuses (env.NewContext s.world).2)),
          r.MaxAvailableExtent ≤ r.Size) →
        ((enabledRegions (allRegions (env.GetBuses (env.NewContext s.world).2))).map
          Region.Size).sum < 2 ^ 64 → cap.Available ≤ cap.Managed) ∧
      (((allRegions (env.GetBuses (env.NewContext s.world).2)).map Region.Size).sum < 2 ^ 64 →
        cap.Managed ≤ cap.Total)) := by
  have hz : (0 : Nat) < 2 ^ 64 := by positivity
  constructor
  · intro lvm s s1 s2 vgs cap hv h
    simp only [pmemLvm.GetCapacity, hv] at h
    obtain ⟨r1, r2, r3, r4, r5⟩ := GetCapacityLoop_spec env vgs Capacity.zero cap s1 s2 hz hz h
    simp only [Capacity.zero, Nat.zero_add] at r1 r2 r3 r4
    refine ⟨?_, ?_, ?_⟩
    · intro hs
      rw [r1, r3, Nat.mod_eq_of_lt hs]
      simpa using foldl_max_le (vgs.map vgInfo.free) 0 0 (le_refl 0)
    · intro hle hs
      have hfs := sum_map_le_sum_map vgs vgInfo.free vgInfo.size hle
      rw [r1, r2, Nat.mod_eq_of_lt hs, Nat.mod_eq_of_lt (lt_of_le_of_lt hfs hs)]
      exact hfs
    · intro hw
      by_cases hnil : vgs = []
      · rw [r2, r4 hnil, hnil]
        simp
      · obtain ⟨w, ht⟩ := r5 hnil
        rw [r2, ht]
        exact le_trans (Nat.mod_le _ _) (hw w)
  · intro pmem s s1 cap h
    unfold pmemNdctl.GetCapacity at h
    split at h
    · simp only [Option.some.injEq, Prod.mk.injEq] at h
      cases h.1.2
    · rename_i sa hc
      split at h
      rename_i buses sb hb
      simp only [ndctl.NewContext, Prod.mk.injEq] at hc
      simp only [ndctl.GetBuses, Prod.mk.injEq] at hb
      have hbuses : buses = env.GetBuses (env.NewContext s.world).2 := by
        rw [← hb.1, ← hc.2]
      split at h
      · cases h
      · rename_i capacity hcap
        simp only [Option.some.injEq, Prod.mk.injEq] at h
        obtain ⟨⟨he, _⟩, _⟩ := h
        subst he
        rw [GetCapacityBuses_eq, hbuses] at hcap
        obtain ⟨r1, r2, r3, r4, _⟩ := GetCapacityRegions_spec _ Capacity.zero capacity hz hz hz hcap
        simp only [Capacity.zero, Nat.zero_add] at r1 r2 r3 r4
        refine ⟨?_, ?_, ?_⟩
        · intro hs
          rw [r3, r4, Nat.mod_eq_of_lt hs]
          simpa using foldl_max_le _ 0 0 (le_refl 0)
        · intro hle hs
          have h1 := sum_map_le_sum_map _ alignedExtent Region.Size
            (fun r hr => le_trans (alignedExtent_le r) (hle r hr))
          rw [r2, r3, Nat.mod_eq_of_lt hs, Nat.mod_eq_of_lt (lt_of_le_of_lt h1 hs)]
          exact h1
        · intro hs
          rw [r1, r2, Nat.mod_eq_of_lt hs]
          exact le_trans (Nat.mod_le _ _) (sum_enabled_le_sum _)

/-- Witness of C10: with two pools of 10 GiB and 3 GiB, entirely free, on one
enabled region of 16 GiB, both backends return a capacity in the stated order. -/
theorem C10_capacity_order_for_consistent_inventory_witness :
    pmemLvm.GetCapacity twoPools.env emptyLvm Sys.start =
      ((twoPoolsCapacity, none),
        (pmemLvm.GetCapacity twoPools.env emptyLvm Sys.start).2) ∧
    (twoPoolsCapacity.MaxVolumeSize ≤ twoPoolsCapacity.Available ∧
      twoPoolsCapacity.Available ≤ twoPoolsCapacity.Managed ∧
      twoPoolsCapacity.Managed ≤ twoPoolsCapacity.Total) ∧
    pmemNdctl.GetCapacity twoPools.env ⟨100⟩ Sys.start =
      some ((oneRegionCapacity, none),
        ⟨(), [Call.NewContext, Call.GetBuses, Call.Free]⟩) ∧
    (oneRegionCapacity.MaxVolumeSize ≤ oneRegionCapacity.Available ∧
      oneRegionCapacity.Available ≤ oneRegionCapacity.Managed ∧
      oneRegionCapacity.Managed ≤ oneRegionCapacity.Total) :=
  have hl := (C10_capacity_order_for_consistent_inventory twoPools.env).1 emptyLvm Sys.start
    ⟨(), [Call.RunCommand "vgs" (vgsArgs ++ ["vg0", "vg1"])]⟩
    (pmemLvm.GetCapacity twoPools.env emptyLvm Sys.start).2
    [vgInfo.mk "vg0" 10737418240 10737418240, vgInfo.mk "vg1" 3221225472 3221225472]
    twoPoolsCapacity rfl rfl
  have hd := (C10_capacity_order_for_consistent_inventory twoPools.env).2 ⟨100⟩ Sys.start
    ⟨(), [Call.NewContext, Call.GetBuses, Call.Free]⟩ oneRegionCapacity rfl
  ⟨rfl, ⟨hl.1 (by decide), hl.2.1 (by decide) (by decide), hl.2.2 (fun w => match w with | () => by decide)⟩,
   rfl, ⟨hd.1 (by decide), hd.2.1 (by decide) (by decide), hd.2.2 (by decide)⟩⟩

/-! ## The commands issued by the allocation loop -/

/-- Every `lvcreate` that the allocation loop of the pool backend issues is aimed at
one of the listed pools with enough free space and carries the size text and the
volume id the loop was given. -/
theorem CreateDeviceLoop_lvcreate (env : Env W) (lvm : pmemLvm) (volumeId : String)
    (size : Nat) (strSz : String) (vgs : List vgInfo) (s : Sys W) :
    ∃ calls, (pmemLvm.CreateDeviceLoop env lvm volumeId size strSz vgs s).2.trace =
        s.trace ++ calls ∧
      ∀ args, Call.RunCommand "lvcreate" args ∈ calls →
        ∃ vg ∈ vgs, size ≤ vg.free ∧ args = lvcreateArgs strSz volumeId vg.name := by
  induction vgs generalizing s with
  | nil => exact ⟨[], by simp [pmemLvm.CreateDeviceLoop], by simp⟩
  | cons vg rest ih =>
    have lift : ∀ (t : Sys W),
        (∃ calls, (pmemLvm.CreateDeviceLoop env lvm volumeId size strSz rest t).2.trace =
            t.trace ++ calls ∧
          ∀ args, Call.RunCommand "lvcreate" args ∈ calls →
            ∃ v ∈ vg :: rest, size ≤ v.free ∧ args = lvcreateArgs strSz volumeId v.name) := by
      intro t
      obtain ⟨calls, h1, h2⟩ := ih t
      refine ⟨calls, h1, fun args ha => ?_⟩
      obtain ⟨v, hv, r⟩ := h2 args ha
      exact ⟨v, List.mem_cons_of_mem _ hv, r⟩
    unfold pmemLvm.CreateDeviceLoop
    by_cases hfree : vg.free ≥ size
    · rw [if_pos hfree]
      have own : ∀ args, Call.RunCommand "lvcreate" args =
          Call.RunCommand "lvcreate" (lvcreateArgs strSz volumeId vg.name) →
          ∃ v ∈ vg :: rest, size ≤ v.free ∧ args = lvcreateArgs strSz volumeId v.name := by
        intro args e
        injection e with _ e2
        exact ⟨vg, List.mem_cons_self _ _, hfree, e2⟩
      simp only [pmemexec.RunCommand, getUncachedDevice, listDevices, parseLVSOutput,
        waitDeviceAppears, clearDevice]
      rcases env.RunCommand s.world "lvcreate" (lvcreateArgs strSz volumeId vg.name) with
        ⟨r1, w1⟩
      cases r1 with
      | error e1 =>
        obtain ⟨calls, h1, h2⟩ := lift ⟨w1, s.trace ++
          [Call.RunCommand "lvcreate" (lvcreateArgs strSz volumeId vg.name)]⟩
        refine ⟨Call.RunCommand "lvcreate" (lvcreateArgs strSz volumeId vg.name) :: calls,
          ?_, ?_⟩
        · simp only [h1, List.append_assoc, List.singleton_append]
        · intro args ha
          rcases List.mem_cons.mp ha with e | e
          · exact own args e
          · exact h2 args e
      | ok o1 =>
        simp only
        rcases env.RunCommand w1 "lvs" (lvsArgs ++ [vg.name]) with ⟨r2, w2⟩
        cases r2 with
        | error e2 =>
          refine ⟨[Call.RunCommand "lvcreate" (lvcreateArgs strSz volumeId vg.name),
            Call.RunCommand "lvs" (lvsArgs ++ [vg.name])], by simp, ?_⟩
          intro args ha
          simp only [List.mem_cons, Call.RunCommand.injEq, List.mem_singleton, List.not_mem_nil,
            or_false] at ha
          rcases ha with e | e
          · exact own args (by rw [e.2])
          · exact absurd e.1 (by decide)
        | ok o2 =>
          simp only
          cases DeviceMap.get (parseLVSOutputLoop (Split o2) []) volumeId with
          | none =>
            refine ⟨[Call.RunCommand "lvcreate" (lvcreateArgs strSz volumeId vg.name),
              Call.RunCommand "lvs" (lvsArgs ++ [vg.name])], by simp, ?_⟩
            intro args ha
            simp only [List.mem_cons, Call.RunCommand.injEq, List.mem_singleton,
              List.not_mem_nil, or_false] at ha
            rcases ha with e | e
            · exact own args (by rw [e.2])
            · exact absurd e.1 (by decide)
          | some device =>
            simp only
            rcases env.waitDeviceAppears w2 device with ⟨r3, w3⟩
            have three : ∀ extra : List Call,
                (∀ args, Call.RunCommand "lvcreate" args ∉ extra) →
                ∀ args, Call.RunCommand "lvcreate" args ∈
                  Call.RunCommand "lvcreate" (lvcreateArgs strSz volumeId vg.name) ::
                    Call.RunCommand "lvs" (lvsArgs ++ [vg.name]) :: extra →
                ∃ v ∈ vg :: rest, size ≤ v.free ∧
                  args = lvcreateArgs strSz volumeId v.name := by
              intro extra hex args ha
              rcases List.mem_cons.mp ha with e | e
              · exact own args e
              · rcases List.mem_cons.mp e with e | e
                · injection e with e1 _
                  exact absurd e1 (by decide)
                · exact absurd e (hex args)
            cases r3 with
            | some e3 =>
              exact ⟨_, by simp, three [Call.waitDeviceAppears device] (by simp)⟩
            | none =>
              simp only
              rcases env.clearDevice w3 device false with ⟨r4, w4⟩
              cases r4 with
              | some e4 =>
                exact ⟨_, by simp, three [Call.waitDeviceAppears device,
                  Call.clearDevice device false] (by simp)⟩
              | none =>
                exact ⟨_, by simp, three [Call.waitDeviceAppears device,
                  Call.clearDevice device false] (by simp)⟩
    · rw [if_neg hfree]
      exact lift s

/-- Every `lvcreate` that the pool backend's `CreateDevice` issues carries the
aligned size `lvmAlignedSize size` in bytes as its `-L` argument. -/
theorem CreateDevice_lvcreate_size (env : Env W) (lvm : pmemLvm) (volumeId : String)
    (size : Nat) (s : Sys W) :
    ∃ calls, (pmemLvm.CreateDevice env lvm volumeId size s).2.trace = s.trace ++ calls ∧
      ∀ args, Call.RunCommand "lvcreate" args ∈ calls →
        ∃ vgName, args =
          lvcreateArgs (FormatUint (lvmAlignedSize size) ++ "B") volumeId vgName := by
  unfold pmemLvm.CreateDevice
  split
  · exact ⟨[], by simp, by simp⟩
  · split
    · rename_i s1 hv
      have ht := getVolumeGroups_trace env lvm.volumeGroups s
      rw [hv] at ht
      refine ⟨[Call.RunCommand "vgs" (vgsArgs ++ lvm.volumeGroups)], ht, ?_⟩
      intro args ha
      simp only [List.mem_singleton, Call.RunCommand.injEq] at ha
      exact absurd ha.1 (by decide)
    · rename_i vgs s1 hv
      have ht := getVolumeGroups_trace env lvm.volumeGroups s
      rw [hv] at ht
      simp only at ht
      obtain ⟨calls, h1, h2⟩ := CreateDeviceLoop_lvcreate env lvm volumeId
        (lvmAlignedSize size) (FormatUint (lvmAlignedSize size) ++ "B") vgs s1
      refine ⟨Call.RunCommand "vgs" (vgsArgs ++ lvm.volumeGroups) :: calls, ?_, ?_⟩
      · simp only [h1, ht, List.append_assoc, List.singleton_append]
      · intro args ha
        rcases List.mem_cons.mp ha with e | e
        · injection e with e1 _
          exact absurd e1 (by decide)
        · obtain ⟨vg, _, _, r⟩ := h2 args e
          exact ⟨vg.name, r⟩

/-! ## The capacity of the direct backend -/

theorem GetCapacityRegions_isSome (rs : List Region) (c : Capacity)
    (h : ∀ r ∈ enabledRegions rs, realAlign r ≠ 0) :
    ∃ c1, pmemNdctl.GetCapacityRegions rs c = some c1 := by
  induction rs generalizing c with
  | nil => exact ⟨c, rfl⟩
  | cons r rest ih =>
    unfold pmemNdctl.GetCapacityRegions
    simp only
    cases hE : r.Enabled with
    | false =>
      have hf : enabledRegions (r :: rest) = enabledRegions rest := by
        simp [enabledRegions, List.filter_cons, hE]
      rw [hf] at h
      simpa using ih _ h
    | true =>
      have hf : enabledRegions (r :: rest) = r :: enabledRegions rest := by
        simp [enabledRegions, List.filter_cons, hE]
      rw [hf] at h
      have hr : mul64 ndctlAlign r.InterleaveWays ≠ 0 := h r (List.mem_cons_self _ _)
      simp only [Bool.not_true, Bool.false_eq_true, if_false, hr]
      exact ih _ (fun x hx => h x (List.mem_cons_of_mem _ hx))

theorem realAlign_eq (r : Region) (h : 2 ^ 30 * r.InterleaveWays < 2 ^ 64) :
    realAlign r = 2 ^ 30 * r.InterleaveWays := by
  unfold realAlign mul64
  have e : ndctlAlign = 2 ^ 30 := by decide
  rw [e]
  exact Nat.mod_eq_of_lt h

theorem alignedExtent_eq (r : Region) (h : 2 ^ 30 * r.InterleaveWays < 2 ^ 64)
    (hx : r.MaxAvailableExtent < 2 ^ 64) :
    alignedExtent r = alignDown r.MaxAvailableExtent (2 ^ 30 * r.InterleaveWays) := by
  unfold alignedExtent alignDown mul64
  rw [realAlign_eq r h]
  exact Nat.mod_eq_of_lt (lt_of_le_of_lt (Nat.div_mul_le_self _ _) hx)

theorem le_sum_of_mem_map {α : Type} (l : List α) (f : α → Nat) (x : α) (hx : x ∈ l) :
    f x ≤ (l.map f).sum := by
  induction l with
  | nil => cases hx
  | cons y rest ih =>
    simp only [List.map_cons, List.sum_cons]
    rcases List.mem_cons.mp hx with e | e
    · subst e; omega
    · have := ih e; omega

/-- C11 (amended): for every region inventory read after the context opened in
which every enabled region reports an interleave width `w` with `1 ≤ w` and
`2 ^ 30 * w < 2 ^ 64`, the sizes of all regions sum to less than `2 ^ 64` and the
maximum extents of the enabled regions sum to less than `2 ^ 64`, the direct
backend's `GetCapacity` returns without error the capacity of the specification:
total is the sum of all region sizes, managed the sum of the sizes of the enabled
regions, available the sum of their aligned-down extents and the maximum volume
size the largest aligned-down extent; each aligned-down extent is a multiple of
`2 ^ 30 * w`. The calls made are `NewContext`, `GetBuses` and `Free`. -/
theorem C11_direct_capacity_of_sane_inventory (env : Env W) (pmem : pmemNdctl) (s : Sys W)
    (w1 : W) (hc : env.NewContext s.world = (none, w1))
    (hw : ∀ r ∈ enabledRegions (allRegions (env.GetBuses w1)),
      1 ≤ r.InterleaveWays ∧ 2 ^ 30 * r.InterleaveWays < 2 ^ 64)
    (hsize : ((allRegions (env.GetBuses w1)).map Region.Size).sum < 2 ^ 64)
    (hext : ((enabledRegions (allRegions (env.GetBuses w1))).map
      Region.MaxAvailableExtent).sum < 2 ^ 64) :
    pmemNdctl.GetCapacity env pmem s =
      some ((directCapacity (allRegions (env.GetBuses w1)), none),
        ⟨w1, s.trace ++ [Call.NewContext, Call.GetBuses, Call.Free]⟩) ∧
    ∀ r ∈ enabledRegions (allRegions (env.GetBuses w1)),
      2 ^ 30 * r.InterleaveWays ∣ alignDown r.MaxAvailableExtent (2 ^ 30 * r.InterleaveWays) := by
  have hz : (0 : Nat) < 2 ^ 64 := by positivity
  have hne : ∀ r ∈ enabledRegions (allRegions (env.GetBuses w1)), realAlign r ≠ 0 := by
    intro r hr
    rw [realAlign_eq r (hw r hr).2]
    have := (hw r hr).1
    positivity
  have hal : (enabledRegions (allRegions (env.GetBuses w1))).map alignedExtent =
      (enabledRegions (allRegions (env.GetBuses w1))).map
        (fun r => alignDown r.MaxAvailableExtent (2 ^ 30 * r.InterleaveWays)) := by
    apply List.map_congr_left
    intro r hr
    exact alignedExtent_eq r (hw r hr).2
      (lt_of_le_of_lt (le_sum_of_mem_map _ Region.MaxAvailableExtent r hr) hext)
  obtain ⟨c1, hc1⟩ := GetCapacityRegions_isSome (allRegions (env.GetBuses w1)) Capacity.zero hne
  obtain ⟨r1, r2, r3, r4, _⟩ := GetCapacityRegions_spec _ Capacity.zero c1 hz hz hz hc1
  simp only [Capacity.zero, Nat.zero_add] at r1 r2 r3 r4
  have hle : ((enabledRegions (allRegions (env.GetBuses w1))).map alignedExtent).sum ≤
      ((enabledRegions (allRegions (env.GetBuses w1))).map Region.MaxAvailableExtent).sum :=
    sum_map_le_sum_map _ _ _ (fun r _ => alignedExtent_le r)
  rw [Nat.mod_eq_of_lt hsize] at r1
  rw [Nat.mod_eq_of_lt (lt_of_le_of_lt (sum_enabled_le_sum _) hsize)] at r2
  rw [Nat.mod_eq_of_lt (lt_of_le_of_lt hle hext), hal] at r3
  rw [hal] at r4
  have hcap : c1 = directCapacity (allRegions (env.GetBuses w1)) := by
    cases c1
    simp only [directCapacity, Capacity.mk.injEq]
    exact ⟨r3, r2, r1, r4⟩
  refine ⟨?_, ?_⟩
  · simp only [pmemNdctl.GetCapacity, ndctl.NewContext, ndctl.GetBuses, ndctl.Free, hc,
      GetCapacityBuses_eq, hc1, hcap, List.append_assoc, List.singleton_append,
      List.cons_append, List.nil_append]
  · intro r _
    exact Nat.dvd_mul_left _ _

/-- Witness of C11: an enabled region of 16 GiB with 5.5 GiB of contiguous space on
two modules and a disabled region of 8 GiB give total 24 GiB, managed 16 GiB,
available and maximum volume size 4 GiB. -/
theorem C11_direct_capacity_of_sane_inventory_witness :
    pmemNdctl.GetCapacity mixedRegions.env ⟨100⟩ Sys.start =
      some ((directCapacity (allRegions mixedRegions.buses), none),
        ⟨(), [Call.NewContext, Call.GetBuses, Call.Free]⟩) ∧
    directCapacity (allRegions mixedRegions.buses) =
      ⟨4294967296, 17179869184, 25769803776, 4294967296⟩ :=
  ⟨(C11_direct_capacity_of_sane_inventory mixedRegions.env ⟨100⟩ Sys.start () rfl
      (by decide) (by decide) (by decide)).1, by decide⟩

/-- C11 (counterexample): the direct backend's `GetCapacity` does not return the
sums of the specification for every region inventory: two regions of `2 ^ 63`
bytes give total `0` instead of `2 ^ 64`, and an enabled region that reports an
interleave width of `0` makes the call end in a division by zero instead of
returning a capacity. -/
theorem C11_overflow_and_zero_interleave :
    (∃ cap s1, pmemNdctl.GetCapacity hugeRegions.env ⟨100⟩ Sys.start = some ((cap, none), s1) ∧
      cap.Total ≠ ((allRegions hugeRegions.buses).map Region.Size).sum) ∧
    pmemNdctl.GetCapacity zeroInterleave.env ⟨100⟩ Sys.start = none :=
  ⟨⟨_, _, rfl, by decide⟩, rfl⟩

/-! ## Creation in the direct backend -/

/-- When the context opens and the lookup by name fails, whatever the failure, the
direct backend's `CreateDevice` goes on to request a namespace of `size` plus one
alignment unit; further calls follow, none of them another creation request. -/
theorem pmemNdctl_CreateDevice_requests (env : Env W) (pmem : pmemNdctl) (volumeId : String)
    (size : Nat) (s : Sys W) (w1 w2 : W) (err : GoError)
    (hc : env.NewContext s.world = (none, w1))
    (hl : env.GetNamespaceByName w1 volumeId = (.error err, w2)) :
    ∃ rest, (pmemNdctl.CreateDevice env pmem volumeId size s).2.trace =
        s.trace ++ [Call.NewContext, Call.GetNamespaceByName volumeId,
          Call.CreateNamespace ⟨volumeId, add64 size ndctlAlign, ndctlAlign, "fsdax"⟩] ++ rest ∧
      ∀ opts, Call.CreateNamespace opts ∉ rest := by
  have hg : ∃ e, getDevice env volumeId ⟨w1, s.trace ++ [Call.NewContext]⟩ =
      (.error e, ⟨w2, s.trace ++ [Call.NewContext] ++ [Call.GetNamespaceByName volumeId]⟩) := by
    simp only [getDevice, ndctl.GetNamespaceByName, hl]
    split_ifs <;> exact ⟨_, rfl⟩
  obtain ⟨e, hg⟩ := hg
  simp only [pmemNdctl.CreateDevice, ndctl.NewContext, hc, hg, ndctl.CreateNamespace]
  rcases env.CreateNamespace w2 ⟨volumeId, add64 size ndctlAlign, ndctlAlign, "fsdax"⟩ with
    ⟨r3, w3⟩
  cases r3 with
  | error e3 => exact ⟨[Call.Free], by simp [ndctl.Free], by simp⟩
  | ok ns =>
    simp only [getDevice, ndctl.GetNamespaceByName]
    rcases env.GetNamespaceByName w3 volumeId with ⟨r4, w4⟩
    cases r4 with
    | error e4 =>
      simp only
      split_ifs <;>
        exact ⟨[Call.GetNamespaceByName volumeId, Call.Free], by simp [ndctl.Free], by simp⟩
    | ok ns4 =>
      simp only [clearDevice]
      rcases env.clearDevice w4 (namespaceToPmemInfo ns4) false with ⟨r5, w5⟩
      cases r5 with
      | some e5 =>
        exact ⟨[Call.GetNamespaceByName volumeId,
          Call.clearDevice (namespaceToPmemInfo ns4) false, Call.Free],
          by simp [ndctl.Free], by simp⟩
      | none =>
        exact ⟨[Call.GetNamespaceByName volumeId,
          Call.clearDevice (namespaceToPmemInfo ns4) false, Call.Free],
          by simp [ndctl.Free], by simp⟩

/-- When the library fails to create the namespace, the direct backend's
`CreateDevice` returns the error of the library as it is. -/
theorem pmemNdctl_CreateDevice_library_error (env : Env W) (pmem : pmemNdctl)
    (volumeId : String) (size : Nat) (s : Sys W) (w1 w2 w3 : W) (err e : GoError)
    (hc : env.NewContext s.world = (none, w1))
    (hl : env.GetNamespaceByName w1 volumeId = (.error err, w2))
    (hcr : env.CreateNamespace w2 ⟨volumeId, add64 size ndctlAlign, ndctlAlign, "fsdax"⟩ =
      (.error e, w3)) :
    pmemNdctl.CreateDevice env pmem volumeId size s =
      (some e, ⟨w3, s.trace ++ [Call.NewContext, Call.GetNamespaceByName volumeId,
        Call.CreateNamespace ⟨volumeId, add64 size ndctlAlign, ndctlAlign, "fsdax"⟩,
        Call.Free]⟩) := by
  have hg : ∃ e1, getDevice env volumeId ⟨w1, s.trace ++ [Call.NewContext]⟩ =
      (.error e1, ⟨w2, s.trace ++ [Call.NewContext] ++ [Call.GetNamespaceByName volumeId]⟩) := by
    simp only [getDevice, ndctl.GetNamespaceByName, hl]
    split_ifs <;> exact ⟨_, rfl⟩
  obtain ⟨e1, hg⟩ := hg
  simp [pmemNdctl.CreateDevice, ndctl.NewContext, hc, hg, ndctl.CreateNamespace, hcr,
    ndctl.Free]

/-- C12 (amended): when `volumeId` is not found, the size that the direct backend's
`CreateDevice` asks the library to allocate is `size + ndctlAlign` in `uint64`, and
the request passes `Align = ndctlAlign`. For `size + ndctlAlign < 2 ^ 64` this is
exactly one alignment unit above the request, hence above `size`, and it is a
multiple of `ndctlAlign` exactly when `size` is one. -/
theorem C12_direct_requests_size_plus_one_unit (env : Env W) (pmem : pmemNdctl)
    (volumeId : String) (size : Nat) (s : Sys W) (w1 w2 : W) (err : GoError)
    (hc : env.NewContext s.world = (none, w1))
    (hl : env.GetNamespaceByName w1 volumeId = (.error err, w2)) :
    (∃ rest, (pmemNdctl.CreateDevice env pmem volumeId size s).2.trace =
        s.trace ++ [Call.NewContext, Call.GetNamespaceByName volumeId,
          Call.CreateNamespace ⟨volumeId, add64 size ndctlAlign, ndctlAlign, "fsdax"⟩] ++ rest ∧
      ∀ opts, Call.CreateNamespace opts ∉ rest) ∧
    (size + ndctlAlign < 2 ^ 64 →
      add64 size ndctlAlign = size + ndctlAlign ∧ size < add64 size ndctlAlign ∧
      (ndctlAlign ∣ add64 size ndctlAlign ↔ ndctlAlign ∣ size)) := by
  refine ⟨pmemNdctl_CreateDevice_requests env pmem volumeId size s w1 w2 err hc hl, ?_⟩
  intro hlt
  have e : add64 size ndctlAlign = size + ndctlAlign := Nat.mod_eq_of_lt hlt
  have hA : ndctlAlign = 1073741824 := by decide
  rw [e, hA]
  refine ⟨rfl, by omega, ?_⟩
  constructor <;> intro h <;> omega

/-- Witness of C12: for a request of 1 byte the library is asked for
`1 + 2 ^ 30` bytes with alignment `2 ^ 30`. -/
theorem C12_direct_requests_size_plus_one_unit_witness :
    nothingAllocated.env.NewContext () = (none, ()) ∧
    Call.CreateNamespace ⟨"v1", 1073741825, 1073741824, "fsdax"⟩ ∈
      (pmemNdctl.CreateDevice nothingAllocated.env ⟨100⟩ "v1" 1 Sys.start).2.trace ∧
    add64 1 ndctlAlign = 1 + ndctlAlign ∧ 1 < add64 1 ndctlAlign ∧
    (ndctlAlign ∣ add64 1 ndctlAlign ↔ ndctlAlign ∣ 1) :=
  ⟨rfl, by decide,
    (C12_direct_requests_size_plus_one_unit nothingAllocated.env ⟨100⟩ "v1" 1 Sys.start () ()
      .ErrNotExist rfl rfl).2 (by decide)⟩

/-- C12 (counterexample): the size that the direct backend's `CreateDevice` asks the
library to allocate is not the smallest multiple of `ndctlAlign` above the request:
for 1 byte it asks for `2 ^ 30 + 1` bytes, which is no multiple of `2 ^ 30`, and
for `2 ^ 30` bytes it asks for `2 ^ 31` bytes although `2 ^ 30` is a multiple that
suffices. -/
theorem C12_requested_size_is_not_rounded :
    Call.CreateNamespace ⟨"v1", 1073741825, 1073741824, "fsdax"⟩ ∈
      (pmemNdctl.CreateDevice nothingAllocated.env ⟨100⟩ "v1" 1 Sys.start).2.trace ∧
    ¬ ndctlAlign ∣ 1073741825 ∧
    Call.CreateNamespace ⟨"v1", 2147483648, 1073741824, "fsdax"⟩ ∈
      (pmemNdctl.CreateDevice nothingAllocated.env ⟨100⟩ "v1" 1073741824 Sys.start).2.trace ∧
    (ndctlAlign ∣ 1073741824 ∧ 1073741824 ≤ 1073741824 ∧ 1073741824 < 2147483648) := by
  refine ⟨by decide, by decide, by decide, by decide⟩

/-- C14 (code defect): the first lookup of `v1` fails with a library error that is
not not-found; the direct backend's `CreateDevice` ignores it, requests the
namespace and returns success. -/
theorem C14_lookup_failure_is_ignored :
    flakyLookup.GetNamespaceByName 0 "v1" = (.error (.tool "ndctl: sysfs read failed"), 1) ∧
    errorsIs (.tool "ndctl: sysfs read failed") .ErrNotExist = false ∧
    pmemNdctl.CreateDevice flakyLookup ⟨100⟩ "v1" 1073741824 ⟨0, []⟩ =
      (none, ⟨2, [Call.NewContext, Call.GetNamespaceByName "v1",
        Call.CreateNamespace ⟨"v1", 2147483648, 1073741824, "fsdax"⟩,
        Call.GetNamespaceByName "v1",
        Call.clearDevice ⟨"v1", "/dev/pmem0.1", 2147483648⟩ false, Call.Free]⟩) := by
  refine ⟨rfl, rfl, rfl⟩

/-! ## Clearing before success -/

/-- A successful run of the allocation loop ends with these steps on one listed
pool: `lvcreate` succeeds, the device is resolved by listing that pool again, its
node appears, and clearing it succeeds; the state returned is the one right after
that clearing, and the device cleared is the one registered. -/
theorem CreateDeviceLoop_cleared (env : Env W) (lvm : pmemLvm) (volumeId : String)
    (size : Nat) (strSz : String) (vgs : List vgInfo) (s s1 : Sys W) (lvm1 : pmemLvm)
    (h : pmemLvm.CreateDeviceLoop env lvm volumeId size strSz vgs s = ((none, lvm1), s1)) :
    ∃ vg ∈ vgs, ∃ (s0 sa sb sc : Sys W) (out : String) (device : PmemDeviceInfo),
      pmemexec.RunCommand env "lvcreate" (lvcreateArgs strSz volumeId vg.name) s0 =
        (.ok out, sa) ∧
      getUncachedDevice env volumeId vg.name sa = (.ok device, sb) ∧
      waitDeviceAppears env device sb = (none, sc) ∧
      clearDevice env device false sc = (none, s1) ∧
      lvm1 = { lvm with devices := lvm.devices.set device.VolumeId device } := by
  induction vgs generalizing s with
  | nil =>
    simp only [pmemLvm.CreateDeviceLoop, Prod.mk.injEq] at h
    cases h.1.1
  | cons vg rest ih =>
    unfold pmemLvm.CreateDeviceLoop at h
    split at h
    · split at h
      · obtain ⟨vg1, hm, r⟩ := ih _ h
        exact ⟨vg1, List.mem_cons_of_mem _ hm, r⟩
      · rename_i out sa hcr
        split at h
        · simp only [Prod.mk.injEq] at h
          cases h.1.1
        · rename_i device sb hu
          split at h
          · simp only [Prod.mk.injEq] at h
            cases h.1.1
          · rename_i sc hwait
            split at h
            · simp only [Prod.mk.injEq] at h
              cases h.1.1
            · rename_i s4 hclear
              simp only [Prod.mk.injEq] at h
              obtain ⟨⟨_, hl⟩, hs⟩ := h
              subst hs
              exact ⟨vg, List.mem_cons_self _ _, s, sa, sb, sc, out, device, hcr, hu, hwait,
                hclear, hl.symm⟩
    · obtain ⟨vg1, hm, r⟩ := ih _ h
      exact ⟨vg1, List.mem_cons_of_mem _ hm, r⟩

/-- An iteration of the allocation loop in which `lvcreate` succeeds, the device is
resolved and appears, and clearing fails, ends the loop with an error and leaves
the manager as it was. -/
theorem CreateDeviceLoop_clear_fails (env : Env W) (lvm : pmemLvm) (volumeId : String)
    (size : Nat) (strSz : String) (vg : vgInfo) (rest : List vgInfo) (s sa sb sc sd : Sys W)
    (out : String) (device : PmemDeviceInfo) (err : GoError) (hfree : size ≤ vg.free)
    (hcr : pmemexec.RunCommand env "lvcreate" (lvcreateArgs strSz volumeId vg.name) s =
      (.ok out, sa))
    (hu : getUncachedDevice env volumeId vg.name sa = (.ok device, sb))
    (hwait : waitDeviceAppears env device sb = (none, sc))
    (hclear : clearDevice env device false sc = (some err, sd)) :
    pmemLvm.CreateDeviceLoop env lvm volumeId size strSz (vg :: rest) s =
      ((some (.errorfErr "clear device %q: %v" [volumeId] err), lvm), sd) := by
  unfold pmemLvm.CreateDeviceLoop
  have hf : vg.free ≥ size := hfree
  simp only [hf, if_true, hcr, hu, hwait, hclear]

/-- C16: neither backend's `CreateDevice` returns success without the new device
having been cleared. Pool backend: a successful run ends with `lvcreate`
succeeding on a pool, the device being resolved by listing that pool again, its
node appearing and `clearDevice` succeeding on that device; the state returned is
the one right after that clearing, and only then is that device put in the cache.
When, in an iteration, clearing fails instead, the loop ends with an error and the
manager is unchanged. Direct backend: a successful run makes exactly the calls
`NewContext`, lookup, `CreateNamespace`, lookup, `clearDevice` on the device
resolved by the second lookup, `Free`, with the clearing succeeding; when the
clearing fails, the result is an error. -/
theorem C16_success_only_after_clearing (env : Env W) :
    (∀ (lvm lvm1 : pmemLvm) (volumeId : String) (size : Nat) (s s1 : Sys W),
      pmemLvm.CreateDevice env lvm volumeId size s = ((none, lvm1), s1) →
      ∃ (vgName out : String) (s0 sa sb sc : Sys W) (device : PmemDeviceInfo),
        pmemexec.RunCommand env "lvcreate"
          (lvcreateArgs (FormatUint (lvmAlignedSize size) ++ "B") volumeId vgName) s0 =
          (.ok out, sa) ∧
        getUncachedDevice env volumeId vgName sa = (.ok device, sb) ∧
        waitDeviceAppears env device sb = (none, sc) ∧
        clearDevice env device false sc = (none, s1) ∧
        env.clearDevice sc.world device false = (none, s1.world) ∧
        s1.trace = sc.trace ++ [Call.clearDevice device false] ∧
        lvm1.devices = lvm.devices.set device.VolumeId device) ∧
    (∀ (lvm : pmemLvm) (volumeId strSz out : String) (size : Nat) (vg : vgInfo)
      (rest : List vgInfo) (s sa sb sc sd : Sys W) (device : PmemDeviceInfo) (err : GoError),
      size ≤ vg.free →
      pmemexec.RunCommand env "lvcreate" (lvcreateArgs strSz volumeId vg.name) s =
        (.ok out, sa) →
      getUncachedDevice env volumeId vg.name sa = (.ok device, sb) →
      waitDeviceAppears env device sb = (none, sc) →
      clearDevice env device false sc = (some err, sd) →
      pmemLvm.CreateDeviceLoop env lvm volumeId size strSz (vg :: rest) s =
        ((some (.errorfErr "clear device %q: %v" [volumeId] err), lvm), sd)) ∧
    (∀ (pmem : pmemNdctl) (volumeId : String) (size : Nat) (s s1 : Sys W),
      pmemNdctl.CreateDevice env pmem volumeId size s = (none, s1) →
      ∃ (w1 w2 w3 w4 : W) (e : GoError) (created ns : Namespace),
        env.NewContext s.world = (none, w1) ∧
        env.GetNamespaceByName w1 volumeId = (.error e, w2) ∧
        env.CreateNamespace w2 ⟨volumeId, add64 size ndctlAlign, ndctlAlign, "fsdax"⟩ =
          (.ok created, w3) ∧
        env.GetNamespaceByName w3 volumeId = (.ok ns, w4) ∧
        env.clearDevice w4 (namespaceToPmemInfo ns) false = (none, s1.world) ∧
        s1.trace = s.trace ++ [Call.NewContext, Call.GetNamespaceByName volumeId,
          Call.CreateNamespace ⟨volumeId, add64 size ndctlAlign, ndctlAlign, "fsdax"⟩,
          Call.GetNamespaceByName volumeId,
          Call.clearDevice (namespaceToPmemInfo ns) false, Call.Free]) ∧
    (∀ (pmem : pmemNdctl) (volumeId : String) (size : Nat) (s : Sys W) (w1 w2 w3 w4 w5 : W)
      (e err : GoError) (created ns : Namespace),
      env.NewContext s.world = (none, w1) →
      env.GetNamespaceByName w1 volumeId = (.error e, w2) →
      env.CreateNamespace w2 ⟨volumeId, add64 size ndctlAlign, ndctlAlign, "fsdax"⟩ =
        (.ok created, w3) →
      env.GetNamespaceByName w3 volumeId = (.ok ns, w4) →
      env.clearDevice w4 (namespaceToPmemInfo ns) false = (some err, w5) →
      (pmemNdctl.CreateDevice env pmem volumeId size s).1 =
        some (.errorfErr "clear device %q: %v" [volumeId] err)) := by
  refine ⟨?_, ?_, ?_, ?_⟩
  · intro lvm lvm1 volumeId size s s1 h
    unfold pmemLvm.CreateDevice at h
    split at h
    · simp only [Prod.mk.injEq] at h
      cases h.1.1
    · split at h
      · simp only [Prod.mk.injEq] at h
        cases h.1.1
      · obtain ⟨vg, _, s0, sa, sb, sc, out, device, hcr, hu, hwait, hclear, hl⟩ :=
          CreateDeviceLoop_cleared _ _ _ _ _ _ _ _ _ h
        refine ⟨vg.name, out, s0, sa, sb, sc, device, hcr, hu, hwait, hclear, ?_, ?_, ?_⟩
        · simp only [clearDevice, Prod.mk.injEq] at hclear
          rw [← hclear.2]
          exact Prod.ext hclear.1 rfl
        · simp only [clearDevice, Prod.mk.injEq] at hclear
          rw [← hclear.2]
        · rw [hl]
  · intro lvm volumeId strSz out size vg rest s sa sb sc sd device err hfree hcr hu hwait hclear
    exact CreateDeviceLoop_clear_fails env lvm volumeId size strSz vg rest s sa sb sc sd out
      device err hfree hcr hu hwait hclear
  · intro pmem volumeId size s s1 h
    simp only [pmemNdctl.CreateDevice, ndctl.NewContext] at h
    rcases hc : env.NewContext s.world with ⟨r1, w1⟩
    rw [hc] at h
    cases r1 with
    | some e1 => simp at h
    | none =>
      simp only [getDevice, ndctl.GetNamespaceByName] at h
      rcases hl : env.GetNamespaceByName w1 volumeId with ⟨r2, w2⟩
      rw [hl] at h
      cases r2 with
      | ok ns0 => simp at h
      | error e =>
        have h2 : (match ndctl.CreateNamespace env
              ⟨volumeId, add64 size ndctlAlign, ndctlAlign, "fsdax"⟩
              ⟨w2, s.trace ++ [Call.NewContext] ++ [Call.GetNamespaceByName volumeId]⟩ with
            | (.error err, s3) => (some err, ndctl.Free s3)
            | (.ok _, s3) =>
              match (match ndctl.GetNamespaceByName env volumeId s3 with
                | (.error err, s1) =>
                  if errorsIs err .ErrNotExist then (Except.error GoError.ErrDeviceNotFound, s1)
                  else (.error (.errorfErr "error getting device %q: %v" [volumeId] err), s1)
                | (.ok ns, s1) => (.ok (namespaceToPmemInfo ns), s1)) with
              | (.error err, s4) => (some err, ndctl.Free s4)
              | (.ok device, s4) =>
                match clearDevice env device false s4 with
                | (some err, s5) =>
                  (some (.errorfErr "clear device %q: %v" [volumeId] err), ndctl.Free s5)
                | (none, s5) => (none, ndctl.Free s5)) = (none, s1) := by
          revert h
          simp only [ndctl.GetNamespaceByName]
          split_ifs <;> exact id
        clear h
        simp only [ndctl.CreateNamespace, ndctl.GetNamespaceByName] at h2
        rcases hcr : env.CreateNamespace w2
          ⟨volumeId, add64 size ndctlAlign, ndctlAlign, "fsdax"⟩ with ⟨r3, w3⟩
        rw [hcr] at h2
        cases r3 with
        | error e3 => simp at h2
        | ok created =>
          simp only at h2
          rcases hl2 : env.GetNamespaceByName w3 volumeId with ⟨r4, w4⟩
          rw [hl2] at h2
          cases r4 with
          | error e4 =>
            simp only at h2
            split_ifs at h2 <;> simp at h2
          | ok ns =>
            simp only [clearDevice] at h2
            rcases hcl : env.clearDevice w4 (namespaceToPmemInfo ns) false with ⟨r5, w5⟩
            rw [hcl] at h2
            cases r5 with
            | some e5 => simp at h2
            | none =>
              simp only [ndctl.Free, Prod.mk.injEq, true_and] at h2
              subst h2
              exact ⟨w1, w2, w3, w4, e, created, ns, rfl, hl, hcr, hl2, hcl, by simp⟩
  · intro pmem volumeId size s w1 w2 w3 w4 w5 e err created ns hc hl hcr hl2 hcl
    have hg : ∃ e1, getDevice env volumeId ⟨w1, s.trace ++ [Call.NewContext]⟩ =
        (.error e1, ⟨w2, s.trace ++ [Call.NewContext] ++ [Call.GetNamespaceByName volumeId]⟩) := by
      simp only [getDevice, ndctl.GetNamespaceByName, hl]
      split_ifs <;> exact ⟨_, rfl⟩
    obtain ⟨e1, hg⟩ := hg
    simp only [pmemNdctl.CreateDevice, ndctl.NewContext, hc, hg, ndctl.CreateNamespace, hcr]
    simp only [getDevice, ndctl.GetNamespaceByName, hl2, clearDevice, hcl]

/-- Witness of C16: creating `v1` of 5 GiB succeeds in the pool backend, and the
state returned is the one right after a successful clearing of the registered
device; in the direct backend a successful create has cleared the device resolved
by the second lookup. -/
theorem C16_success_only_after_clearing_witness :
    pmemLvm.CreateDevice twoPools.env emptyLvm "v1" 5368709120 Sys.start =
      ((none, lvmWithV1),
        (pmemLvm.CreateDevice twoPools.env emptyLvm "v1" 5368709120 Sys.start).2) ∧
    (∃ (device : PmemDeviceInfo) (sc : Sys Unit),
      clearDevice twoPools.env device false sc =
        (none, (pmemLvm.CreateDevice twoPools.env emptyLvm "v1" 5368709120 Sys.start).2) ∧
      lvmWithV1.devices = emptyLvm.devices.set device.VolumeId device) ∧
    (∃ (ns : Namespace) (w4 : Nat),
      flakyLookup.clearDevice w4 (namespaceToPmemInfo ns) false =
        (none, (pmemNdctl.CreateDevice flakyLookup ⟨100⟩ "v1" 1073741824 ⟨0, []⟩).2.world)) :=
  ⟨rfl,
   match (C16_success_only_after_clearing twoPools.env).1 emptyLvm lvmWithV1 "v1" 5368709120
      Sys.start (pmemLvm.CreateDevice twoPools.env emptyLvm "v1" 5368709120 Sys.start).2 rfl with
   | ⟨_, _, _, _, _, sc, device, _, _, _, hclear, _, _, hl⟩ => ⟨device, sc, hclear, hl⟩,
   match (C16_success_only_after_clearing flakyLookup).2.2.1 ⟨100⟩ "v1" 1073741824 ⟨0, []⟩
      (pmemNdctl.CreateDevice flakyLookup ⟨100⟩ "v1" 1073741824 ⟨0, []⟩).2 rfl with
   | ⟨_, _, _, w4, _, _, ns, _, _, _, _, hcl, _⟩ => ⟨ns, w4, hcl⟩⟩

/-! ## The peer check of the server -/

/-- C20: for every client hello, the configuration that `serverConfig` builds for
`peerName` exists and behaves as follows. If `peerName` is empty, client
certificates are not required and the peer-certificate check accepts every input,
an empty list of verified chains included. If `peerName` is not empty, client
certificates are required and verified, and the check accepts exactly when the
first verified chain exists and starts with a leaf certificate whose subject
common name is `peerName`. -/
theorem C20_server_peer_check {Pool KeyPair : Type} (certPool : Pool) (peerCert : KeyPair)
    (peerName : String) (info : ClientHelloInfo) :
    ∃ config, serverConfig certPool peerCert peerName (some info) = .ok config ∧
      (peerName = "" →
        config.ClientAuth = .NoClientCert ∧
        ∀ rawCerts verifiedChains, config.VerifyPeerCertificate rawCerts verifiedChains = none) ∧
      (peerName ≠ "" →
        config.ClientAuth = .RequireAndVerifyClientCert ∧
        ∀ rawCerts verifiedChains,
          (config.VerifyPeerCertificate rawCerts verifiedChains = none ↔
            ∃ leaf chain chains, verifiedChains = (leaf :: chain) :: chains ∧
              leaf.SubjectCommonName = peerName)) := by
  by_cases hp : peerName = ""
  · refine ⟨TLSConfig.mk VersionTLS12 RenegotiateNever [peerCert] certPool
        (info.CipherSuites.filter (fun c => decide (c ∉ insecureCiphers)))
        (serverConfig.VerifyPeerCertificate peerName) .NoClientCert, ?_, ?_, fun h => absurd hp h⟩
    · simp only [serverConfig, ne_eq, hp, not_true_eq_false, if_false]
    · intro _
      refine ⟨rfl, ?_⟩
      intro rawCerts verifiedChains
      simp only [serverConfig.VerifyPeerCertificate, hp, if_true]
  · refine ⟨TLSConfig.mk VersionTLS12 RenegotiateNever [peerCert] certPool
        (info.CipherSuites.filter (fun c => decide (c ∉ insecureCiphers)))
        (serverConfig.VerifyPeerCertificate peerName) .RequireAndVerifyClientCert, ?_, fun h => absurd h hp, ?_⟩
    · simp only [serverConfig, ne_eq, hp, not_false_eq_true, if_true]
    · intro _
      refine ⟨rfl, ?_⟩
      intro rawCerts verifiedChains
      simp only [serverConfig.VerifyPeerCertificate, hp, if_false]
      match verifiedChains with
      | [] => simp
      | [] :: _ => simp
      | (leaf :: chain) :: chains =>
        by_cases hcn : leaf.SubjectCommonName = peerName
        · simp [hcn]
        · simp [hcn]

/-- Witness of C20: a server built for the peer name `pmem-registry` accepts a
verified chain whose leaf has that common name and rejects one whose leaf is
`wrong-node-controller`; a server built with an empty peer name accepts an empty
list of verified chains. -/
theorem C20_server_peer_check_witness :
    serverConfig.VerifyPeerCertificate "pmem-registry" [] [[⟨"pmem-registry"⟩, ⟨"ca"⟩]] = none ∧
    serverConfig.VerifyPeerCertificate "pmem-registry" [] [[⟨"wrong-node-controller"⟩]] =
      some (.errorf "expected CN %q, got %q" ["pmem-registry", "wrong-node-controller"]) ∧
    serverConfig.VerifyPeerCertificate "" [] [] = none ∧
    (∃ config, serverConfig () () "pmem-registry" (some ⟨[0xc02f, 0x002f]⟩) = .ok config ∧
      config.ClientAuth = .RequireAndVerifyClientCert) :=
  ⟨by decide, by decide, by decide,
   match C20_server_peer_check () () "pmem-registry" ⟨[0xc02f, 0x002f]⟩ with
   | ⟨config, hc, _, h2⟩ => ⟨config, hc, (h2 (by decide)).1⟩⟩

/-! ## Merging metric families -/

theorem mergeFamily_keys {M : Type} (mfs : Families M) (n : String) (mf : MetricFamily M) :
    (mergeFamily mfs n mf).map Prod.fst =
      if n ∈ mfs.map Prod.fst then mfs.map Prod.fst else mfs.map Prod.fst ++ [n] := by
  induction mfs with
  | nil => simp [mergeFamily]
  | cons p rest ih =>
    obtain ⟨k, mfo⟩ := p
    unfold mergeFamily
    by_cases h : k = n
    · subst h
      simp
    · have h2 : ¬ n = k := fun e => h e.symm
      simp only [h, if_false, List.map_cons, ih, List.mem_cons, h2, false_or]
      split_ifs <;> simp

theorem mergeFamily_get {M : Type} (mfs : Families M) (n k : String) (mf : MetricFamily M) :
    ((Families.get (mergeFamily mfs n mf) k).map (fun f => f.Metric)).getD [] =
      ((Families.get mfs k).map (fun f => f.Metric)).getD [] ++
        (if n = k then mf.Metric else []) := by
  induction mfs with
  | nil =>
    unfold mergeFamily
    by_cases h : n = k <;> simp [Families.get, h]
  | cons p rest ih =>
    obtain ⟨k1, mfo⟩ := p
    unfold mergeFamily
    by_cases h : k1 = n
    · subst h
      by_cases h2 : k1 = k
      · simp [Families.get, h2]
      · simp [Families.get, h2]
    · by_cases h2 : k1 = k
      · subst h2
        simp [Families.get, h, Ne.symm h]
      · simp only [h, if_false, Families.get, h2]
        exact ih

theorem get_isSome_iff {M : Type} (mfs : Families M) (k : String) :
    (Families.get mfs k).isSome = true ↔ k ∈ mfs.map Prod.fst := by
  induction mfs with
  | nil => simp [Families.get]
  | cons p rest ih =>
    obtain ⟨k1, mfo⟩ := p
    by_cases h : k1 = k
    · simp [Families.get, h]
    · have h2 : ¬ k = k1 := fun e => h e.symm
      simp [Families.get, h, h2, ih]

theorem mergePart_spec {M : Type} (part mfs : Families M) :
    (((mfs.map Prod.fst).Nodup) → ((mergePart mfs part).map Prod.fst).Nodup) ∧
    (∀ k, k ∈ (mergePart mfs part).map Prod.fst ↔
      k ∈ mfs.map Prod.fst ∨ k ∈ part.map Prod.fst) ∧
    (∀ k, ((Families.get (mergePart mfs part) k).map (fun f => f.Metric)).getD [] =
      ((Families.get mfs k).map (fun f => f.Metric)).getD [] ++
        (part.filter (fun p => p.1 = k)).flatMap (fun p => p.2.Metric)) := by
  induction part generalizing mfs with
  | nil => simp [mergePart]
  | cons p rest ih =>
    obtain ⟨n, mf⟩ := p
    have hstep : mergePart mfs ((n, mf) :: rest) = mergePart (mergeFamily mfs n mf) rest := rfl
    obtain ⟨i1, i2, i3⟩ := ih (mergeFamily mfs n mf)
    rw [hstep]
    refine ⟨?_, ?_, ?_⟩
    · intro hnd
      apply i1
      rw [mergeFamily_keys]
      split_ifs with hmem
      · exact hnd
      · rw [List.nodup_append]
        refine ⟨hnd, List.nodup_singleton _, ?_⟩
        intro a ha hb
        rw [List.mem_singleton] at hb
        exact hmem (hb ▸ ha)
    · intro k
      rw [i2 k, mergeFamily_keys]
      split_ifs with hmem
      · simp only [List.map_cons, List.mem_cons]
        constructor
        · rintro (h | h)
          · exact Or.inl h
          · exact Or.inr (Or.inr h)
        · rintro (h | h | h)
          · exact Or.inl h
          · exact Or.inl (h ▸ hmem)
          · exact Or.inr h
      · simp only [List.mem_append, List.mem_singleton, List.map_cons, List.mem_cons]
        tauto
    · intro k
      rw [i3 k, mergeFamily_get]
      by_cases h : n = k
      · subst h
        simp [List.filter_cons, List.append_assoc]
      · simp [List.filter_cons, h]

theorem mergeResponses_spec {M : Type} (responses : List (Families M)) (mfs : Families M)
    (hnd : (mfs.map Prod.fst).Nodup) :
    ((responses.foldl mergePart mfs).map Prod.fst).Nodup ∧
    (∀ k, k ∈ (responses.foldl mergePart mfs).map Prod.fst ↔
      k ∈ mfs.map Prod.fst ∨ ∃ part ∈ responses, k ∈ part.map Prod.fst) ∧
    (∀ k, ((Families.get (responses.foldl mergePart mfs) k).map (fun f => f.Metric)).getD [] =
      ((Families.get mfs k).map (fun f => f.Metric)).getD [] ++ metricsUnder responses k) := by
  induction responses generalizing mfs with
  | nil => simp [metricsUnder, hnd]
  | cons part rest ih =>
    obtain ⟨p1, p2, p3⟩ := mergePart_spec part mfs
    obtain ⟨i1, i2, i3⟩ := ih (mergePart mfs part) (p1 hnd)
    rw [List.foldl_cons]
    refine ⟨i1, ?_, ?_⟩
    · intro k
      rw [i2 k, p2 k]
      simp only [List.mem_cons, exists_eq_or_imp]
      tauto
    · intro k
      rw [i3 k, p3 k]
      simp [metricsUnder, List.append_assoc]

theorem mergeResponses_replicate {M : Type} (n : Nat) (parts : List (Families M)) :
    mergeResponses (List.replicate n [] ++ parts) = mergeResponses parts := by
  unfold mergeResponses
  rw [List.foldl_append]
  congr 1
  induction n with
  | zero => rfl
  | succ m ih => simpa [List.replicate_succ, mergePart] using ih

theorem insertName_perm (n : String) (l : List String) : (insertName n l).Perm (n :: l) := by
  induction l with
  | nil => exact List.Perm.refl _
  | cons m rest ih =>
    unfold insertName
    split_ifs
    · exact (List.Perm.cons m ih).trans (List.Perm.swap n m rest)
    · exact List.Perm.refl _

theorem sortStrings_perm (l : List String) : (sortStrings l).Perm l := by
  induction l with
  | nil => exact List.Perm.refl _
  | cons n rest ih =>
    unfold sortStrings
    exact (insertName_perm n _).trans (List.Perm.cons n ih)

theorem encodeFamilies_prefix {M σ : Type} (Encode : σ → MetricFamily M → Option GoError × σ)
    (mfs : Families M) (names : List String) (w : σ) :
    (encodeFamilies Encode mfs names w).2 <+:
      names.filterMap (fun n => (mfs.get n).map (fun mf => (n, mf))) := by
  induction names generalizing w with
  | nil => simp [encodeFamilies]
  | cons n rest ih =>
    unfold encodeFamilies
    cases hg : Families.get mfs n with
    | none => exact List.nil_prefix
    | some mf =>
      simp only [List.filterMap_cons, hg, Option.map_some']
      rcases he : Encode w mf with ⟨r, w1⟩
      cases r with
      | some e => exact List.nil_prefix
      | none =>
        simp only
        exact (List.prefix_cons_inj _).mpr (ih w1)

theorem encodeFamilies_all {M σ : Type} (Encode : σ → MetricFamily M → Option GoError × σ)
    (henc : ∀ w mf, (Encode w mf).1 = none)
    (mfs : Families M) (names : List String) (w : σ) (hk : ∀ n ∈ names, n ∈ mfs.map Prod.fst) :
    (encodeFamilies Encode mfs names w).2 =
      names.filterMap (fun n => (mfs.get n).map (fun mf => (n, mf))) := by
  induction names generalizing w with
  | nil => simp [encodeFamilies]
  | cons n rest ih =>
    unfold encodeFamilies
    have hs := (get_isSome_iff mfs n).mpr (hk n (List.mem_cons_self _ _))
    cases hg : Families.get mfs n with
    | none => rw [hg] at hs; cases hs
    | some mf =>
      simp only [List.filterMap_cons, hg, Option.map_some']
      rcases he : Encode w mf with ⟨r, w1⟩
      have h1 := henc w mf
      rw [he] at h1
      simp only at h1
      subst h1
      simp only
      rw [ih w1 (fun m hm => hk m (List.mem_cons_of_mem _ hm))]

theorem mergedFamilies_names {M : Type} (parts : List (Families M)) :
    (mergedFamilies parts).map Prod.fst = sortStrings ((mergeResponses parts).map Prod.fst) := by
  unfold mergedFamilies
  have hall : ∀ n ∈ sortStrings ((mergeResponses parts).map Prod.fst),
      n ∈ (mergeResponses parts).map Prod.fst :=
    fun n hn => (sortStrings_perm _).mem_iff.mp hn
  generalize sortStrings ((mergeResponses parts).map Prod.fst) = names at hall
  induction names with
  | nil => rfl
  | cons n rest ih =>
    have hs := (get_isSome_iff (mergeResponses parts) n).mpr (hall n (List.mem_cons_self _ _))
    cases hg : Families.get (mergeResponses parts) n with
    | none => rw [hg] at hs; cases hs
    | some mf =>
      simp only [List.filterMap_cons, hg, Option.map_some', List.map_cons]
      rw [ih (fun m hm => hall m (List.mem_cons_of_mem _ hm))]

theorem stringLess_asymm (a b : List Char) (h : stringLess a b = true) :
    stringLess b a = false := by
  induction a generalizing b with
  | nil =>
    cases b with
    | nil => simp [stringLess] at h
    | cons y ys => rfl
  | cons x xs ih =>
    cases b with
    | nil => simp [stringLess] at h
    | cons y ys =>
      simp only [stringLess] at h ⊢
      by_cases hxy : x.toNat < y.toNat
      · rw [if_neg (by omega), if_pos hxy]
      · rw [if_neg hxy] at h
        by_cases hyx : y.toNat < x.toNat
        · rw [if_pos hyx] at h
          cases h
        · rw [if_neg hyx] at h
          rw [if_neg hyx, if_neg hxy]
          exact ih ys h

theorem stringLess_negtrans (a b c : List Char) (h : stringLess a c = true) :
    stringLess a b = true ∨ stringLess b c = true := by
  induction a generalizing b c with
  | nil =>
    cases c with
    | nil => simp [stringLess] at h
    | cons z zs =>
      cases b with
      | nil => right; rfl
      | cons y ys => left; rfl
  | cons x xs ih =>
    cases c with
    | nil => simp [stringLess] at h
    | cons z zs =>
      cases b with
      | nil => right; rfl
      | cons y ys =>
        simp only [stringLess] at h ⊢
        by_cases hxy : x.toNat < y.toNat
        · left
          rw [if_pos hxy]
        · by_cases hyx : y.toNat < x.toNat
          · right
            have hyz : y.toNat < z.toNat := by
              split_ifs at h <;> omega
            rw [if_pos hyz]
          · have hxy2 : x.toNat = y.toNat := by omega
            rw [if_neg hxy, if_neg hyx]
            rw [hxy2] at h
            by_cases hyz : y.toNat < z.toNat
            · right
              rw [if_pos hyz]
            · rw [if_neg hyz] at h ⊢
              by_cases hzy : z.toNat < y.toNat
              · rw [if_pos hzy] at h
                cases h
              · rw [if_neg hzy] at h ⊢
                exact ih ys zs h

theorem stringLess_total (a b : List Char) (h : a ≠ b) :
    stringLess a b = true ∨ stringLess b a = true := by
  induction a generalizing b with
  | nil =>
    cases b with
    | nil => exact absurd rfl h
    | cons y ys => left; rfl
  | cons x xs ih =>
    cases b with
    | nil => right; rfl
    | cons y ys =>
      simp only [stringLess]
      by_cases hxy : x.toNat < y.toNat
      · left
        rw [if_pos hxy]
      · by_cases hyx : y.toNat < x.toNat
        · right
          rw [if_pos hyx]
        · rw [if_neg hxy, if_neg hyx, if_neg hyx, if_neg hxy]
          have hc : x = y := by
            apply Char.ext
            apply UInt32.ext
            show x.toNat = y.toNat
            omega
          subst hc
          exact ih ys (fun e => h (by rw [e]))

theorem mem_insertName (x n : String) (l : List String) :
    x ∈ insertName n l ↔ x = n ∨ x ∈ l := by
  rw [(insertName_perm n l).mem_iff, List.mem_cons]

/-- Insertion keeps a list of names in non-decreasing order. -/
theorem insertName_sorted (n : String) (l : List String)
    (h : l.Pairwise (fun a b => stringLess b.toList a.toList = false)) :
    (insertName n l).Pairwise (fun a b => stringLess b.toList a.toList = false) := by
  induction l with
  | nil => simp [insertName]
  | cons m rest ih =>
    rw [List.pairwise_cons] at h
    unfold insertName
    by_cases hmn : stringLess m.toList n.toList = true
    · rw [if_pos hmn, List.pairwise_cons]
      refine ⟨fun x hx => ?_, ih h.2⟩
      rcases (mem_insertName x n rest).mp hx with e | e
      · rw [e]
        exact stringLess_asymm _ _ hmn
      · exact h.1 x e
    · rw [if_neg hmn, List.pairwise_cons]
      have hmn2 : stringLess m.toList n.toList = false := by simpa using hmn
      refine ⟨fun x hx => ?_, List.pairwise_cons.mpr h⟩
      rcases List.mem_cons.mp hx with e | e
      · rw [e]
        exact hmn2
      · have hxm := h.1 x e
        cases hxn : stringLess x.toList n.toList with
        | false => rfl
        | true =>
          rcases stringLess_negtrans _ m.toList _ hxn with c | c
          · rw [c] at hxm
            cases hxm
          · rw [c] at hmn2
            cases hmn2

/-- The result of `sort.Strings` is in non-decreasing order. -/
theorem sortStrings_sorted (l : List String) :
    (sortStrings l).Pairwise (fun a b => stringLess b.toList a.toList = false) := by
  induction l with
  | nil => simp [sortStrings]
  | cons n rest ih =>
    unfold sortStrings
    exact insertName_sorted n _ ih

/-- Distinct names sorted by `sort.Strings` are in strictly increasing order. -/
theorem sortStrings_increasing (l : List String) (h : l.Nodup) :
    (sortStrings l).Pairwise (fun a b => stringLess a.toList b.toList = true) := by
  have h1 := sortStrings_sorted l
  have h2 : (sortStrings l).Nodup := (sortStrings_perm l).nodup_iff.mpr h
  refine (h1.and h2).imp ?_
  rintro a b ⟨hba, hne⟩
  have hl : a.toList ≠ b.toList := fun e => hne (String.ext e)
  rcases stringLess_total _ _ hl with c | c
  · exact c
  · rw [c] at hba
    cases hba

/-- The loop over the sorted names emits the families up to the first one whose
encoding fails: every emitted family was encoded without error by the writer as the
families before it left it, and the family after the last emitted one, if there is
one, is one on which the encoder fails. -/
theorem encodeFamilies_cut {M σ : Type} (Encode : σ → MetricFamily M → Option GoError × σ)
    (mfs : Families M) (names : List String) (w : σ) (hk : ∀ n ∈ names, n ∈ mfs.map Prod.fst) :
    ∃ rest, names.filterMap (fun n => (mfs.get n).map (fun mf => (n, mf))) =
        (encodeFamilies Encode mfs names w).2 ++ rest ∧
      (∀ pre p post, (encodeFamilies Encode mfs names w).2 = pre ++ p :: post →
        (Encode (writerAfter Encode pre w) p.2).1 = none) ∧
      (∀ p rest1, rest = p :: rest1 →
        (Encode (writerAfter Encode (encodeFamilies Encode mfs names w).2 w) p.2).1 ≠ none) := by
  induction names generalizing w with
  | nil =>
    refine ⟨[], by simp [encodeFamilies], ?_, ?_⟩
    · intro pre p post h
      simp [encodeFamilies] at h
    · intro p rest1 h
      cases h
  | cons n rest ih =>
    have hs := (get_isSome_iff mfs n).mpr (hk n (List.mem_cons_self _ _))
    cases hg : Families.get mfs n with
    | none => rw [hg] at hs; cases hs
    | some mf =>
      unfold encodeFamilies
      simp only [List.filterMap_cons, hg, Option.map_some']
      rcases he : Encode w mf with ⟨r, w1⟩
      cases r with
      | some e =>
        refine ⟨_, (List.nil_append _).symm, ?_, ?_⟩
        · intro pre p post h
          simp at h
        · intro p rest1 h
          simp only [List.cons.injEq] at h
          rw [← h.1]
          simp [writerAfter, he]
      | none =>
        obtain ⟨rest2, h1, h2, h3⟩ := ih w1 (fun m hm => hk m (List.mem_cons_of_mem _ hm))
        refine ⟨rest2, ?_, ?_, ?_⟩
        · simp only [List.cons_append]
          rw [h1]
        · intro pre p post h
          cases pre with
          | nil =>
            simp only [List.nil_append, List.cons.injEq] at h
            rw [← h.1]
            simp [writerAfter, he]
          | cons q pre1 =>
            simp only [List.cons_append, List.cons.injEq] at h
            have := h2 pre1 p post h.2
            rw [← h.1]
            simpa [writerAfter, he] using this
        · intro p rest1 h
          have := h3 p rest1 h
          simpa [writerAfter, he] using this

/-- C19 (amended): the merged families have one entry per distinct family name
occurring in any source, in strictly increasing order of the names, and the metrics
of an entry are the metrics that the sources carry under that name, source after
source, so none is dropped or duplicated. What `Merge` hands to the encoder is an
initial part of these families, cut at the first family whose encoding fails: every
family emitted was encoded without error, the family after the last one emitted,
if there is one, is the one on which the encoder failed, and all of them are
emitted when no encoding fails. -/
theorem C19_merge_emits_union_until_encoding_fails {M σ : Type}
    (Encode : σ → MetricFamily M → Option GoError × σ) (parts : List (Families M)) (w : σ) :
    (Handler.Merge Encode parts w).2 <+: mergedFamilies parts ∧
    ((∀ w1 mf, (Encode w1 mf).1 = none) →
      (Handler.Merge Encode parts w).2 = mergedFamilies parts) ∧
    ((mergedFamilies parts).map Prod.fst).Nodup ∧
    (∀ n, n ∈ (mergedFamilies parts).map Prod.fst ↔ ∃ part ∈ parts, n ∈ part.map Prod.fst) ∧
    (∀ n mf, (n, mf) ∈ mergedFamilies parts →
      mf.Metric = metricsUnder parts n ∧ mf.Metric.Perm (metricsUnder parts n)) ∧
    ((mergedFamilies parts).map Prod.fst).Pairwise
      (fun a b => stringLess a.toList b.toList = true) ∧
    (∃ rest, mergedFamilies parts = (Handler.Merge Encode parts w).2 ++ rest ∧
      (∀ pre p post, (Handler.Merge Encode parts w).2 = pre ++ p :: post →
        (Encode (writerAfter Encode pre w) p.2).1 = none) ∧
      (∀ p rest1, rest = p :: rest1 →
        (Encode (writerAfter Encode (Handler.Merge Encode parts w).2 w) p.2).1 ≠ none)) := by
  obtain ⟨s1, s2, s3⟩ := mergeResponses_spec parts [] List.nodup_nil
  have hm : ∀ ps : List (Families M), List.foldl mergePart [] ps = mergeResponses ps :=
    fun _ => rfl
  rw [hm] at s1 s2 s3
  have hperm := sortStrings_perm ((mergeResponses parts).map Prod.fst)
  refine ⟨?_, ?_, ?_, ?_, ?_, ?_, ?_⟩
  · simp only [Handler.Merge, mergeResponses_replicate]
    exact encodeFamilies_prefix _ _ _ _
  · intro henc
    simp only [Handler.Merge, mergeResponses_replicate]
    exact encodeFamilies_all Encode henc _ _ _ (fun n hn => hperm.mem_iff.mp hn)
  · rw [mergedFamilies_names]
    exact hperm.nodup_iff.mpr s1
  · intro n
    rw [mergedFamilies_names, hperm.mem_iff, s2 n]
    simp
  · intro n mf hmem
    have hget : Families.get (mergeResponses parts) n = some mf := by
      unfold mergedFamilies at hmem
      rw [List.mem_filterMap] at hmem
      obtain ⟨a, _, ha⟩ := hmem
      cases hg : Families.get (mergeResponses parts) a with
      | none => rw [hg] at ha; cases ha
      | some f =>
        rw [hg] at ha
        simp only [Option.map_some', Option.some.injEq, Prod.mk.injEq] at ha
        rw [← ha.1, ← ha.2]
        exact hg
    have h3 := s3 n
    rw [hget] at h3
    simp only [Option.map_some', Option.getD_some, Families.get, Option.map_none',
      Option.getD_none, List.nil_append] at h3
    exact ⟨h3, h3 ▸ List.Perm.refl _⟩
  · rw [mergedFamilies_names]
    exact sortStrings_increasing _ s1
  · simp only [Handler.Merge, mergeResponses_replicate]
    exact encodeFamilies_cut Encode _ _ w (fun n hn => hperm.mem_iff.mp hn)

/-- Witness of C19: the two exporters of the test of the handler, with an encoder
that never fails, give `bar`, `conflict` with both samples, `foo`, and `shared`
with both samples. -/
theorem C19_merge_emits_union_until_encoding_fails_witness :
    (∀ w1 mf, (countingEncoder w1 mf).1 = none) ∧
    (Handler.Merge countingEncoder [exporter1, exporter2] 0).2 =
      mergedFamilies [exporter1, exporter2] ∧
    mergedFamilies [exporter1, exporter2] =
      [("bar", ⟨"bar", "", 3, ["bar 4"]⟩),
       ("conflict", ⟨"conflict", "", 3, ["conflict 2", "conflict 5"]⟩),
       ("foo", ⟨"foo", "", 3, ["foo 1"]⟩),
       ("shared", ⟨"shared", "", 3, ["shared\x7bmeh=\"a\"\x7d 3", "shared\x7bmeh=\"b\"\x7d 6"]⟩)] :=
  ⟨fun _ _ => rfl,
   (C19_merge_emits_union_until_encoding_fails countingEncoder [exporter1, exporter2] 0).2.1
      (fun _ _ => rfl),
   by decide⟩

/-- Counterexample to C19 as stated: the two exporters of the test of the handler are
scraped and parsed, and `Merge` writes to a writer that takes one family and then
fails. `Merge` emits `bar` only: the names `conflict`, `foo` and `shared` occur in a
source and no family is emitted for them. With a writer that never fails the same
sources give all four families. -/
theorem C19_encoding_failure_drops_families :
    (Handler.Merge closedWriter [exporter1, exporter2] 0).2 =
      [("bar", ⟨"bar", "", 3, ["bar 4"]⟩)] ∧
    "foo" ∈ exporter1.map Prod.fst ∧
    "foo" ∉ (Handler.Merge closedWriter [exporter1, exporter2] 0).2.map Prod.fst ∧
    (Handler.Merge countingEncoder [exporter1, exporter2] 0).2.map Prod.fst =
      ["bar", "conflict", "foo", "shared"] := by
  have e : (Handler.Merge closedWriter [exporter1, exporter2] 0).2 =
      [("bar", ⟨"bar", "", 3, ["bar 4"]⟩)] := by
    simp only [Handler.Merge, mergeResponses_replicate]
    decide
  have e2 : (Handler.Merge countingEncoder [exporter1, exporter2] 0).2.map Prod.fst =
      ["bar", "conflict", "foo", "shared"] := by
    simp only [Handler.Merge, mergeResponses_replicate]
    decide
  rw [e]
  exact ⟨rfl, by decide, by decide, e2⟩

/-! ## Startup -/

theorem trace_append_trans (a b d : List Call) (h1 : ∃ c, b = a ++ c) (h2 : ∃ c, d = b ++ c) :
    ∃ c, d = a ++ c := by
  obtain ⟨c1, e1⟩ := h1
  obtain ⟨c2, e2⟩ := h2
  exact ⟨c1 ++ c2, by rw [e2, e1, List.append_assoc]⟩

theorem RunCommand_trace (env : Env W) (cmd : String) (args : List String) (s : Sys W) :
    ∃ c, (pmemexec.RunCommand env cmd args s).2.trace = s.trace ++ c :=
  ⟨[Call.RunCommand cmd args], rfl⟩

theorem setupVG_devNames_trace (env : Env W) (l : List Namespace) (s : Sys W) :
    ∃ c, (setupVG.devNames env l s).2.trace = s.trace ++ c := by
  induction l generalizing s with
  | nil => exact ⟨[], by simp [setupVG.devNames]⟩
  | cons ns rest ih =>
    simp only [setupVG.devNames]
    split_ifs with hname
    · have hrun := RunCommand_trace env "pvs"
        ["--noheadings", "-o", "vg_name", "/dev/" ++ ns.BlockDeviceName] s
      split
      · rename_i e s1 hr
        rw [hr] at hrun
        exact trace_append_trans _ _ _ hrun (ih s1)
      · rename_i out s1 hr
        rw [hr] at hrun
        split_ifs <;> exact trace_append_trans _ _ _ hrun (ih s1)
    · exact ih s

theorem setupVG_trace (env : StartupEnv W) (bus region : Nat) (vgName : String) (s : Sys W) :
    ∃ c, (setupVG env bus region vgName s).2.trace = s.trace ++ c := by
  unfold setupVG
  simp only
  split_ifs with h0 h1
  · exact ⟨[], by simp⟩
  · exact setupVG_devNames_trace env.toEnv (env.Region s.world bus region).ActiveNamespaces s
  · have hd := setupVG_devNames_trace env.toEnv
      (env.Region s.world bus region).ActiveNamespaces s
    generalize setupVG.devNames env.toEnv
      (env.Region s.world bus region).ActiveNamespaces s = p at hd ⊢
    have hv := RunCommand_trace env.toEnv "vgdisplay" [vgName] p.2
    generalize pmemexec.RunCommand env.toEnv "vgdisplay" [vgName] p.2 = q at hv ⊢
    rcases q with ⟨r2, s2⟩
    simp only at hv
    cases r2 with
    | error e =>
      simp only
      have hc := RunCommand_trace env.toEnv "vgcreate" (["--force", vgName] ++ p.1) s2
      generalize pmemexec.RunCommand env.toEnv "vgcreate" (["--force", vgName] ++ p.1) s2 = q3
        at hc ⊢
      rcases q3 with ⟨r3, s3⟩
      cases r3 <;> exact trace_append_trans _ _ _ (trace_append_trans _ _ _ hd hv) hc
    | ok o =>
      simp only
      have hc := RunCommand_trace env.toEnv "vgextend" (["--force", vgName] ++ p.1) s2
      generalize pmemexec.RunCommand env.toEnv "vgextend" (["--force", vgName] ++ p.1) s2 = q3
        at hc ⊢
      rcases q3 with ⟨r3, s3⟩
      cases r3 <;> exact trace_append_trans _ _ _ (trace_append_trans _ _ _ hd hv) hc

theorem setupNS_trace (env : StartupEnv W) (bus region percentage : Nat) (s s1 : Sys W)
    (r : Option GoError) (h : setupNS env bus region percentage s = some (r, s1)) :
    ∃ c, s1.trace = s.trace ++ c := by
  unfold setupNS at h
  simp only at h
  split at h
  · cases h
  · split_ifs at h
    · split at h
      · rename_i hcr
        simp only [Option.some.injEq, Prod.mk.injEq] at h
        rw [← h.2]
        simp only [ndctl.RegionCreateNamespace, Prod.mk.injEq] at hcr
        rw [← hcr.2]
        exact ⟨_, rfl⟩
      · rename_i hcr
        simp only [Option.some.injEq, Prod.mk.injEq] at h
        rw [← h.2]
        simp only [ndctl.RegionCreateNamespace, Prod.mk.injEq] at hcr
        rw [← hcr.2]
        exact ⟨_, rfl⟩
    · simp only [Option.some.injEq, Prod.mk.injEq] at h
      rw [← h.2]
      exact ⟨[], by simp⟩

theorem regions_trace (env : StartupEnv W) (pmemPercentage bus : Nat) (regions : List Nat)
    (volumeGroups : List String) (s s1 : Sys W) (r : Except GoError (List String))
    (h : NewPmemDeviceManagerLVM.regions env pmemPercentage bus regions volumeGroups s =
      some (r, s1)) :
    ∃ c, s1.trace = s.trace ++ c := by
  induction regions generalizing volumeGroups s with
  | nil =>
    simp only [NewPmemDeviceManagerLVM.regions, Option.some.injEq, Prod.mk.injEq] at h
    rw [← h.2]
    exact ⟨[], by simp⟩
  | cons reg rest ih =>
    unfold NewPmemDeviceManagerLVM.regions at h
    simp only at h
    split_ifs at h
    · exact ih _ _ h
    · split at h
      · cases h
      · rename_i err sa hns
        simp only [Option.some.injEq, Prod.mk.injEq] at h
        rw [← h.2]
        exact setupNS_trace env bus reg pmemPercentage s sa (some err) hns
      · rename_i sa hns
        have h1 := setupNS_trace env bus reg pmemPercentage s sa none hns
        have h2 := setupVG_trace env bus reg (env.Region s.world bus reg).VgName sa
        split at h
        · rename_i err sb hvg
          rw [hvg] at h2
          simp only [Option.some.injEq, Prod.mk.injEq] at h
          rw [← h.2]
          exact trace_append_trans _ _ _ h1 h2
        · rename_i sb hvg
          rw [hvg] at h2
          have h3 := RunCommand_trace env.toEnv "vgs" [(env.Region s.world bus reg).VgName] sb
          split at h
          · rename_i sc hrun
            rw [hrun] at h3
            exact trace_append_trans _ _ _
              (trace_append_trans _ _ _ (trace_append_trans _ _ _ h1 h2) h3) (ih _ _ h)
          · rename_i sc hrun
            rw [hrun] at h3
            exact trace_append_trans _ _ _
              (trace_append_trans _ _ _ (trace_append_trans _ _ _ h1 h2) h3) (ih _ _ h)

theorem buses_trace (env : StartupEnv W) (pmemPercentage : Nat) (buses : List Nat)
    (volumeGroups : List String) (s s1 : Sys W) (r : Except GoError (List String))
    (h : NewPmemDeviceManagerLVM.buses env pmemPercentage buses volumeGroups s = some (r, s1)) :
    ∃ c, s1.trace = s.trace ++ c := by
  induction buses generalizing volumeGroups s with
  | nil =>
    simp only [NewPmemDeviceManagerLVM.buses, Option.some.injEq, Prod.mk.injEq] at h
    rw [← h.2]
    exact ⟨[], by simp⟩
  | cons bus rest ih =>
    unfold NewPmemDeviceManagerLVM.buses at h
    simp only [ndctl.ActiveRegions] at h
    have h0 : ∃ c, (⟨s.world, s.trace ++ [Call.ActiveRegions bus]⟩ : Sys W).trace =
        s.trace ++ c := ⟨_, rfl⟩
    split at h
    · cases h
    · rename_i err sa hreg
      simp only [Option.some.injEq, Prod.mk.injEq] at h
      rw [← h.2]
      exact trace_append_trans _ _ _ h0 (regions_trace _ _ _ _ _ _ _ _ hreg)
    · rename_i vgs1 sa hreg
      exact trace_append_trans _ _ _
        (trace_append_trans _ _ _ h0 (regions_trace _ _ _ _ _ _ _ _ hreg)) (ih _ _ h)

theorem NewPmemDeviceManagerLVMForVGs_trace (env : Env W) (volumeGroups : List String)
    (s : Sys W) :
    (NewPmemDeviceManagerLVMForVGs env volumeGroups s).2.trace =
      s.trace ++ [Call.RunCommand "lvs" (lvsArgs ++ volumeGroups)] := by
  simp only [NewPmemDeviceManagerLVMForVGs, listDevices, pmemexec.RunCommand, parseLVSOutput]
  rcases env.RunCommand s.world "lvs" (lvsArgs ++ volumeGroups) with ⟨r, w1⟩
  cases r <;> rfl

/-- After the range check, provisioning opens the library context first: when that
fails the failure of the library is returned, and when the constructor returns at
all, the calls it made start with `NewContext`. -/
theorem provision_starts_with_context (env : StartupEnv W) (pmemPercentage : Nat)
    (s s1 : Sys W) (r : Except GoError pmemLvm)
    (h : NewPmemDeviceManagerLVM.provision env pmemPercentage s = some (r, s1)) :
    ∃ c, s1.trace = s.trace ++ Call.NewContext :: c := by
  unfold NewPmemDeviceManagerLVM.provision at h
  simp only [ndctl.NewContext, ndctl.GetBuses] at h
  rcases hc : env.NewContext s.world with ⟨r1, w1⟩
  rw [hc] at h
  cases r1 with
  | some err =>
    simp only [Option.some.injEq, Prod.mk.injEq] at h
    rw [← h.2]
    exact ⟨[], rfl⟩
  | none =>
    simp only at h
    split at h
    · cases h
    · rename_i err sa hb
      simp only [Option.some.injEq, Prod.mk.injEq] at h
      rw [← h.2]
      obtain ⟨c, hcalls⟩ := buses_trace _ _ _ _ _ _ _ hb
      exact ⟨Call.GetBuses :: c ++ [Call.Free], by simp [ndctl.Free, hcalls]⟩
    · rename_i vgs sa hb
      obtain ⟨c, hcalls⟩ := buses_trace _ _ _ _ _ _ _ hb
      have hl := NewPmemDeviceManagerLVMForVGs_trace env.toEnv vgs sa
      rcases hfv : NewPmemDeviceManagerLVMForVGs env.toEnv vgs sa with ⟨r4, s4⟩
      rw [hfv] at h hl
      simp only [Option.some.injEq, Prod.mk.injEq] at h
      rw [← h.2]
      simp only at hl
      exact ⟨Call.GetBuses :: c ++ [Call.RunCommand "lvs" (lvsArgs ++ vgs), Call.Free],
        by simp [ndctl.Free, hl, hcalls]⟩

/-- C15: for every percentage above 100 both constructors return the range error
and no manager before anything else happens: the pool constructor has taken no
step, neither `lvmMutex.Lock()` nor a call to a tool, the library or the hardware,
and the direct constructor, which has no lock, leaves world and trace unchanged, so
the mount table has not been read. For every percentage from 0 to 100 the range
check rejects nothing: the pool constructor takes the mutex as its first step, runs
its body, whose first call opens the library context, and releases the mutex as its
last step; the direct constructor lists the mounts and returns what the mount
table decides, a manager with that percentage when `/sys` is mounted read-write. -/
theorem C15_percentage_range_check (env : StartupEnv W) (pmemPercentage : Nat) (s : Sys W) :
    (100 < pmemPercentage →
      NewPmemDeviceManagerLVM env pmemPercentage s.world =
        some (.error (.errorf "invalid pmemPercentage '%d'. Value must be 0..100"
          [FormatUint pmemPercentage]), s.world, []) ∧
      NewPmemDeviceManagerNdctl env pmemPercentage s =
        (.error (.errorf "invalid pmemPercentage '%d'. Value must be 0..100"
          [FormatUint pmemPercentage]), s)) ∧
    (pmemPercentage ≤ 100 →
      NewPmemDeviceManagerLVM env pmemPercentage s.world =
        (NewPmemDeviceManagerLVM.provision env pmemPercentage ⟨s.world, []⟩).map
          (fun p => (p.1, p.2.world,
            [StartupStep.Lock] ++ p.2.trace.map StartupStep.call ++ [StartupStep.Unlock])) ∧
      (∀ r w1 steps, NewPmemDeviceManagerLVM env pmemPercentage s.world = some (r, w1, steps) →
        ∃ c : List Call, steps = StartupStep.Lock :: StartupStep.call Call.NewContext ::
          (c.map StartupStep.call ++ [StartupStep.Unlock])) ∧
      NewPmemDeviceManagerNdctl env pmemPercentage s =
        (NewPmemDeviceManagerNdctl.mounts pmemPercentage (env.MountList s.world).1,
          ⟨(env.MountList s.world).2, s.trace ++ [Call.MountList]⟩) ∧
      (∀ opts, NewPmemDeviceManagerNdctl.mounts pmemPercentage
          [⟨"sysfs", "/sys", "rw" :: opts⟩] = .ok { pmemPercentage := pmemPercentage })) := by
  constructor
  · intro h
    simp [NewPmemDeviceManagerLVM, NewPmemDeviceManagerNdctl, h]
  · intro h
    have hn : ¬ pmemPercentage > 100 := Nat.not_lt.mpr h
    have e : NewPmemDeviceManagerLVM env pmemPercentage s.world =
        (NewPmemDeviceManagerLVM.provision env pmemPercentage ⟨s.world, []⟩).map
          (fun p => (p.1, p.2.world,
            [StartupStep.Lock] ++ p.2.trace.map StartupStep.call ++ [StartupStep.Unlock])) := by
      simp only [NewPmemDeviceManagerLVM, hn, if_false]
      cases NewPmemDeviceManagerLVM.provision env pmemPercentage ⟨s.world, []⟩ with
      | none => rfl
      | some p => rfl
    refine ⟨e, ?_, ?_, ?_⟩
    · intro r w1 steps hr
      rw [e] at hr
      cases hp : NewPmemDeviceManagerLVM.provision env pmemPercentage ⟨s.world, []⟩ with
      | none =>
        rw [hp] at hr
        cases hr
      | some p =>
        rw [hp] at hr
        simp only [Option.map_some', Option.some.injEq, Prod.mk.injEq] at hr
        obtain ⟨c, hc⟩ := provision_starts_with_context env pmemPercentage ⟨s.world, []⟩
          p.2 p.1 hp
        simp only [List.nil_append] at hc
        refine ⟨c, ?_⟩
        rw [← hr.2.2, hc]
        simp
    · simp only [NewPmemDeviceManagerNdctl, hn, if_false, mount.List]
    · intro opts
      simp [NewPmemDeviceManagerNdctl.mounts, NewPmemDeviceManagerNdctl.options]

/-- Witness of C15: on a host with one region and `/sys` mounted read-write, 101
per cent is refused by both constructors without any step, and 100 per cent gives
a manager in both, the pool constructor taking the mutex first and releasing it
last. -/
theorem C15_percentage_range_check_witness :
    NewPmemDeviceManagerLVM oneRegionHost 101 () =
      some (.error (.errorf "invalid pmemPercentage '%d'. Value must be 0..100" ["101"]),
        (), []) ∧
    NewPmemDeviceManagerNdctl oneRegionHost 101 Sys.start =
      (.error (.errorf "invalid pmemPercentage '%d'. Value must be 0..100" ["101"]),
        Sys.start) ∧
    NewPmemDeviceManagerLVM oneRegionHost 100 () =
      some (.ok ⟨["ndbus0region0"], [("v1", devV1)]⟩, (),
        [.Lock, .call Call.NewContext, .call Call.GetBuses, .call (Call.ActiveRegions 0),
          .call (Call.RegionCreateNamespace 0 0
            ⟨"pmem-csi", 16106127360, 1073741824, "fsdax"⟩),
          .call (Call.RunCommand "vgs" ["ndbus0region0"]),
          .call (Call.RunCommand "lvs" (lvsArgs ++ ["ndbus0region0"])),
          .call Call.Free, .Unlock]) ∧
    NewPmemDeviceManagerNdctl oneRegionHost 100 Sys.start =
      (.ok ⟨100⟩, ⟨(), [Call.MountList]⟩) :=
  ⟨((C15_percentage_range_check oneRegionHost 101 Sys.start).1 (by decide)).1,
   ((C15_percentage_range_check oneRegionHost 101 Sys.start).1 (by decide)).2,
   rfl, rfl⟩

/-! ## The cache and the volumes of the tool -/

theorem listDevices_faithful (env : Env W) (volumeGroups : List String)
    (vols : W → String → Option PmemDeviceInfo) (h : FaithfulTool env volumeGroups vols)
    (s : Sys W) :
    ∃ devices, (listDevices env volumeGroups s).1 = .ok devices ∧
      (∀ k, devices.get k = vols s.world k) ∧
      ∀ k, vols (listDevices env volumeGroups s).2.world k = vols s.world k := by
  obtain ⟨output, ho, hk⟩ := h.lvs_managed s.world
  have hkeep := h.lvs_keeps s.world (lvsArgs ++ volumeGroups)
  refine ⟨(parseLVSOutput output).1, ?_, hk, ?_⟩
  · simp only [listDevices, pmemexec.RunCommand, ho, parseLVSOutput]
  · intro k
    simp only [listDevices, pmemexec.RunCommand, ho, parseLVSOutput]
    exact hkeep k

theorem FaithfulTool.vols_keyed (env : Env W) (volumeGroups : List String)
    (vols : W → String → Option PmemDeviceInfo) (h : FaithfulTool env volumeGroups vols)
    (w : W) (k : String) (device : PmemDeviceInfo) (hv : vols w k = some device) :
    device.VolumeId = k := by
  obtain ⟨output, _, hk⟩ := h.lvs_managed w
  rw [← hk k] at hv
  exact parseLVSOutputLoop_keyed (Split output) []
    (fun k d hd => by simp [DeviceMap.get] at hd) k device hv

theorem getVolumeGroups_world (env : Env W) (groups : List String) (s : Sys W) :
    (getVolumeGroups env groups s).2.world =
      (env.RunCommand s.world "vgs" (vgsArgs ++ groups)).2 := by
  simp only [getVolumeGroups, pmemexec.RunCommand]
  split <;> rename_i heq <;> simp only [Prod.mk.injEq] at heq <;> rw [← heq.2]

theorem CreateDeviceLoop_faithful (env : Env W) (volumeGroups : List String)
    (vols : W → String → Option PmemDeviceInfo) (h : FaithfulTool env volumeGroups vols)
    (lvm : pmemLvm) (volumeId : String) (size : Nat) (strSz : String) (vgs : List vgInfo)
    (s : Sys W) (hinv : ∀ k, lvm.devices.get k = vols s.world k) :
    (pmemLvm.CreateDeviceLoop env lvm volumeId size strSz vgs s).1.2.volumeGroups =
        lvm.volumeGroups ∧
      ∀ k, (pmemLvm.CreateDeviceLoop env lvm volumeId size strSz vgs s).1.2.devices.get k =
        vols (pmemLvm.CreateDeviceLoop env lvm volumeId size strSz vgs s).2.world k := by
  induction vgs generalizing s with
  | nil => exact ⟨rfl, hinv⟩
  | cons vg rest ih =>
    simp only [pmemLvm.CreateDeviceLoop, pmemexec.RunCommand]
    split_ifs with hfree
    · rcases hrun : env.RunCommand s.world "lvcreate" (lvcreateArgs strSz volumeId vg.name)
        with ⟨r, w1⟩
      cases r with
      | error err =>
        simp only
        exact ih _ (fun k => by
          rw [hinv k]; exact (h.lvcreate_failed _ _ _ _ hrun k).symm)
      | ok out =>
        simp only
        obtain ⟨listing, device, hl, hg, hw, hc, hv⟩ := h.lvcreate_done _ _ _ _ _ _ hrun
        have hid : device.VolumeId = volumeId :=
          parseLVSOutputLoop_keyed (Split listing) []
            (fun k d hk => by simp [DeviceMap.get] at hk) volumeId device hg
        simp only [getUncachedDevice, listDevices, pmemexec.RunCommand, hl, parseLVSOutput,
          waitDeviceAppears, clearDevice] at hg hw hc hv ⊢
        simp only [hg, hw, hc, hid, true_and]
        intro k
        rw [hv k]
        by_cases hk : k = volumeId
        · subst hk
          simp [DeviceMap.get_set_self]
        · simp only [hk, if_false]
          rw [DeviceMap.get_set_ne _ _ _ _ hk]
          exact hinv k
    · exact ih s hinv

theorem CreateDevice_faithful (env : Env W) (volumeGroups : List String)
    (vols : W → String → Option PmemDeviceInfo) (h : FaithfulTool env volumeGroups vols)
    (lvm : pmemLvm) (volumeId : String) (size : Nat) (s : Sys W)
    (hinv : ∀ k, lvm.devices.get k = vols s.world k) :
    (pmemLvm.CreateDevice env lvm volumeId size s).1.2.volumeGroups = lvm.volumeGroups ∧
      ∀ k, (pmemLvm.CreateDevice env lvm volumeId size s).1.2.devices.get k =
        vols (pmemLvm.CreateDevice env lvm volumeId size s).2.world k := by
  unfold pmemLvm.CreateDevice
  split
  · exact ⟨rfl, hinv⟩
  · have hw := getVolumeGroups_world env lvm.volumeGroups s
    have hinv1 : ∀ k, lvm.devices.get k = vols (getVolumeGroups env lvm.volumeGroups s).2.world k :=
      fun k => by rw [hw, h.vgs_keeps]; exact hinv k
    split
    · rename_i heq
      rw [heq] at hinv1
      exact ⟨rfl, hinv1⟩
    · rename_i heq
      rw [heq] at hinv1
      exact CreateDeviceLoop_faithful env volumeGroups vols h lvm volumeId _ _ _ _ hinv1

theorem DeleteDevice_faithful (env : Env W) (volumeGroups : List String)
    (vols : W → String → Option PmemDeviceInfo) (h : FaithfulTool env volumeGroups vols)
    (lvm : pmemLvm) (volumeId : String) (flush : Bool) (s : Sys W)
    (hinv : ∀ k, lvm.devices.get k = vols s.world k) :
    (pmemLvm.DeleteDevice env lvm volumeId flush s).1.2.volumeGroups = lvm.volumeGroups ∧
      ∀ k, (pmemLvm.DeleteDevice env lvm volumeId flush s).1.2.devices.get k =
        vols (pmemLvm.DeleteDevice env lvm volumeId flush s).2.world k := by
  unfold pmemLvm.DeleteDevice pmemLvm.getDevice
  cases hget : lvm.devices.get volumeId with
  | none =>
    simp only
    split_ifs <;> exact ⟨rfl, hinv⟩
  | some device =>
    simp only [clearDevice, pmemexec.RunCommand]
    have hid : device.VolumeId = volumeId :=
      FaithfulTool.vols_keyed env volumeGroups vols h s.world volumeId device
        (by rw [← hinv volumeId, hget])
    have hvol : vols s.world device.VolumeId = some device := by
      rw [hid, ← hinv volumeId, hget]
    have hkeep := h.clear_keeps s.world device flush
    cases hclr : (env.clearDevice s.world device flush).1 with
    | some err =>
      simp only
      have hnf := h.clear_found s.world device flush err hvol hclr
      simp only [hnf, Bool.false_eq_true, if_false]
      exact ⟨trivial, fun k => by rw [hkeep k]; exact hinv k⟩
    | none =>
      simp only
      rcases hrm : env.RunCommand (env.clearDevice s.world device flush).2 "lvremove"
        ["-fy", device.Path] with ⟨r, w2⟩
      cases r with
      | error err =>
        simp only
        exact ⟨trivial, fun k => by
          rw [h.lvremove_failed _ _ _ _ hrm k, hkeep k]; exact hinv k⟩
      | ok out =>
        simp only
        refine ⟨trivial, fun k => ?_⟩
        have hvol1 : vols (env.clearDevice s.world device flush).2 device.VolumeId =
            some device := by rw [hkeep]; exact hvol
        rw [h.lvremove_done _ _ _ _ hvol1 hrm k, hid]
        by_cases hk : k = volumeId
        · subst hk
          simp [DeviceMap.get_delete_self]
        · simp only [hk, if_false]
          rw [DeviceMap.get_delete_ne _ _ _ hk, hkeep k]
          exact hinv k

theorem calls_faithful (env : Env W) (volumeGroups : List String)
    (vols : W → String → Option PmemDeviceInfo) (h : FaithfulTool env volumeGroups vols)
    (ops : List Op) (lvm : pmemLvm) (s : Sys W)
    (hinv : ∀ k, lvm.devices.get k = vols s.world k) :
    (pmemLvm.calls env ops lvm s).1.volumeGroups = lvm.volumeGroups ∧
      ∀ k, (pmemLvm.calls env ops lvm s).1.devices.get k =
        vols (pmemLvm.calls env ops lvm s).2.world k := by
  induction ops generalizing lvm s with
  | nil => exact ⟨rfl, hinv⟩
  | cons op rest ih =>
    simp only [pmemLvm.calls]
    have hstep : (pmemLvm.call env lvm op s).1.volumeGroups = lvm.volumeGroups ∧
        ∀ k, (pmemLvm.call env lvm op s).1.devices.get k =
          vols (pmemLvm.call env lvm op s).2.world k := by
      cases op with
      | CreateDevice volumeId size =>
        exact CreateDevice_faithful env volumeGroups vols h lvm volumeId size s hinv
      | DeleteDevice volumeId flush =>
        exact DeleteDevice_faithful env volumeGroups vols h lvm volumeId flush s hinv
    obtain ⟨hvg, hdev⟩ := ih _ _ hstep.2
    exact ⟨hvg.trans hstep.1, hdev⟩

theorem NewPmemDeviceManagerLVMForVGs_faithful (env : Env W) (volumeGroups : List String)
    (vols : W → String → Option PmemDeviceInfo) (h : FaithfulTool env volumeGroups vols)
    (s0 s1 : Sys W) (lvm0 : pmemLvm)
    (hbuilt : NewPmemDeviceManagerLVMForVGs env volumeGroups s0 = (.ok lvm0, s1)) :
    lvm0.volumeGroups = volumeGroups ∧ ∀ k, lvm0.devices.get k = vols s1.world k := by
  obtain ⟨devices, hl, hk, hw⟩ := listDevices_faithful env volumeGroups vols h s0
  unfold NewPmemDeviceManagerLVMForVGs at hbuilt
  split at hbuilt
  · cases hbuilt
  · rename_i devices1 sa heq
    rw [heq] at hl hw
    simp only [Except.ok.injEq] at hl
    simp only [Prod.mk.injEq, Except.ok.injEq] at hbuilt
    rw [← hbuilt.1, ← hbuilt.2]
    exact ⟨rfl, fun k => by rw [hw k, hl]; exact hk k⟩

theorem oneVolumeHost_listing :
    (parseLVSOutput "  v1 /dev/vg0/v1 4194304\n").1 = [("v1", smallV1)] ∧
    (parseLVSOutput "").1 = [] := ⟨by decide, by decide⟩

theorem oneVolumeHost_lvcreate (clear : Option GoError) (w : Bool) (args : List String) :
    (oneVolumeHost clear).RunCommand w "lvcreate" args =
      if args = lvcreateArgs "4194304B" "v1" "vg0" ∧ w = false then (.ok "", true)
      else (.error (.tool "lvcreate failed"), w) := by
  simp [oneVolumeHost]

theorem oneVolumeHost_lvremove (clear : Option GoError) (w : Bool) (args : List String) :
    (oneVolumeHost clear).RunCommand w "lvremove" args =
      if args = ["-fy", "/dev/vg0/v1"] ∧ w = true then (.ok "", false)
      else (.error (.tool "lvremove failed"), w) := by
  simp [oneVolumeHost]

theorem oneVolumeHost_faithful : FaithfulTool (oneVolumeHost none) ["vg0"] oneVolumeHost.vols where
  lvs_managed := by
    intro w
    cases w
    · refine ⟨"", rfl, fun k => ?_⟩
      rw [oneVolumeHost_listing.2]
      simp [DeviceMap.get, oneVolumeHost.vols]
    · refine ⟨"  v1 /dev/vg0/v1 4194304\n", rfl, fun k => ?_⟩
      rw [oneVolumeHost_listing.1]
      by_cases hk : k = "v1"
      · subst hk
        simp [DeviceMap.get, oneVolumeHost.vols]
      · have hk1 : ¬ "v1" = k := fun e => hk e.symm
        simp [DeviceMap.get, oneVolumeHost.vols, hk, hk1]
  lvs_keeps := by
    intro w args k
    simp [oneVolumeHost]
  vgs_keeps := by
    intro w args k
    simp [oneVolumeHost]
  lvcreate_failed := by
    intro w args err w1 hrun k
    rw [oneVolumeHost_lvcreate] at hrun
    split_ifs at hrun
    · cases hrun
    · simp only [Prod.mk.injEq] at hrun
      rw [← hrun.2]
  lvcreate_done := by
    intro w strSz volumeId vgName output w1 hrun
    rw [oneVolumeHost_lvcreate] at hrun
    split_ifs at hrun with h4
    · obtain ⟨hargs, hw⟩ := h4
      simp only [lvcreateArgs, List.cons.injEq, and_true, true_and] at hargs
      obtain ⟨hsz, hid, hvg⟩ := hargs
      subst hsz hid hvg hw
      simp only [Prod.mk.injEq, Except.ok.injEq] at hrun
      obtain ⟨_, hw1⟩ := hrun
      subst hw1
      refine ⟨"  v1 /dev/vg0/v1 4194304\n", smallV1, rfl, ?_, rfl, rfl, fun k => ?_⟩
      · rw [oneVolumeHost_listing.1]; rfl
      · by_cases hk : k = "v1"
        · subst hk
          simp [oneVolumeHost, oneVolumeHost.vols]
        · simp [oneVolumeHost, oneVolumeHost.vols, hk]
    · cases hrun
  lvremove_failed := by
    intro w args err w1 hrun k
    rw [oneVolumeHost_lvremove] at hrun
    split_ifs at hrun
    · cases hrun
    · simp only [Prod.mk.injEq] at hrun
      rw [← hrun.2]
  lvremove_done := by
    intro w device output w1 hvol hrun k
    rw [oneVolumeHost_lvremove] at hrun
    split_ifs at hrun with h5
    · obtain ⟨_, hw⟩ := h5
      subst hw
      simp only [Prod.mk.injEq, Except.ok.injEq] at hrun
      obtain ⟨_, hw1⟩ := hrun
      subst hw1
      have hid : device.VolumeId = "v1" := by
        simp only [oneVolumeHost.vols] at hvol
        split_ifs at hvol with hc
        exact hc.2
      simp only [oneVolumeHost.vols, hid]
      by_cases hk : k = "v1" <;> simp [hk]
    · cases hrun
  clear_keeps := by
    intro w device flush k
    rfl
  clear_found := by
    intro w device flush err _ hclr
    simp [oneVolumeHost] at hclr

/-- C17, as amended: on a tool that is faithful to the cache (`FaithfulTool`: the
listing shows the volumes of the managed pools, a failed command changes nothing,
the steps that follow a successful `lvcreate` succeed, and clearing does not report
an existing volume as not found), for a manager whose cache was built by listing the
managed pools and for every sequence of `CreateDevice` and `DeleteDevice` calls,
whatever each call returns, re-listing the managed pools afterwards succeeds and
gives a map with the same entry as the cache under every name; the managed pools
are the ones the manager was built for. -/
theorem C17_cache_equals_relisting_on_faithful_tool (env : Env W)
    (volumeGroups : List String) (vols : W → String → Option PmemDeviceInfo)
    (h : FaithfulTool env volumeGroups vols) (s0 s1 : Sys W) (lvm0 : pmemLvm)
    (hbuilt : NewPmemDeviceManagerLVMForVGs env volumeGroups s0 = (.ok lvm0, s1))
    (ops : List Op) :
    (pmemLvm.calls env ops lvm0 s1).1.volumeGroups = volumeGroups ∧
    ∃ devices,
      (listDevices env (pmemLvm.calls env ops lvm0 s1).1.volumeGroups
        (pmemLvm.calls env ops lvm0 s1).2).1 = .ok devices ∧
      ∀ k, (pmemLvm.calls env ops lvm0 s1).1.devices.get k = devices.get k := by
  obtain ⟨hvg0, hinv0⟩ :=
    NewPmemDeviceManagerLVMForVGs_faithful env volumeGroups vols h s0 s1 lvm0 hbuilt
  obtain ⟨hvg, hinv⟩ := calls_faithful env volumeGroups vols h ops lvm0 s1 hinv0
  have hvg1 : (pmemLvm.calls env ops lvm0 s1).1.volumeGroups = volumeGroups :=
    hvg.trans hvg0
  obtain ⟨devices, hl, hk, _⟩ :=
    listDevices_faithful env volumeGroups vols h (pmemLvm.calls env ops lvm0 s1).2
  refine ⟨hvg1, devices, ?_, fun k => ?_⟩
  · rw [hvg1]; exact hl
  · rw [hinv k, hk k]

/-- Counterexample to C17 as stated, on a host with one pool and room for one
volume. First run: the cache is built by listing (empty), `CreateDevice "v1"` creates
the volume, zeroing it fails, the call returns the error and leaves the cache
empty, and re-listing the managed pool shows `v1`. Second run: the cache is built by
listing (`v1`), `DeleteDevice "v1"` finds the device node missing and returns
success with `v1` dropped from the cache and no `lvremove`, and re-listing the
managed pool still shows `v1`. -/
theorem C17_cache_differs_from_relisting :
    ((NewPmemDeviceManagerLVMForVGs (oneVolumeHost (some (.tool "zeroing failed"))) ["vg0"]
        ⟨false, []⟩).1 = .ok ⟨["vg0"], []⟩ ∧
      (pmemLvm.CreateDevice (oneVolumeHost (some (.tool "zeroing failed"))) ⟨["vg0"], []⟩
        "v1" 4194304
        (NewPmemDeviceManagerLVMForVGs (oneVolumeHost (some (.tool "zeroing failed"))) ["vg0"]
          ⟨false, []⟩).2).1.1 =
        some (.errorfErr "clear device %q: %v" ["v1"] (.tool "zeroing failed")) ∧
      (pmemLvm.calls (oneVolumeHost (some (.tool "zeroing failed")))
        [.CreateDevice "v1" 4194304] ⟨["vg0"], []⟩
        (NewPmemDeviceManagerLVMForVGs (oneVolumeHost (some (.tool "zeroing failed"))) ["vg0"]
          ⟨false, []⟩).2).1 = ⟨["vg0"], []⟩ ∧
      (listDevices (oneVolumeHost (some (.tool "zeroing failed"))) ["vg0"]
        (pmemLvm.calls (oneVolumeHost (some (.tool "zeroing failed")))
          [.CreateDevice "v1" 4194304] ⟨["vg0"], []⟩
          (NewPmemDeviceManagerLVMForVGs (oneVolumeHost (some (.tool "zeroing failed")))
            ["vg0"] ⟨false, []⟩).2).2).1 = .ok [("v1", smallV1)]) ∧
    ((NewPmemDeviceManagerLVMForVGs (oneVolumeHost (some .ErrDeviceNotFound)) ["vg0"]
        ⟨true, []⟩).1 = .ok ⟨["vg0"], [("v1", smallV1)]⟩ ∧
      (pmemLvm.DeleteDevice (oneVolumeHost (some .ErrDeviceNotFound))
        ⟨["vg0"], [("v1", smallV1)]⟩ "v1" false
        (NewPmemDeviceManagerLVMForVGs (oneVolumeHost (some .ErrDeviceNotFound)) ["vg0"]
          ⟨true, []⟩).2).1.1 = none ∧
      (pmemLvm.calls (oneVolumeHost (some .ErrDeviceNotFound))
        [.DeleteDevice "v1" false] ⟨["vg0"], [("v1", smallV1)]⟩
        (NewPmemDeviceManagerLVMForVGs (oneVolumeHost (some .ErrDeviceNotFound)) ["vg0"]
          ⟨true, []⟩).2).1 = ⟨["vg0"], []⟩ ∧
      (listDevices (oneVolumeHost (some .ErrDeviceNotFound)) ["vg0"]
        (pmemLvm.calls (oneVolumeHost (some .ErrDeviceNotFound))
          [.DeleteDevice "v1" false] ⟨["vg0"], [("v1", smallV1)]⟩
          (NewPmemDeviceManagerLVMForVGs (oneVolumeHost (some .ErrDeviceNotFound)) ["vg0"]
            ⟨true, []⟩).2).2).1 = .ok [("v1", smallV1)]) :=
  ⟨⟨rfl, rfl, rfl, rfl⟩, ⟨rfl, rfl, rfl, rfl⟩⟩

/-- Witness of C17: the host with one pool and room for one volume, when clearing
succeeds, is a faithful tool; after creating `v1`, a second create of `v1`, a delete
of an unknown volume and a refused create of `v2`, the cache holds `v1` and agrees
with re-listing. -/
theorem C17_cache_equals_relisting_on_faithful_tool_witness :
    FaithfulTool (oneVolumeHost none) ["vg0"] oneVolumeHost.vols ∧
    NewPmemDeviceManagerLVMForVGs (oneVolumeHost none) ["vg0"] ⟨false, []⟩ =
      (.ok ⟨["vg0"], []⟩, ⟨false, [Call.RunCommand "lvs" (lvsArgs ++ ["vg0"])]⟩) ∧
    (pmemLvm.calls (oneVolumeHost none)
      [.CreateDevice "v1" 4194300, .CreateDevice "v1" 1, .DeleteDevice "v2" false,
        .CreateDevice "v2" 4194304] ⟨["vg0"], []⟩
      ⟨false, [Call.RunCommand "lvs" (lvsArgs ++ ["vg0"])]⟩).1 =
        ⟨["vg0"], [("v1", smallV1)]⟩ ∧
    ((pmemLvm.calls (oneVolumeHost none)
      [.CreateDevice "v1" 4194300, .CreateDevice "v1" 1, .DeleteDevice "v2" false,
        .CreateDevice "v2" 4194304] ⟨["vg0"], []⟩
      ⟨false, [Call.RunCommand "lvs" (lvsArgs ++ ["vg0"])]⟩).1.volumeGroups = ["vg0"] ∧
    ∃ devices,
      (listDevices (oneVolumeHost none)
        (pmemLvm.calls (oneVolumeHost none)
          [.CreateDevice "v1" 4194300, .CreateDevice "v1" 1, .DeleteDevice "v2" false,
            .CreateDevice "v2" 4194304] ⟨["vg0"], []⟩
          ⟨false, [Call.RunCommand "lvs" (lvsArgs ++ ["vg0"])]⟩).1.volumeGroups
        (pmemLvm.calls (oneVolumeHost none)
          [.CreateDevice "v1" 4194300, .CreateDevice "v1" 1, .DeleteDevice "v2" false,
            .CreateDevice "v2" 4194304] ⟨["vg0"], []⟩
          ⟨false, [Call.RunCommand "lvs" (lvsArgs ++ ["vg0"])]⟩).2).1 = .ok devices ∧
      ∀ k, (pmemLvm.calls (oneVolumeHost none)
          [.CreateDevice "v1" 4194300, .CreateDevice "v1" 1, .DeleteDevice "v2" false,
            .CreateDevice "v2" 4194304] ⟨["vg0"], []⟩
          ⟨false, [Call.RunCommand "lvs" (lvsArgs ++ ["vg0"])]⟩).1.devices.get k =
        devices.get k) :=
  ⟨oneVolumeHost_faithful, rfl, rfl,
    C17_cache_equals_relisting_on_faithful_tool (oneVolumeHost none) ["vg0"]
      oneVolumeHost.vols oneVolumeHost_faithful ⟨false, []⟩
      ⟨false, [Call.RunCommand "lvs" (lvsArgs ++ ["vg0"])]⟩ ⟨["vg0"], []⟩ rfl
      [.CreateDevice "v1" 4194300, .CreateDevice "v1" 1, .DeleteDevice "v2" false,
        .CreateDevice "v2" 4194304]⟩
/-! ## The scan of the pools by the allocation loop -/

theorem lvcreateAttempts_prefix (env : Env W) (strSz volumeId : String) (size : Nat)
    (vgs : List vgInfo) (w : W) :
    (lvcreateAttempts env strSz volumeId size vgs w).1.map Prod.fst <+:
        vgs.filter (fun vg => decide (size ≤ vg.free)) ∧
      (∀ x ∈ (lvcreateAttempts env strSz volumeId size vgs w).1.dropLast, x.2 = false) ∧
      ((∀ x ∈ (lvcreateAttempts env strSz volumeId size vgs w).1, x.2 = false) →
        (lvcreateAttempts env strSz volumeId size vgs w).1.map Prod.fst =
          vgs.filter (fun vg => decide (size ≤ vg.free))) := by
  induction vgs generalizing w with
  | nil => simp [lvcreateAttempts]
  | cons vg rest ih =>
    unfold lvcreateAttempts
    by_cases hfree : vg.free ≥ size
    · rw [if_pos hfree]
      have hf : (vg :: rest).filter (fun vg => decide (size ≤ vg.free)) =
          vg :: rest.filter (fun vg => decide (size ≤ vg.free)) := by
        simp [List.filter_cons, hfree]
      rw [hf]
      rcases h : env.RunCommand w "lvcreate" (lvcreateArgs strSz volumeId vg.name) with
        ⟨r1, w1⟩
      cases r1 with
      | error e1 =>
        simp only [List.map_cons]
        obtain ⟨h1, h2, h3⟩ := ih w1
        refine ⟨?_, ?_, ?_⟩
        · exact (List.prefix_cons_inj vg).mpr h1
        · intro x hx
          cases hl : (lvcreateAttempts env strSz volumeId size rest w1).1 with
          | nil => rw [hl] at hx; simp at hx
          | cons y ys =>
            rw [hl, List.dropLast_cons₂] at hx
            rcases List.mem_cons.mp hx with e | e
            · rw [e]
            · exact h2 x (by rw [hl]; exact e)
        · intro hall
          rw [h3 (fun x hx => hall x (List.mem_cons_of_mem _ hx))]
      | ok o1 =>
        simp only [List.map_cons, List.map_nil, List.dropLast_single, List.not_mem_nil,
          false_implies, implies_true, true_and, List.mem_singleton]
        refine ⟨?_, ?_⟩
        · exact (List.prefix_cons_inj vg).mpr (List.nil_prefix)
        · intro hall
          exact absurd (hall (vg, true) rfl) (by simp)
    · rw [if_neg hfree]
      have hf : (vg :: rest).filter (fun vg => decide (size ≤ vg.free)) =
          rest.filter (fun vg => decide (size ≤ vg.free)) := by
        simp only [ge_iff_le] at hfree
        simp [List.filter_cons, hfree]
      rw [hf]
      exact ih w

theorem CreateDeviceLoop_attempts (env : Env W) (lvm : pmemLvm) (volumeId : String)
    (size : Nat) (strSz : String) (vgs : List vgInfo) (s : Sys W) :
    ((∀ x ∈ (lvcreateAttempts env strSz volumeId size vgs s.world).1, x.2 = false) →
        pmemLvm.CreateDeviceLoop env lvm volumeId size strSz vgs s =
          ((some .ErrNotEnoughSpace, lvm),
            ⟨(lvcreateAttempts env strSz volumeId size vgs s.world).2,
              s.trace ++ (lvcreateAttempts env strSz volumeId size vgs s.world).1.map
                (lvcreateCall strSz volumeId)⟩)) ∧
      (∃ later, (pmemLvm.CreateDeviceLoop env lvm volumeId size strSz vgs s).2.trace =
          s.trace ++ (lvcreateAttempts env strSz volumeId size vgs s.world).1.map
            (lvcreateCall strSz volumeId) ++ later ∧
        ∀ args, Call.RunCommand "lvcreate" args ∉ later) ∧
      ((∀ w dev, (env.waitDeviceAppears w dev).1 ≠ some .ErrNotEnoughSpace) →
        (∃ x ∈ (lvcreateAttempts env strSz volumeId size vgs s.world).1, x.2 = true) →
        (pmemLvm.CreateDeviceLoop env lvm volumeId size strSz vgs s).1.1 ≠
          some .ErrNotEnoughSpace) := by
  induction vgs generalizing s with
  | nil =>
    refine ⟨fun _ => ?_, ⟨[], ?_, by simp⟩, ?_⟩
    · simp [pmemLvm.CreateDeviceLoop, lvcreateAttempts]
    · simp [pmemLvm.CreateDeviceLoop, lvcreateAttempts]
    · intro _ h
      simp [lvcreateAttempts] at h
  | cons vg rest ih =>
    unfold pmemLvm.CreateDeviceLoop lvcreateAttempts
    by_cases hfree : vg.free ≥ size
    · rw [if_pos hfree, if_pos hfree]
      simp only [pmemexec.RunCommand]
      rcases h : env.RunCommand s.world "lvcreate" (lvcreateArgs strSz volumeId vg.name) with
        ⟨r1, w1⟩
      cases r1 with
      | error e1 =>
        simp only
        obtain ⟨h1, ⟨later, h2, h3⟩, h4⟩ := ih ⟨w1, s.trace ++
          [Call.RunCommand "lvcreate" (lvcreateArgs strSz volumeId vg.name)]⟩
        simp only at h1 h2 h4
        refine ⟨?_, ⟨later, ?_, h3⟩, ?_⟩
        · intro hall
          rw [h1 (fun x hx => hall x (List.mem_cons_of_mem _ hx))]
          simp [lvcreateCall]
        · rw [h2]
          simp [lvcreateCall]
        · intro hw hex
          apply h4 hw
          obtain ⟨x, hx, hx2⟩ := hex
          rcases List.mem_cons.mp hx with e | e
          · rw [e] at hx2
            cases hx2
          · exact ⟨x, e, hx2⟩
      | ok o1 =>
        simp only [getUncachedDevice, listDevices, parseLVSOutput, pmemexec.RunCommand,
          waitDeviceAppears, clearDevice]
        refine ⟨?_, ?_, ?_⟩
        · intro hall
          exact absurd (hall (vg, true) (List.mem_singleton.mpr rfl)) (by simp)
        · rcases env.RunCommand w1 "lvs" (lvsArgs ++ [vg.name]) with ⟨r2, w2⟩
          cases r2 with
          | error e2 =>
            exact ⟨[Call.RunCommand "lvs" (lvsArgs ++ [vg.name])], by simp [lvcreateCall],
              by simp⟩
          | ok o2 =>
            simp only
            cases DeviceMap.get (parseLVSOutputLoop (Split o2) []) volumeId with
            | none =>
              exact ⟨[Call.RunCommand "lvs" (lvsArgs ++ [vg.name])], by simp [lvcreateCall],
                by simp⟩
            | some device =>
              simp only
              rcases env.waitDeviceAppears w2 device with ⟨r3, w3⟩
              cases r3 with
              | some e3 =>
                exact ⟨[Call.RunCommand "lvs" (lvsArgs ++ [vg.name]),
                  Call.waitDeviceAppears device], by simp [lvcreateCall], by simp⟩
              | none =>
                simp only
                rcases env.clearDevice w3 device false with ⟨r4, w4⟩
                cases r4 with
                | some e4 =>
                  exact ⟨[Call.RunCommand "lvs" (lvsArgs ++ [vg.name]),
                    Call.waitDeviceAppears device, Call.clearDevice device false],
                    by simp [lvcreateCall], by simp⟩
                | none =>
                  exact ⟨[Call.RunCommand "lvs" (lvsArgs ++ [vg.name]),
                    Call.waitDeviceAppears device, Call.clearDevice device false],
                    by simp [lvcreateCall], by simp⟩
        · intro hw _
          rcases env.RunCommand w1 "lvs" (lvsArgs ++ [vg.name]) with ⟨r2, w2⟩
          cases r2 with
          | error e2 => simp
          | ok o2 =>
            simp only
            cases DeviceMap.get (parseLVSOutputLoop (Split o2) []) volumeId with
            | none => simp
            | some device =>
              simp only
              have hw3 := hw w2 device
              generalize env.waitDeviceAppears w2 device = p at hw3 ⊢
              rcases p with ⟨r3, w3⟩
              cases r3 with
              | some e3 =>
                simp only at hw3 ⊢
                exact hw3
              | none =>
                simp only
                rcases env.clearDevice w3 device false with ⟨r4, w4⟩
                cases r4 with
                | some e4 => simp
                | none => simp
    · rw [if_neg hfree, if_neg hfree]
      exact ih s

/-- C21: in the pool backend's `CreateDevice`, once the volume id is found free and
the pool listing has been read, the `lvcreate` calls are exactly the attempts of a
scan of the pools in the order the tool reported them: only pools with
`free ≥` the aligned size are tried, each at most once (the pools tried are a
prefix of the eligible pools), every attempt but the last one failed (a failure
moves on to the next pool, the first success ends the scan), and no `lvcreate`
follows the last attempt. When no attempt succeeded every eligible pool was tried
and the result is `ErrNotEnoughSpace` with the manager unchanged; the result is
`ErrNotEnoughSpace` if and only if no attempt succeeded (the wait for the device
node, a collaborator outside the files, is taken not to answer with that
sentinel). With two pools of 10 GiB and 3 GiB free and a request of 5 GiB the only
attempt is on the first pool. -/
theorem C21_lvcreate_scans_pools_in_order (env : Env W) (lvm : pmemLvm)
    (volumeId : String) (size : Nat) (s s1 : Sys W) (vgs : List vgInfo)
    (hnew : lvm.devices.get volumeId = none)
    (hvgs : getVolumeGroups env lvm.volumeGroups s = ((vgs, none), s1))
    (attempts : List (vgInfo × Bool))
    (hatt : attempts = (lvcreateAttempts env (FormatUint (lvmAlignedSize size) ++ "B")
      volumeId (lvmAlignedSize size) vgs s1.world).1) :
    attempts.map Prod.fst <+: vgs.filter (fun vg => decide (lvmAlignedSize size ≤ vg.free)) ∧
    (∀ x ∈ attempts.dropLast, x.2 = false) ∧
    (∃ later, (pmemLvm.CreateDevice env lvm volumeId size s).2.trace =
        s1.trace ++ attempts.map
          (lvcreateCall (FormatUint (lvmAlignedSize size) ++ "B") volumeId) ++ later ∧
      ∀ args, Call.RunCommand "lvcreate" args ∉ later) ∧
    ((∀ x ∈ attempts, x.2 = false) →
      attempts.map Prod.fst = vgs.filter (fun vg => decide (lvmAlignedSize size ≤ vg.free)) ∧
      (pmemLvm.CreateDevice env lvm volumeId size s).1 = (some .ErrNotEnoughSpace, lvm)) ∧
    ((∀ w dev, (env.waitDeviceAppears w dev).1 ≠ some .ErrNotEnoughSpace) →
      ((pmemLvm.CreateDevice env lvm volumeId size s).1.1 = some .ErrNotEnoughSpace ↔
        ∀ x ∈ attempts, x.2 = false)) ∧
    (size = 5368709120 → ∀ p0 p1 : vgInfo, vgs = [p0, p1] → p0.free = 10737418240 →
      p1.free = 3221225472 → attempts.map Prod.fst = [p0]) := by
  have hrun : pmemLvm.CreateDevice env lvm volumeId size s =
      pmemLvm.CreateDeviceLoop env lvm volumeId (lvmAlignedSize size)
        (FormatUint (lvmAlignedSize size) ++ "B") vgs s1 := by
    simp only [pmemLvm.CreateDevice, pmemLvm.getDevice, hnew, hvgs]
  obtain ⟨p1, p2, p3⟩ := lvcreateAttempts_prefix env (FormatUint (lvmAlignedSize size) ++ "B")
    volumeId (lvmAlignedSize size) vgs s1.world
  obtain ⟨q1, q2, q3⟩ := CreateDeviceLoop_attempts env lvm volumeId (lvmAlignedSize size)
    (FormatUint (lvmAlignedSize size) ++ "B") vgs s1
  rw [hrun]
  subst hatt
  refine ⟨p1, p2, q2, fun hall => ⟨p3 hall, by rw [q1 hall]⟩, fun hw => ⟨fun he => ?_,
    fun hall => by rw [q1 hall]⟩, ?_⟩
  · intro x hx
    cases hb : x.2 with
    | false => rfl
    | true => exact absurd he (q3 hw ⟨x, hx, hb⟩)
  · intro hsize a b hv ha hb
    subst hsize hv
    have hal : lvmAlignedSize 5368709120 = 5368709120 := by decide
    rw [hal]
    have h0 : a.free ≥ 5368709120 := by rw [ha]; decide
    have h1 : ¬ b.free ≥ 5368709120 := by rw [hb]; decide
    simp only [lvcreateAttempts, if_pos h0, if_neg h1]
    split <;> rfl

/-- Witness for C21 on the fixture `twoPools` (10 GiB and 3 GiB free, request of
5 GiB): the one attempt is on `vg0` and succeeds. -/
theorem C21_lvcreate_scans_pools_in_order_witness :
    (pmemLvm.CreateDevice twoPools.env emptyLvm "v1" 5368709120 Sys.start).2.trace =
      [Call.RunCommand "vgs" (vgsArgs ++ ["vg0", "vg1"]),
        Call.RunCommand "lvcreate" ["-Zn", "-L", "5368709120B", "-n", "v1", "vg0"],
        Call.RunCommand "lvs" (lvsArgs ++ ["vg0"]),
        Call.waitDeviceAppears devV1, Call.clearDevice devV1 false] ∧
    [((⟨"vg0", 10737418240, 10737418240⟩ : vgInfo), true)].map Prod.fst <+:
      [(⟨"vg0", 10737418240, 10737418240⟩ : vgInfo), ⟨"vg1", 3221225472, 3221225472⟩].filter
        (fun vg => decide (lvmAlignedSize 5368709120 ≤ vg.free)) ∧
    ((pmemLvm.CreateDevice twoPools.env emptyLvm "v1" 5368709120 Sys.start).1.1 =
        some .ErrNotEnoughSpace ↔
      ∀ x ∈ [((⟨"vg0", 10737418240, 10737418240⟩ : vgInfo), true)], x.2 = false) :=
  have h := C21_lvcreate_scans_pools_in_order twoPools.env emptyLvm "v1" 5368709120
    Sys.start ⟨(), [Call.RunCommand "vgs" (vgsArgs ++ ["vg0", "vg1"])]⟩
    [⟨"vg0", 10737418240, 10737418240⟩, ⟨"vg1", 3221225472, 3221225472⟩] rfl rfl
    [(⟨"vg0", 10737418240, 10737418240⟩, true)] rfl
  ⟨rfl, h.1, h.2.2.2.2.1 (fun _ _ => by simp [Fixture.env, twoPools])⟩
/-! ## The rows read by the pool-listing parser -/

theorem fieldsAux_dropWhile (l cur : List Char) (h : cur = []) :
    fieldsAux (l.dropWhile isSpace) cur = fieldsAux l cur := by
  subst h
  induction l with
  | nil => rfl
  | cons c cs ih =>
    by_cases hc : isSpace c = true
    · rw [List.dropWhile_cons_of_pos hc, ih]
      simp [fieldsAux, hc]
    · rw [List.dropWhile_cons_of_neg hc]

theorem fieldsAux_append_space (l : List Char) (c : Char) (hc : isSpace c = true)
    (cur : List Char) : fieldsAux (l ++ [c]) cur = fieldsAux l cur := by
  induction l generalizing cur with
  | nil =>
    simp only [List.nil_append, fieldsAux, hc, if_true]
    split <;> rfl
  | cons d ds ih =>
    simp only [List.cons_append, fieldsAux]
    split
    · split
      · exact ih []
      · exact congrArg (List.cons _) (ih [])
    · exact ih _

theorem fieldsAux_trimRight (l cur : List Char) :
    fieldsAux ((l.reverse.dropWhile isSpace).reverse) cur = fieldsAux l cur := by
  induction l using List.reverseRecOn with
  | nil => rfl
  | append_singleton l c ih =>
    rw [List.reverse_append, List.reverse_singleton, List.singleton_append]
    by_cases hc : isSpace c = true
    · rw [List.dropWhile_cons_of_pos hc, ih, fieldsAux_append_space l c hc]
    · rw [List.dropWhile_cons_of_neg hc, List.reverse_cons, List.reverse_reverse]

/-- Trimming a line does not change its fields. -/
theorem Fields_TrimSpace (s : String) : Fields (TrimSpace s) = Fields s := by
  unfold Fields TrimSpace
  show fieldsAux (((s.toList.dropWhile isSpace).reverse.dropWhile isSpace).reverse) [] = _
  rw [fieldsAux_trimRight, fieldsAux_dropWhile _ _ rfl]

theorem splitAux_ne_nil (cs : List Char) : splitAux cs ≠ [] := by
  cases cs with
  | nil => simp [splitAux]
  | cons c cs =>
    unfold splitAux
    split
    · simp
    · split <;> simp

/-- The fields of a text are the fields of its lines, in order. -/
theorem fieldsAux_splitAux (cs cur : List Char) :
    ∃ l ls, splitAux cs = l :: ls ∧
      fieldsAux cs cur = fieldsAux l cur ++ ls.flatMap (fun x => fieldsAux x []) := by
  induction cs generalizing cur with
  | nil => exact ⟨[], [], rfl, by simp⟩
  | cons c cs ih =>
    by_cases hn : c = '\n'
    · subst hn
      obtain ⟨l, ls, h1, h2⟩ := ih []
      refine ⟨[], l :: ls, by simp [splitAux, h1], ?_⟩
      have hs : isSpace '\n' = true := by decide
      simp only [fieldsAux, hs, if_true, List.flatMap_cons, h2]
      split <;> simp
    · by_cases hc : isSpace c = true
      · obtain ⟨l, ls, h1, h2⟩ := ih []
        refine ⟨c :: l, ls, by simp [splitAux, hn, h1], ?_⟩
        simp only [fieldsAux, hc, if_true, h2]
        split <;> simp
      · obtain ⟨l, ls, h1, h2⟩ := ih (c :: cur)
        refine ⟨c :: l, ls, by simp [splitAux, hn, h1], ?_⟩
        simp only [fieldsAux, hc, Bool.false_eq_true, if_false, h2]

theorem fieldsAux_flatMap_splitAux (cs : List Char) :
    fieldsAux cs [] = (splitAux cs).flatMap (fun x => fieldsAux x []) := by
  obtain ⟨l, ls, h1, h2⟩ := fieldsAux_splitAux cs []
  rw [h1, h2, List.flatMap_cons]

theorem splitAux_single (cs : List Char) (h : (splitAux cs).length ≤ 1) : splitAux cs = [cs] := by
  induction cs with
  | nil => rfl
  | cons c cs ih =>
    by_cases hn : c = '\n'
    · subst hn
      have h0 := splitAux_ne_nil cs
      simp only [splitAux, if_true, List.length_cons] at h
      have : (splitAux cs).length = 0 := by omega
      exact absurd (List.length_eq_zero.mp this) h0
    · cases hs : splitAux cs with
      | nil => exact absurd hs (splitAux_ne_nil cs)
      | cons l ls =>
        simp only [splitAux, hn, if_false, hs, List.length_cons] at h ⊢
        have hl : ls = [] := List.length_eq_zero.mp (by omega)
        subst hl
        have := ih (by rw [hs]; simp)
        rw [hs] at this
        simp only [List.cons.injEq, and_true] at this
        rw [this]

/-- Cutting a text at its first `n` line breaks: the pieces are the lines when
there are at most `n + 1` of them; otherwise they are the first `n` lines and one
last piece whose fields are those of all remaining lines. -/
theorem splitNAux_splitAux (cs : List Char) (n : Nat) :
    ((splitAux cs).length ≤ n + 1 → splitNAux cs (n + 1) = splitAux cs) ∧
    (n < (splitAux cs).length → ∃ last, splitNAux cs (n + 1) = (splitAux cs).take n ++ [last] ∧
      fieldsAux last [] = ((splitAux cs).drop n).flatMap (fun x => fieldsAux x [])) := by
  induction cs generalizing n with
  | nil =>
    refine ⟨fun _ => ?_, fun h => ?_⟩
    · cases n <;> rfl
    · simp only [splitAux, List.length_singleton, Nat.lt_one_iff] at h
      subst h
      exact ⟨[], rfl, rfl⟩
  | cons c cs ih =>
    cases n with
    | zero =>
      refine ⟨fun h => ?_, fun _ => ?_⟩
      · rw [splitAux_single _ h]
        rfl
      · exact ⟨c :: cs, rfl, by
          rw [List.drop_zero]; exact fieldsAux_flatMap_splitAux (c :: cs)⟩
    | succ n =>
      by_cases hn : c = '\n'
      · subst hn
        obtain ⟨ih1, ih2⟩ := ih n
        simp only [splitAux, splitNAux, if_true, List.length_cons, List.take_succ_cons,
          List.drop_succ_cons]
        refine ⟨fun h => by rw [ih1 (by omega)], fun h => ?_⟩
        obtain ⟨last, h1, h2⟩ := ih2 (by omega)
        exact ⟨last, by rw [h1]; rfl, h2⟩
      · obtain ⟨ih1, ih2⟩ := ih (n + 1)
        cases hs : splitAux cs with
        | nil => exact absurd hs (splitAux_ne_nil cs)
        | cons l ls =>
          rw [hs] at ih1 ih2
          simp only [splitAux, splitNAux, hn, if_false, hs, List.length_cons,
            List.take_succ_cons, List.drop_succ_cons] at ih1 ih2 ⊢
          refine ⟨fun h => by rw [ih1 h], fun h => ?_⟩
          obtain ⟨last, h1, h2⟩ := ih2 h
          exact ⟨last, by rw [h1]; rfl, h2⟩

theorem vgRow_congr (a b : String) (h : Fields a = Fields b) : vgRow a = vgRow b := by
  unfold vgRow
  rw [h]

theorem vgRow_isSome (row : String) : (vgRow row).isSome = true ↔ (Fields row).length = 3 := by
  unfold vgRow
  split
  · rename_i h
    simp [h]
  · rename_i h
    simp only [Option.isSome_none, Bool.false_eq_true, false_iff]
    intro hl
    match hf : Fields row, hl with
    | [a, b, c], _ => exact h a b c hf

/-- The loop of `getVolumeGroups`: it ends without error exactly when every line
has three fields, its records are then those of the lines, and its only error is
the parse error. -/
theorem getVolumeGroupsLoop_spec (lines : List String) (acc : List vgInfo) :
    ((getVolumeGroupsLoop lines acc).2 = none ↔ ∀ l ∈ lines, (Fields l).length = 3) ∧
    ((getVolumeGroupsLoop lines acc).2 = none →
      (getVolumeGroupsLoop lines acc).1.map some = acc.map some ++ lines.map vgRow) ∧
    (∀ e, (getVolumeGroupsLoop lines acc).2 = some e →
      ∃ line, e = .errorf "failed to parse vgs output: %q" [line]) := by
  induction lines generalizing acc with
  | nil => simp [getVolumeGroupsLoop]
  | cons line rest ih =>
    unfold getVolumeGroupsLoop
    rw [Fields_TrimSpace]
    split
    · rename_i f0 f1 f2 hf
      obtain ⟨h1, h2, h3⟩ := ih (acc ++ [⟨f0, ParseUint f1, ParseUint f2⟩])
      refine ⟨?_, ?_, h3⟩
      · rw [h1]
        simp [hf]
      · intro hn
        rw [h2 hn]
        simp [vgRow, hf]
    · rename_i hf
      refine ⟨?_, ?_, ?_⟩
      · simp only [reduceCtorEq, List.mem_cons, forall_eq_or_imp, false_iff, not_and]
        intro hl
        match hq : Fields line, hl with
        | [a, b, c], _ => exact absurd hq (hf a b c)
      · intro h
        cases h
      · intro e he
        exact ⟨line, by injection he with he; exact he.symm⟩

theorem splitAux_of_Split (output : String) (lines : List String) (h : Split output = lines) :
    splitAux output.toList = lines.map String.toList := by
  rw [← h, Split, List.map_map]
  have : (String.toList ∘ String.mk) = id := by
    funext l
    rfl
  rw [this, List.map_id]

/-- The pieces that `getVolumeGroups` reads from an output whose rows all end with
a line break. -/
theorem SplitN_rows (output : String) (rows : List String) (m : Nat)
    (hrows : Split output = rows ++ [""]) :
    (rows.length ≤ m → SplitN output (m + 1) = rows ++ [""]) ∧
    (m < rows.length → ∃ last, SplitN output (m + 1) = rows.take m ++ [last] ∧
      Fields last = (rows.drop m).flatMap Fields) := by
  have hs := splitAux_of_Split output _ hrows
  obtain ⟨k1, k2⟩ := splitNAux_splitAux output.toList m
  refine ⟨fun h => ?_, fun h => ?_⟩
  · rw [SplitN, k1 (by rw [hs]; simp; omega), ← hrows, Split]
  · obtain ⟨last, h1, h2⟩ := k2 (by rw [hs]; simp; omega)
    refine ⟨String.mk last, ?_, ?_⟩
    · rw [SplitN, h1, hs, List.map_append, ← List.map_take, List.map_map,
        List.take_append_of_le_length (by omega)]
      have : (String.mk ∘ String.toList) = id := by
        funext l
        rfl
      simp [this]
    · show fieldsAux last [] = _
      rw [h2, hs, ← List.map_drop, List.drop_append_of_le_length (by omega)]
      simp only [List.map_append, List.map_cons, List.map_nil, List.flatMap_append,
        List.flatMap_cons, List.flatMap_nil, List.append_nil]
      have he : fieldsAux "".toList [] = [] := by decide
      rw [he, List.append_nil, List.flatMap_def, List.flatMap_def, List.map_map]
      rfl

/-- C22 (as amended): for `n ≥ 1` queried pools and an output of the pool-listing
command whose rows all end with a line break, `getVolumeGroups` returns either the
parse error or exactly `n` pool records. It cuts the output at the first `n - 1`
line breaks only: it succeeds exactly when there are at least `n` rows, each of
the first `n - 1` rows has three whitespace-separated columns and the remaining
rows together have three. Hence fewer than `n` rows is a parse error, exactly `n`
rows succeed if and only if every row has three columns (the records then being
name, size and free of the rows, in order), and more than `n` rows of three
columns each is a parse error. -/
theorem C22_pool_listing_rows (env : Env W) (groups : List String) (s s1 : Sys W)
    (output : String) (rows : List String)
    (hrun : pmemexec.RunCommand env "vgs" (vgsArgs ++ groups) s = (.ok output, s1))
    (hn : groups ≠ [])
    (hrows : Split output = rows ++ [""]) :
    ∃ vgs err, getVolumeGroups env groups s = ((vgs, err), s1) ∧
      (∀ e, err = some e → ∃ line, e = .errorf "failed to parse vgs output: %q" [line]) ∧
      (err = none → vgs.length = groups.length) ∧
      (err = none ↔ groups.length ≤ rows.length ∧
        (∀ r ∈ rows.take (groups.length - 1), (Fields r).length = 3) ∧
        ((rows.drop (groups.length - 1)).flatMap Fields).length = 3) ∧
      (rows.length < groups.length → err ≠ none) ∧
      (rows.length = groups.length →
        (err = none ↔ ∀ r ∈ rows, (Fields r).length = 3) ∧
        (err = none → vgs.map some = rows.map vgRow)) ∧
      (groups.length < rows.length → (∀ r ∈ rows, (Fields r).length = 3) → err ≠ none) := by
  obtain ⟨m, hm⟩ : ∃ m, groups.length = m + 1 :=
    Nat.exists_eq_succ_of_ne_zero (fun h => hn (List.length_eq_zero.mp h))
  obtain ⟨l1, l2, l3⟩ := getVolumeGroupsLoop_spec (SplitN output (m + 1)) []
  obtain ⟨p1, p2⟩ := SplitN_rows output rows m hrows
  have hempty : (Fields "").length ≠ 3 := by decide
  have core : (getVolumeGroupsLoop (SplitN output (m + 1)) []).2 = none ↔
      m + 1 ≤ rows.length ∧ (∀ r ∈ rows.take m, (Fields r).length = 3) ∧
        ((rows.drop m).flatMap Fields).length = 3 := by
    rw [l1]
    by_cases hc : rows.length ≤ m
    · rw [p1 hc]
      constructor
      · intro h
        exact absurd (h "" (by simp)) hempty
      · intro h
        omega
    · obtain ⟨last, q1, q2⟩ := p2 (by omega)
      rw [q1, ← q2]
      constructor
      · intro h
        exact ⟨by omega, fun r hr => h r (List.mem_append_left _ hr),
          h last (by simp)⟩
      · rintro ⟨_, h1, h2⟩ r hr
        rcases List.mem_append.mp hr with e | e
        · exact h1 r e
        · rw [List.mem_singleton.mp e]
          exact h2
  refine ⟨(getVolumeGroupsLoop (SplitN output (m + 1)) []).1,
    (getVolumeGroupsLoop (SplitN output (m + 1)) []).2, ?_, l3, ?_, ?_, ?_, ?_, ?_⟩
  · simp only [getVolumeGroups, hrun, hm]
  · intro he
    have hlen := congrArg List.length (l2 he)
    simp only [List.map_nil, List.nil_append, List.length_map] at hlen
    rw [hlen, hm]
    obtain ⟨last, q1, _⟩ := p2 (by have := core.mp he; omega)
    rw [q1]
    have := (core.mp he).1
    simp
    omega
  · rw [hm, Nat.add_sub_cancel]
    exact core
  · intro hlt he
    have := (core.mp he).1
    omega
  · intro heq
    have hlen : m < rows.length := by omega
    obtain ⟨x, hx⟩ : ∃ x, rows.drop m = [x] := by
      have hl : (rows.drop m).length = 1 := by rw [List.length_drop]; omega
      match hd : rows.drop m, hl with
      | [x], _ => exact ⟨x, rfl⟩
    have hsplit : rows = rows.take m ++ [x] := by
      rw [← hx, List.take_append_drop]
    constructor
    · rw [core, hx]
      simp only [List.flatMap_cons, List.flatMap_nil, List.append_nil]
      constructor
      · rintro ⟨_, h1, h2⟩ r hr
        rw [hsplit] at hr
        rcases List.mem_append.mp hr with e | e
        · exact h1 r e
        · rw [List.mem_singleton.mp e]
          exact h2
      · intro h
        exact ⟨by omega, fun r hr => h r (List.mem_of_mem_take hr),
          h x (by rw [hsplit]; simp)⟩
    · intro he
      obtain ⟨last, q1, q2⟩ := p2 hlen
      rw [l2 he, q1]
      rw [hx] at q2
      simp only [List.flatMap_cons, List.flatMap_nil, List.append_nil] at q2
      conv_rhs => rw [hsplit]
      simp only [List.map_nil, List.nil_append, List.map_append, List.map_cons]
      rw [vgRow_congr last x q2]
  · intro hgt hall he
    have h3 := (core.mp he).2.2
    have hl : 2 ≤ (rows.drop m).length := by rw [List.length_drop]; omega
    match hd : rows.drop m, hl with
    | a :: b :: rest, _ =>
      rw [hd] at h3
      have ha := hall a (List.mem_of_mem_drop (by rw [hd]; simp))
      have hb := hall b (List.mem_of_mem_drop (by rw [hd]; simp))
      simp only [List.flatMap_cons, List.length_append] at h3
      omega

/-- Counterexample to C22 as stated. Two pools queried and an output of one row
without a line break at its end: one record and no parse error. No pool queried
and an output of two rows: no record and no parse error. One pool queried and an
output of three rows with one column each: one record and no parse error. -/
theorem C22_row_mismatch_is_accepted :
    ((getVolumeGroups oneRowListed.env ["vg0", "vg1"] Sys.start).1 =
        ([⟨"vg0", 10737418240, 10737418240⟩], none) ∧
      [(⟨"vg0", 10737418240, 10737418240⟩ : vgInfo)].length ≠ ["vg0", "vg1"].length) ∧
    (twoPools.vgs = .ok "  vg0 10737418240 10737418240\n  vg1 3221225472 3221225472\n" ∧
      (getVolumeGroups twoPools.env [] Sys.start).1 = ([], none)) ∧
    (Split "vg0\n10737418240\n10737418240\n" = ["vg0", "10737418240", "10737418240", ""] ∧
      (getVolumeGroups columnPerRow.env ["vg0"] Sys.start).1 =
        ([⟨"vg0", 10737418240, 10737418240⟩], none)) :=
  ⟨⟨rfl, by decide⟩, ⟨rfl, rfl⟩, ⟨by decide, rfl⟩⟩

/-- Witness of C22 on the fixture `twoPools`: two pools queried, two rows of three
columns each, two records. -/
theorem C22_pool_listing_rows_witness :
    pmemexec.RunCommand twoPools.env "vgs" (vgsArgs ++ ["vg0", "vg1"]) Sys.start =
      (.ok "  vg0 10737418240 10737418240\n  vg1 3221225472 3221225472\n",
        ⟨(), [Call.RunCommand "vgs" (vgsArgs ++ ["vg0", "vg1"])]⟩) ∧
    Split "  vg0 10737418240 10737418240\n  vg1 3221225472 3221225472\n" =
      ["  vg0 10737418240 10737418240", "  vg1 3221225472 3221225472"] ++ [""] ∧
    ∃ vgs err, getVolumeGroups twoPools.env ["vg0", "vg1"] Sys.start =
        ((vgs, err), ⟨(), [Call.RunCommand "vgs" (vgsArgs ++ ["vg0", "vg1"])]⟩) ∧
      (err = none → vgs.length = ["vg0", "vg1"].length) :=
  have h := C22_pool_listing_rows twoPools.env ["vg0", "vg1"] Sys.start
    ⟨(), [Call.RunCommand "vgs" (vgsArgs ++ ["vg0", "vg1"])]⟩
    "  vg0 10737418240 10737418240\n  vg1 3221225472 3221225472\n"
    ["  vg0 10737418240 10737418240", "  vg1 3221225472 3221225472"] rfl (by decide)
    (by decide)
  ⟨rfl, by decide, h.elim (fun vgs h1 => h1.elim (fun err h2 => ⟨vgs, err, h2.1, h2.2.2.1⟩))⟩
/-! ## The entries read by the volume-listing parser -/

theorem decimalDigits_ge (cs : List Char) (n : Nat) : n ≤ decimalDigits cs n := by
  induction cs generalizing n with
  | nil => exact Nat.le_refl n
  | cons c cs ih =>
    have := ih (n * 10 + (c.toNat - 48))
    simp only [decimalDigits, List.foldl_cons] at this ⊢
    omega

/-- The value computed by the loop of `strconv.ParseUint`: the number denoted by the
leading digits, replaced by the largest `uint64` when it leaves the range, and by
`0` when a character that is not a digit follows within the range. -/
theorem parseUintLoop_spec (cs : List Char) (n : Nat) (hn : n ≤ maxUint64) :
    parseUintLoop cs n =
      if maxUint64 < decimalDigits (cs.takeWhile Char.isDigit) n then maxUint64
      else if cs.all Char.isDigit = true then decimalDigits cs n else 0 := by
  induction cs generalizing n with
  | nil =>
    simp only [parseUintLoop, List.takeWhile_nil, decimalDigits, List.foldl_nil, List.all_nil,
      if_true]
    rw [if_neg (by omega)]
  | cons c cs ih =>
    unfold parseUintLoop
    by_cases hc : c.isDigit = true
    · have hge := decimalDigits_ge (cs.takeWhile Char.isDigit) (n * 10 + (c.toNat - 48))
      simp only [hc, if_true, List.takeWhile_cons_of_pos, List.all_cons, Bool.true_and,
        decimalDigits, List.foldl_cons] at hge ⊢
      have hm : maxUint64 = 18446744073709551615 := by decide
      split
      · rename_i h1
        rw [if_pos]
        rw [hm] at h1 ⊢
        omega
      · rename_i h1
        split
        · rename_i h2
          rw [if_pos]
          omega
        · rename_i h2
          exact ih _ (by omega)
    · simp only [hc, Bool.false_eq_true, if_false, List.all_cons, Bool.false_and,
        List.takeWhile_cons_of_neg, decimalDigits, List.foldl_nil, not_false_eq_true]
      rw [if_neg (by omega)]

theorem parseLVSOutputLoop_append (a b : List String) (devices : DeviceMap) :
    parseLVSOutputLoop (a ++ b) devices = parseLVSOutputLoop b (parseLVSOutputLoop a devices) := by
  induction a generalizing devices with
  | nil => rfl
  | cons line rest ih =>
    simp only [List.cons_append, parseLVSOutputLoop]
    split <;> exact ih _

/-- Lines that do not carry the name `k` leave the entry under `k` as it was. -/
theorem parseLVSOutputLoop_other (lines : List String) (devices : DeviceMap) (k : String)
    (h : ∀ l ∈ lines, ∀ g1 g2, Fields l ≠ [k, g1, g2]) :
    (parseLVSOutputLoop lines devices).get k = devices.get k := by
  induction lines generalizing devices with
  | nil => rfl
  | cons line rest ih =>
    have hr : ∀ l ∈ rest, ∀ g1 g2, Fields l ≠ [k, g1, g2] :=
      fun l hl => h l (List.mem_cons_of_mem _ hl)
    unfold parseLVSOutputLoop
    rw [Fields_TrimSpace]
    split
    · rename_i f0 f1 f2 hf
      rw [ih _ hr]
      have hne : k ≠ f0 := by
        intro e
        subst e
        exact h line (List.mem_cons_self _ _) f1 f2 hf
      exact DeviceMap.get_set_ne _ _ _ _ hne
    · exact ih _ hr

/-- The last line that carries the name `k` determines the entry under `k`. -/
theorem parseLVSOutputLoop_last (pre post : List String) (line k f1 f2 : String)
    (devices : DeviceMap) (hf : Fields line = [k, f1, f2])
    (h : ∀ l ∈ post, ∀ g1 g2, Fields l ≠ [k, g1, g2]) :
    (parseLVSOutputLoop (pre ++ line :: post) devices).get k =
      some ⟨k, f1, ParseUint f2⟩ := by
  rw [parseLVSOutputLoop_append]
  unfold parseLVSOutputLoop
  rw [Fields_TrimSpace, hf]
  simp only
  rw [parseLVSOutputLoop_other post _ k h]
  exact DeviceMap.get_set_self _ _ _

theorem exists_last_of_mem (p : String → Prop) (lines : List String)
    (h : ∃ l ∈ lines, p l) :
    ∃ pre line post, lines = pre ++ line :: post ∧ p line ∧ ∀ l ∈ post, ¬ p l := by
  induction lines with
  | nil =>
    obtain ⟨l, hl, _⟩ := h
    cases hl
  | cons x rest ih =>
    by_cases hr : ∃ l ∈ rest, p l
    · obtain ⟨pre, line, post, h1, h2, h3⟩ := ih hr
      exact ⟨x :: pre, line, post, by rw [h1]; rfl, h2, h3⟩
    · obtain ⟨l, hl, hp⟩ := h
      rcases List.mem_cons.mp hl with e | e
      · subst e
        exact ⟨[], l, rest, rfl, hp, fun y hy hpy => hr ⟨y, hy, hpy⟩⟩
      · exact absurd ⟨l, e, hp⟩ hr

/-- C23 (as amended): for every output text `parseLVSOutput` returns no error. Its
result has an entry under a name exactly when some line has exactly three
whitespace-separated columns of which the name is the first; the entry is the one
of the last such line, with `VolumeId` the first column, `Path` the second and
`Size` the value that `strconv.ParseUint` gives for the third with its error
discarded. Lines with any other column count contribute nothing. For a third
column that is a decimal numeral `Size` is its value when that is below `2 ^ 64`
and `2 ^ 64 - 1` otherwise; for any other column it is `0`, or `2 ^ 64 - 1` when
the column starts with digits that already leave the `uint64` range. -/
theorem C23_volume_listing_entries (output : String) :
    (parseLVSOutput output).2 = none ∧
    (∀ k d, (parseLVSOutput output).1.get k = some d ↔
      ∃ pre line post f1 f2, Split output = pre ++ line :: post ∧
        Fields line = [k, f1, f2] ∧ (∀ l ∈ post, ∀ g1 g2, Fields l ≠ [k, g1, g2]) ∧
        d = ⟨k, f1, ParseUint f2⟩) ∧
    (∀ k, (parseLVSOutput output).1.get k = none ↔
      ∀ l ∈ Split output, ∀ g1 g2, Fields l ≠ [k, g1, g2]) ∧
    (∀ f2 v, decimalValue f2 = some v → ParseUint f2 = min v (2 ^ 64 - 1)) ∧
    (∀ f2, decimalValue f2 = none →
      ParseUint f2 =
        if 2 ^ 64 ≤ decimalDigits (f2.toList.takeWhile Char.isDigit) 0 then 2 ^ 64 - 1 else 0) := by
  have hm : maxUint64 = 2 ^ 64 - 1 := rfl
  have key : ∀ k, (∃ l ∈ Split output, ∃ g1 g2, Fields l = [k, g1, g2]) →
      ∃ pre line post f1 f2, Split output = pre ++ line :: post ∧
        Fields line = [k, f1, f2] ∧ (∀ l ∈ post, ∀ g1 g2, Fields l ≠ [k, g1, g2]) ∧
        (parseLVSOutput output).1.get k = some ⟨k, f1, ParseUint f2⟩ := by
    intro k hex
    obtain ⟨pre, line, post, h1, ⟨f1, f2, h2⟩, h3⟩ :=
      exists_last_of_mem (fun l => ∃ g1 g2, Fields l = [k, g1, g2]) (Split output) hex
    have h4 : ∀ l ∈ post, ∀ g1 g2, Fields l ≠ [k, g1, g2] :=
      fun l hl g1 g2 e => h3 l hl ⟨g1, g2, e⟩
    refine ⟨pre, line, post, f1, f2, h1, h2, h4, ?_⟩
    simp only [parseLVSOutput, h1]
    exact parseLVSOutputLoop_last pre post line k f1 f2 [] h2 h4
  have none_of : ∀ k, (∀ l ∈ Split output, ∀ g1 g2, Fields l ≠ [k, g1, g2]) →
      (parseLVSOutput output).1.get k = none := by
    intro k h
    simp only [parseLVSOutput]
    rw [parseLVSOutputLoop_other _ _ k h]
    rfl
  refine ⟨rfl, fun k d => ⟨fun hg => ?_, ?_⟩, fun k => ⟨fun hg l hl g1 g2 e => ?_, none_of k⟩,
    ?_, ?_⟩
  · by_cases hex : ∃ l ∈ Split output, ∃ g1 g2, Fields l = [k, g1, g2]
    · obtain ⟨pre, line, post, f1, f2, h1, h2, h3, h4⟩ := key k hex
      rw [hg] at h4
      exact ⟨pre, line, post, f1, f2, h1, h2, h3, Option.some.inj h4⟩
    · rw [none_of k (fun l hl g1 g2 e => hex ⟨l, hl, g1, g2, e⟩)] at hg
      cases hg
  · rintro ⟨pre, line, post, f1, f2, h1, h2, h3, rfl⟩
    simp only [parseLVSOutput, h1]
    exact parseLVSOutputLoop_last pre post line k f1 f2 [] h2 h3
  · obtain ⟨_, _, _, _, _, _, _, _, h4⟩ := key k ⟨l, hl, g1, g2, e⟩
    rw [hg] at h4
    cases h4
  · intro f2 v hv
    unfold decimalValue at hv
    split at hv
    · rename_i hd
      have hv1 := Option.some.inj hv
      rw [ParseUint, parseUintLoop_spec _ 0 (Nat.zero_le _), hd.2,
        List.takeWhile_eq_self_iff.mpr (fun c hc => List.all_eq_true.mp hd.2 c hc), hv1, hm]
      simp only [if_true]
      split
      · exact (Nat.min_eq_right (by omega)).symm
      · exact (Nat.min_eq_left (by omega)).symm
    · cases hv
  · intro f2 hv
    unfold decimalValue at hv
    split at hv
    · cases hv
    · rename_i hd
      rw [ParseUint, parseUintLoop_spec _ 0 (Nat.zero_le _), hm]
      by_cases he : f2.toList = []
      · rw [he]
        rfl
      · have hall : ¬ (f2.toList.all Char.isDigit = true) := fun h => hd ⟨he, h⟩
        rw [if_neg hall]
        split
        · rw [if_pos (by omega)]
        · rw [if_neg (by omega)]

/-- Counterexample to C23 as stated: the third column `18446744073709551616` is a
decimal numeral with the value `2 ^ 64`, and the entry read from the line has the
size `2 ^ 64 - 1`; the third column `4g` is no decimal numeral, and the entry read
from the line has the size `0`. -/
theorem C23_size_is_not_the_decimal_value :
    (decimalValue "18446744073709551616" = some 18446744073709551616 ∧
      (parseLVSOutput "  v1 /dev/vg0/v1 18446744073709551616\n").1.get "v1" =
        some ⟨"v1", "/dev/vg0/v1", 18446744073709551615⟩) ∧
    (decimalValue "4g" = none ∧
      (parseLVSOutput "  v1 /dev/vg0/v1 4g\n").1.get "v1" = some ⟨"v1", "/dev/vg0/v1", 0⟩) :=
  ⟨⟨by decide, by decide⟩, by decide, by decide⟩
/-! ## Repeated allocation after a failed zeroing -/

/-- C24 (code defect, the guard of `CreateDevice` looks at the cache only): on a
host with two pools where zeroing fails, the first `CreateDevice "v1"` creates the
logical volume in `vg0`, fails at zeroing and leaves the cache empty; the repeated
`CreateDevice "v1"` does not return `ErrDeviceExists`: it issues `lvcreate` for
`v1` on both pools and creates a second logical volume for `v1` in `vg1`; only the
third call finds no pool left, after two further `lvcreate` calls for `v1`. -/
theorem C24_repeated_create_allocates_again :
    pmemLvm.CreateDevice zeroingFailsHost emptyLvm "v1" 4194304 ⟨(false, false), []⟩ =
      ((some (.errorfErr "clear device %q: %v" ["v1"] (.tool "zeroing failed")), emptyLvm),
        ⟨(true, false),
          [Call.RunCommand "vgs" (vgsArgs ++ ["vg0", "vg1"]),
            Call.RunCommand "lvcreate" ["-Zn", "-L", "4194304B", "-n", "v1", "vg0"],
            Call.RunCommand "lvs" (lvsArgs ++ ["vg0"]),
            Call.waitDeviceAppears ⟨"v1", "/dev/vg0/v1", 4194304⟩,
            Call.clearDevice ⟨"v1", "/dev/vg0/v1", 4194304⟩ false]⟩) ∧
    pmemLvm.CreateDevice zeroingFailsHost emptyLvm "v1" 4194304 ⟨(true, false), []⟩ =
      ((some (.errorfErr "clear device %q: %v" ["v1"] (.tool "zeroing failed")), emptyLvm),
        ⟨(true, true),
          [Call.RunCommand "vgs" (vgsArgs ++ ["vg0", "vg1"]),
            Call.RunCommand "lvcreate" ["-Zn", "-L", "4194304B", "-n", "v1", "vg0"],
            Call.RunCommand "lvcreate" ["-Zn", "-L", "4194304B", "-n", "v1", "vg1"],
            Call.RunCommand "lvs" (lvsArgs ++ ["vg1"]),
            Call.waitDeviceAppears ⟨"v1", "/dev/vg1/v1", 4194304⟩,
            Call.clearDevice ⟨"v1", "/dev/vg1/v1", 4194304⟩ false]⟩) ∧
    pmemLvm.CreateDevice zeroingFailsHost emptyLvm "v1" 4194304 ⟨(true, true), []⟩ =
      ((some .ErrNotEnoughSpace, emptyLvm),
        ⟨(true, true),
          [Call.RunCommand "vgs" (vgsArgs ++ ["vg0", "vg1"]),
            Call.RunCommand "lvcreate" ["-Zn", "-L", "4194304B", "-n", "v1", "vg0"],
            Call.RunCommand "lvcreate" ["-Zn", "-L", "4194304B", "-n", "v1", "vg1"]]⟩) ∧
    (listDevices zeroingFailsHost ["vg0", "vg1"] ⟨(true, true), []⟩).1 =
      .ok [("v1", ⟨"v1", "/dev/vg1/v1", 4194304⟩)] ∧
    (getUncachedDevice zeroingFailsHost "v1" "vg0" ⟨(true, true), []⟩).1 =
      .ok ⟨"v1", "/dev/vg0/v1", 4194304⟩ :=
  ⟨rfl, rfl, rfl, rfl, rfl⟩
/-! ## The size requested by the direct backend at the top of the range -/

/-- C25 (code defect at the top of the `uint64` range): for the requested size
`2 ^ 64 - 1` and a volume id that is not allocated, the addition of one alignment
unit in the direct backend's `CreateDevice` wraps around, and the one
namespace-creation request carries the size `2 ^ 30 - 1`, which is smaller than the
requested size and is not the requested size plus 1 GiB. -/
theorem C25_requested_size_wraps_around :
    add64 18446744073709551615 ndctlAlign = 1073741823 ∧
    ¬ (18446744073709551615 < add64 18446744073709551615 ndctlAlign) ∧
    add64 18446744073709551615 ndctlAlign ≠ 18446744073709551615 + 1073741824 ∧
    nothingAllocated.env.GetNamespaceByName () "v1" = (.error .ErrNotExist, ()) ∧
    pmemNdctl.CreateDevice nothingAllocated.env ⟨100⟩ "v1" 18446744073709551615 Sys.start =
      (some .ErrDeviceNotFound,
        ⟨(), [Call.NewContext, Call.GetNamespaceByName "v1",
          Call.CreateNamespace ⟨"v1", 1073741823, 1073741824, "fsdax"⟩,
          Call.GetNamespaceByName "v1", Call.Free]⟩) :=
  ⟨by decide, by decide, by decide, rfl, rfl⟩

/-! ## The size computed by startup provisioning -/

/-- The size that `setupNS` computes for a region, step by step. -/
theorem setupNS_canUse_steps (r : RegionView) (percentage : Nat) :
    setupNS.canUse r percentage =
      if mul64 GB r.InterleaveWays = 0 then none
      else some (mul64
        (setupNS.clamp r (setupNS.subtract (setupNS.desired r percentage) r.ActiveNamespaces) /
          mul64 GB r.InterleaveWays) (mul64 GB r.InterleaveWays)) := rfl

theorem setupNS_desired_eq (r : RegionView) (percentage : Nat) (hp : percentage ≤ 100)
    (hs : r.Size < 2 ^ 64) : setupNS.desired r percentage = percentage * (r.Size / 100) := by
  unfold setupNS.desired mul64
  apply Nat.mod_eq_of_lt
  have h1 : percentage * (r.Size / 100) ≤ 100 * (r.Size / 100) := Nat.mul_le_mul_right _ hp
  have h2 : 100 * (r.Size / 100) ≤ r.Size := Nat.mul_div_le _ _
  omega

/-- C26 (as amended): for every region size below `2 ^ 64` and every percentage in
`0..100`, the desired usable size that `setupNS` computes is
`percentage * (regionSize / 100)`: the region size is divided by 100 first, rounded
down, and the quotient is multiplied by the percentage. It never exceeds the exact
product divided by 100 and falls short of it by `percentage * (regionSize % 100) / 100`,
which is less than 100 bytes; the two agree when the region size is a multiple of
100. It is `0` for `percentage = 0`, and for `percentage = 100` it is the region
size less its remainder modulo 100. -/
theorem C26_desired_size_divides_first (r : RegionView) (percentage : Nat)
    (hp : percentage ≤ 100) (hs : r.Size < 2 ^ 64) :
    setupNS.canUse r percentage =
      (if mul64 GB r.InterleaveWays = 0 then none
      else some (mul64
        (setupNS.clamp r (setupNS.subtract (setupNS.desired r percentage) r.ActiveNamespaces) /
          mul64 GB r.InterleaveWays) (mul64 GB r.InterleaveWays))) ∧
    setupNS.desired r percentage = percentage * (r.Size / 100) ∧
    setupNS.desired r percentage ≤ percentage * r.Size / 100 ∧
    percentage * r.Size / 100 - setupNS.desired r percentage =
      percentage * (r.Size % 100) / 100 ∧
    percentage * r.Size / 100 < setupNS.desired r percentage + 100 ∧
    (100 ∣ r.Size → setupNS.desired r percentage = percentage * r.Size / 100) ∧
    (percentage = 0 → setupNS.desired r percentage = 0) ∧
    (percentage = 100 → setupNS.desired r percentage = r.Size - r.Size % 100) := by
  have hd := setupNS_desired_eq r percentage hp hs
  have hsplit : percentage * r.Size = 100 * (percentage * (r.Size / 100)) +
      percentage * (r.Size % 100) := by
    conv_lhs => rw [← Nat.div_add_mod r.Size 100]
    ring
  have hq : percentage * r.Size / 100 =
      percentage * (r.Size / 100) + percentage * (r.Size % 100) / 100 := by
    rw [hsplit, Nat.mul_add_div (by decide : 0 < 100)]
  have hr : r.Size % 100 < 100 := Nat.mod_lt _ (by decide)
  have hsmall : percentage * (r.Size % 100) / 100 < 100 := by
    have : percentage * (r.Size % 100) ≤ 100 * 99 := Nat.mul_le_mul hp (by omega)
    omega
  refine ⟨setupNS_canUse_steps r percentage, hd, ?_, ?_, ?_, ?_, ?_, ?_⟩
  · rw [hd, hq]
    omega
  · rw [hd, hq]
    omega
  · rw [hd, hq]
    omega
  · intro hdiv
    rw [hd, hq, Nat.mod_eq_zero_of_dvd hdiv]
    simp
  · intro h0
    rw [hd, h0]
    simp
  · intro h100
    rw [hd, h100]
    omega

/-- Counterexample to C26 as stated: for a region of 16 GiB and `percentage = 100`
the desired usable size is 17179869100, 84 bytes less than the region size and than
the exact product divided by 100; the namespace provisioned on the otherwise empty
region is 15 GiB. For a region of 150 bytes and `percentage = 50` it is 50, not 75. -/
theorem C26_whole_region_is_not_desired :
    ((oneRegionHost.Region () 0 0).Size = 17179869184 ∧
      setupNS.desired (oneRegionHost.Region () 0 0) 100 = 17179869100 ∧
      100 * 17179869184 / 100 = 17179869184 ∧
      setupNS.canUse (oneRegionHost.Region () 0 0) 100 = some 16106127360) ∧
    (setupNS.desired ⟨"vg", .PmemRegion, "region0", 150, 150, 150, 1, []⟩ 50 = 50 ∧
      50 * 150 / 100 = 75) :=
  ⟨⟨rfl, by decide, by decide, by decide⟩, by decide, by decide⟩

/-- Witness of C26 on the region of `oneRegionHost` with `percentage = 50`. -/
theorem C26_desired_size_divides_first_witness :
    (50 ≤ 100 ∧ (oneRegionHost.Region () 0 0).Size < 2 ^ 64) ∧
    setupNS.desired (oneRegionHost.Region () 0 0) 50 =
      50 * ((oneRegionHost.Region () 0 0).Size / 100) ∧
    50 * (oneRegionHost.Region () 0 0).Size / 100 <
      setupNS.desired (oneRegionHost.Region () 0 0) 50 + 100 :=
  have h := C26_desired_size_divides_first (oneRegionHost.Region () 0 0) 50 (by decide)
    (by decide)
  ⟨⟨by decide, by decide⟩, h.2.1, h.2.2.2.2.1⟩

/-- The sum of the sizes of the namespaces named `pmem-csi`. -/
theorem setupNS_subtract_spec (canUse : Nat) (nss : List Namespace) (hc : canUse < 2 ^ 63)
    (hn : ∀ ns ∈ nss, ns.Name = "pmem-csi" → ns.Size ≤ 2 ^ 63) :
    setupNS.subtract canUse nss =
      canUse - ((nss.filter (fun ns => decide (ns.Name = "pmem-csi"))).map Namespace.Size).sum := by
  induction nss generalizing canUse with
  | nil => simp [setupNS.subtract]
  | cons ns rest ih =>
    have hrest : ∀ x ∈ rest, x.Name = "pmem-csi" → x.Size ≤ 2 ^ 63 :=
      fun x hx => hn x (List.mem_cons_of_mem _ hx)
    unfold setupNS.subtract
    by_cases hname : ns.Name = "pmem-csi"
    · have hsz := hn ns (List.mem_cons_self _ _) hname
      rw [if_neg (not_not.mpr hname)]
      simp only [List.filter_cons, hname, decide_True, if_true, List.map_cons, List.sum_cons]
      have hmod : ns.Size % 2 ^ 64 = ns.Size := Nat.mod_eq_of_lt (by omega)
      simp only [sub64, hmod]
      by_cases hlt : ns.Size < canUse
      · have hd : (canUse + 2 ^ 64 - ns.Size) % 2 ^ 64 = canUse - ns.Size := by
          have : canUse + 2 ^ 64 - ns.Size = (canUse - ns.Size) + 2 ^ 64 := by omega
          rw [this, Nat.add_mod_right]
          exact Nat.mod_eq_of_lt (by omega)
        rw [hd, if_neg (by omega), ih (canUse - ns.Size) (by omega) hrest]
        omega
      · have hd : (canUse + 2 ^ 64 - ns.Size) % 2 ^ 64 = 0 ∨
            2 ^ 63 ≤ (canUse + 2 ^ 64 - ns.Size) % 2 ^ 64 := by
          by_cases heq : ns.Size = canUse
          · left
            rw [heq]
            simp
          · right
            rw [Nat.mod_eq_of_lt (by omega)]
            omega
        rw [if_pos hd, ih 0 (by positivity) hrest]
        omega
    · rw [if_pos hname]
      simp only [List.filter_cons, hname, decide_False, Bool.false_eq_true, if_false]
      exact ih canUse hc hrest

/-- C27 (as amended): for every region whose desired size is below `2 ^ 63` and
whose active namespaces named `pmem-csi` each have a size of at most `2 ^ 63`,
after step 2 of `setupNS` the desired size is `max(0, desired - S)`, where `S` is
the sum of the sizes of the active namespaces named `pmem-csi`: the subtraction
saturates at `0`, and namespaces with any other name do not change the result. -/
theorem C27_subtraction_saturates (r : RegionView) (percentage : Nat)
    (hd : setupNS.desired r percentage < 2 ^ 63)
    (hn : ∀ ns ∈ r.ActiveNamespaces, ns.Name = "pmem-csi" → ns.Size ≤ 2 ^ 63) :
    setupNS.canUse r percentage =
      (if mul64 GB r.InterleaveWays = 0 then none
      else some (mul64
        (setupNS.clamp r (setupNS.subtract (setupNS.desired r percentage) r.ActiveNamespaces) /
          mul64 GB r.InterleaveWays) (mul64 GB r.InterleaveWays))) ∧
    ((setupNS.subtract (setupNS.desired r percentage) r.ActiveNamespaces : Nat) : Int) =
      max 0 ((setupNS.desired r percentage : Int) -
        (((r.ActiveNamespaces.filter (fun ns => decide (ns.Name = "pmem-csi"))).map
          Namespace.Size).sum : Nat)) ∧
    setupNS.subtract (setupNS.desired r percentage) r.ActiveNamespaces =
      setupNS.subtract (setupNS.desired r percentage)
        (r.ActiveNamespaces.filter (fun ns => decide (ns.Name = "pmem-csi"))) := by
  refine ⟨setupNS_canUse_steps r percentage, ?_, ?_⟩
  · rw [setupNS_subtract_spec _ _ hd hn]
    omega
  · rw [setupNS_subtract_spec _ _ hd hn, setupNS_subtract_spec _ _ hd
      (fun ns hns => hn ns (List.mem_of_mem_filter hns)), List.filter_filter]
    simp

/-- Counterexample to C27 as stated: with a desired size of `0` and one namespace
named `pmem-csi` of `2 ^ 63 + 1` bytes the subtraction wraps around to
`2 ^ 63 - 1` instead of giving `0`; with a desired size of `2 ^ 63 + 1` and one
namespace named `pmem-csi` of 1 byte it gives `0` instead of `2 ^ 63`. -/
theorem C27_subtraction_wraps_above_two_to_63 :
    setupNS.subtract 0 [⟨"pmem-csi", "pmem0", 9223372036854775809, "fsdax"⟩] =
      9223372036854775807 ∧
    setupNS.subtract 9223372036854775809 [⟨"pmem-csi", "pmem0", 1, "fsdax"⟩] = 0 ∧
    setupNS.canUse ⟨"vg", .PmemRegion, "region0", 17179869184, 17179869184, 17179869184, 1,
      [⟨"pmem-csi", "pmem0", 9223372036854775809, "fsdax"⟩]⟩ 0 = some 17179869184 :=
  ⟨by decide, by decide, by decide⟩

/-- Witness of C27 on `restartedRegion` used at 50 percent: of the desired
8589934550 bytes, 6 GiB are taken by the namespaces named `pmem-csi`. -/
theorem C27_subtraction_saturates_witness :
    (setupNS.desired restartedRegion 50 < 2 ^ 63 ∧
      ∀ ns ∈ restartedRegion.ActiveNamespaces, ns.Name = "pmem-csi" → ns.Size ≤ 2 ^ 63) ∧
    ((setupNS.subtract (setupNS.desired restartedRegion 50)
        restartedRegion.ActiveNamespaces : Nat) : Int) =
      max 0 ((setupNS.desired restartedRegion 50 : Int) -
        (((restartedRegion.ActiveNamespaces.filter
          (fun ns => decide (ns.Name = "pmem-csi"))).map Namespace.Size).sum : Nat)) ∧
    setupNS.subtract (setupNS.desired restartedRegion 50) restartedRegion.ActiveNamespaces =
      2147483606 :=
  ⟨⟨by decide, by decide⟩,
    (C27_subtraction_saturates restartedRegion 50 (by decide) (by decide)).2.1, by decide⟩

theorem setupNS_subtract_lt (canUse : Nat) (nss : List Namespace) (hc : canUse < 2 ^ 64) :
    setupNS.subtract canUse nss < 2 ^ 64 := by
  induction nss generalizing canUse with
  | nil => exact hc
  | cons ns rest ih =>
    unfold setupNS.subtract
    split
    · exact ih canUse hc
    · simp only
      split
      · exact ih 0 (by positivity)
      · exact ih _ (Nat.mod_lt _ (by positivity))

theorem setupNS_clamp_eq (r : RegionView) (canUse : Nat) :
    setupNS.clamp r canUse = min (min canUse r.AvailableSize) r.MaxAvailableExtent := by
  unfold setupNS.clamp
  simp only
  split <;> split <;> omega

/-- The size that `setupNS` computes for a region whose alignment unit
`2 ^ 30 * w` is positive and within the `uint64` range. -/
theorem setupNS_canUse_aligned (r : RegionView) (percentage : Nat)
    (hw1 : 1 ≤ r.InterleaveWays) (hw2 : 2 ^ 30 * r.InterleaveWays < 2 ^ 64) :
    setupNS.canUse r percentage =
      some (alignDown
        (min (min (setupNS.subtract (setupNS.desired r percentage) r.ActiveNamespaces)
          r.AvailableSize) r.MaxAvailableExtent) (2 ^ 30 * r.InterleaveWays)) := by
  have hra : mul64 GB r.InterleaveWays = 2 ^ 30 * r.InterleaveWays := by
    unfold mul64
    have e : GB = 2 ^ 30 := by decide
    rw [e]
    exact Nat.mod_eq_of_lt hw2
  have hd : setupNS.subtract (setupNS.desired r percentage) r.ActiveNamespaces < 2 ^ 64 :=
    setupNS_subtract_lt _ _ (Nat.mod_lt _ (by positivity))
  rw [setupNS_canUse_steps, hra, if_neg (by omega), setupNS_clamp_eq]
  unfold alignDown mul64
  congr 1
  apply Nat.mod_eq_of_lt
  have h1 := Nat.div_mul_le_self
    (min (min (setupNS.subtract (setupNS.desired r percentage) r.ActiveNamespaces)
      r.AvailableSize) r.MaxAvailableExtent) (2 ^ 30 * r.InterleaveWays)
  omega

theorem alignDown_spec (x unit : Nat) (hu : 0 < unit) :
    unit ∣ alignDown x unit ∧ alignDown x unit ≤ x ∧ x < alignDown x unit + unit ∧
    ∀ m, unit ∣ m → m ≤ x → m ≤ alignDown x unit := by
  unfold alignDown
  refine ⟨Nat.dvd_mul_left _ _, Nat.div_mul_le_self _ _, ?_, ?_⟩
  · have h1 := Nat.div_add_mod x unit
    have h2 := Nat.mod_lt x hu
    rw [Nat.mul_comm] at h1
    omega
  · rintro m ⟨k, rfl⟩ hm
    rw [Nat.mul_comm unit k] at hm ⊢
    exact Nat.mul_le_mul_right _ ((Nat.le_div_iff_mul_le hu).mpr hm)

/-- C28 (as amended): for every region with interleave width `w ≥ 1` and
`2 ^ 30 * w < 2 ^ 64`, let `F` be the largest multiple of `2 ^ 30 * w` that is at
most the minimum of the desired size after step 2, the available size of the region
and its maximum available extent. `setupNS` requests a namespace if and only if
`F ≥ 2 GiB`: it then makes exactly one request, for a namespace of size `F` named
`pmem-csi` in mode `fsdax`, and reports an error exactly when that request fails;
otherwise it requests nothing and reports no error. `F` exceeds neither the
available size nor the maximum available extent. -/
theorem C28_one_request_of_aligned_size (env : StartupEnv W) (bus region percentage : Nat)
    (s : Sys W) (r : RegionView) (hr : r = env.Region s.world bus region)
    (hw1 : 1 ≤ r.InterleaveWays) (hw2 : 2 ^ 30 * r.InterleaveWays < 2 ^ 64)
    (F : Nat)
    (hF : F = alignDown
      (min (min (setupNS.subtract (setupNS.desired r percentage) r.ActiveNamespaces)
        r.AvailableSize) r.MaxAvailableExtent) (2 ^ 30 * r.InterleaveWays)) :
    (2 ^ 30 * r.InterleaveWays ∣ F ∧
      F ≤ min (min (setupNS.subtract (setupNS.desired r percentage) r.ActiveNamespaces)
        r.AvailableSize) r.MaxAvailableExtent ∧
      ∀ m, 2 ^ 30 * r.InterleaveWays ∣ m →
        m ≤ min (min (setupNS.subtract (setupNS.desired r percentage) r.ActiveNamespaces)
          r.AvailableSize) r.MaxAvailableExtent → m ≤ F) ∧
    F ≤ r.AvailableSize ∧ F ≤ r.MaxAvailableExtent ∧
    (2 * 2 ^ 30 ≤ F →
      ∃ res w1, env.RegionCreateNamespace s.world bus region
          ⟨"pmem-csi", F, 2 ^ 30, "fsdax"⟩ = (res, w1) ∧
        (setupNS env bus region percentage s).map Prod.snd =
          some ⟨w1, s.trace ++
            [Call.RegionCreateNamespace bus region ⟨"pmem-csi", F, 2 ^ 30, "fsdax"⟩]⟩ ∧
        (∀ ns, res = .ok ns → (setupNS env bus region percentage s).map Prod.fst = some none) ∧
        (∀ err, res = .error err → (setupNS env bus region percentage s).map Prod.fst =
          some (some (.errorfErr
            "failed to create PMEM namespace with size '%d' in region '%s': %v"
            [FormatUint F, r.DeviceName] err)))) ∧
    (F < 2 * 2 ^ 30 → setupNS env bus region percentage s = some (none, s)) := by
  have hc := setupNS_canUse_aligned r percentage hw1 hw2
  rw [← hF] at hc
  obtain ⟨a1, a2, a3, a4⟩ := alignDown_spec
    (min (min (setupNS.subtract (setupNS.desired r percentage) r.ActiveNamespaces)
      r.AvailableSize) r.MaxAvailableExtent) (2 ^ 30 * r.InterleaveWays) (by omega)
  rw [← hF] at a1 a2 a3 a4
  have hGB : GB = 2 ^ 30 := by decide
  refine ⟨⟨a1, a2, a4⟩, by omega, by omega, fun hge => ?_, fun hlt => ?_⟩
  · rcases hcall : env.RegionCreateNamespace s.world bus region
        ⟨"pmem-csi", F, 2 ^ 30, "fsdax"⟩ with ⟨res, w1⟩
    refine ⟨res, w1, rfl, ?_⟩
    have hge2 : F ≥ 2 * GB := by rw [hGB]; exact hge
    simp only [setupNS, ← hr, hc, hge2, if_true, ndctl.RegionCreateNamespace, hGB, hcall]
    have hge3 : 2147483648 ≤ F := by omega
    cases res with
    | error e => simp [hge3]
    | ok ns => simp [hge3]
  · have hlt2 : ¬ F ≥ 2 * GB := by rw [hGB]; omega
    simp only [setupNS, ← hr, hc, hlt2, if_false]

/-- Counterexample to C28 as stated. A region with interleave width `2 ^ 34`: the
alignment unit wraps to `0` and `setupNS` ends in a division by zero instead of
returning. A region of 16 GiB with interleave width `2 ^ 34 + 1`: no positive
multiple of `2 ^ 30 * w` fits, and `setupNS` requests a namespace of 15 GiB. -/
theorem C28_wide_interleave :
    ((wideInterleaveHost.Region () 0 0).InterleaveWays = 2 ^ 34 ∧
      setupNS wideInterleaveHost 0 0 100 Sys.start = none) ∧
    ((widerInterleaveHost.Region () 0 0).InterleaveWays = 2 ^ 34 + 1 ∧
      alignDown 17179869100 (2 ^ 30 * (2 ^ 34 + 1)) = 0 ∧
      setupNS widerInterleaveHost 0 0 100 Sys.start =
        some (none, ⟨(), [Call.RegionCreateNamespace 0 0
          ⟨"pmem-csi", 16106127360, 1073741824, "fsdax"⟩]⟩)) :=
  ⟨⟨rfl, rfl⟩, rfl, by decide, rfl⟩

/-- Witness of C28 on `oneRegionHost` at 50 percent: one request for 7 GiB. -/
theorem C28_one_request_of_aligned_size_witness :
    (1 ≤ (oneRegionHost.Region () 0 0).InterleaveWays ∧
      2 ^ 30 * (oneRegionHost.Region () 0 0).InterleaveWays < 2 ^ 64) ∧
    (2 * 2 ^ 30 ≤ 7516192768 →
      ∃ res w1, oneRegionHost.RegionCreateNamespace () 0 0
          ⟨"pmem-csi", 7516192768, 2 ^ 30, "fsdax"⟩ = (res, w1) ∧
        (setupNS oneRegionHost 0 0 50 Sys.start).map Prod.snd =
          some ⟨w1, Sys.start.trace ++
            [Call.RegionCreateNamespace 0 0 ⟨"pmem-csi", 7516192768, 2 ^ 30, "fsdax"⟩]⟩ ∧
        (∀ ns, res = .ok ns → (setupNS oneRegionHost 0 0 50 Sys.start).map Prod.fst =
          some none) ∧
        (∀ err, res = .error err → (setupNS oneRegionHost 0 0 50 Sys.start).map Prod.fst =
          some (some (.errorfErr
            "failed to create PMEM namespace with size '%d' in region '%s': %v"
            [FormatUint 7516192768, (oneRegionHost.Region () 0 0).DeviceName] err)))) :=
  ⟨⟨by decide, by decide⟩,
    (C28_one_request_of_aligned_size oneRegionHost 0 0 50 Sys.start
      (oneRegionHost.Region () 0 0) rfl (by decide) (by decide) 7516192768 (by decide)).2.2.2.1⟩

/-- C29: when every region reports an interleave width `w` with `w ≥ 1` and
`2 ^ 30 * w < 2 ^ 64` (and maximum available extents within the `uint64` range),
neither the direct backend's `GetCapacity` nor `setupNS` divides by zero: both
return. The align-down step of `GetCapacity` turns the maximum available extent `x`
of an enabled region into a multiple of `2 ^ 30 * w` with `result ≤ x < result +
2 ^ 30 * w`, and the align-down step of `setupNS` does the same with the clamped
size `x` of its region. -/
theorem C29_align_down_is_safe (env : StartupEnv W) (pmem : pmemNdctl) (s : Sys W)
    (bus region percentage : Nat)
    (hcap : ∀ r ∈ allRegions (env.GetBuses (env.NewContext s.world).2),
      1 ≤ r.InterleaveWays ∧ 2 ^ 30 * r.InterleaveWays < 2 ^ 64 ∧
        r.MaxAvailableExtent < 2 ^ 64)
    (hreg : 1 ≤ (env.Region s.world bus region).InterleaveWays ∧
      2 ^ 30 * (env.Region s.world bus region).InterleaveWays < 2 ^ 64) :
    (∃ res, pmemNdctl.GetCapacity env.toEnv pmem s = some res) ∧
    (∀ r ∈ allRegions (env.GetBuses (env.NewContext s.world).2), r.Enabled = true →
      mul64 ndctlAlign r.InterleaveWays = 2 ^ 30 * r.InterleaveWays ∧
      (∃ c1, pmemNdctl.GetCapacityRegions [r] Capacity.zero = some c1 ∧
        c1.Available = alignedExtent r ∧ c1.MaxVolumeSize = alignedExtent r) ∧
      2 ^ 30 * r.InterleaveWays ∣ alignedExtent r ∧
      alignedExtent r ≤ r.MaxAvailableExtent ∧
      r.MaxAvailableExtent < alignedExtent r + 2 ^ 30 * r.InterleaveWays) ∧
    (mul64 GB (env.Region s.world bus region).InterleaveWays =
        2 ^ 30 * (env.Region s.world bus region).InterleaveWays ∧
      (∃ res, setupNS env bus region percentage s = some res) ∧
      ∃ F, setupNS.canUse (env.Region s.world bus region) percentage = some F ∧
        2 ^ 30 * (env.Region s.world bus region).InterleaveWays ∣ F ∧
        F ≤ setupNS.clamp (env.Region s.world bus region)
          (setupNS.subtract (setupNS.desired (env.Region s.world bus region) percentage)
            (env.Region s.world bus region).ActiveNamespaces) ∧
        setupNS.clamp (env.Region s.world bus region)
          (setupNS.subtract (setupNS.desired (env.Region s.world bus region) percentage)
            (env.Region s.world bus region).ActiveNamespaces) <
          F + 2 ^ 30 * (env.Region s.world bus region).InterleaveWays) := by
  refine ⟨?_, ?_, ?_⟩
  · unfold pmemNdctl.GetCapacity ndctl.NewContext
    rcases hctx : env.NewContext s.world with ⟨r1, w1⟩
    rw [hctx] at hcap
    cases r1 with
    | some e => exact ⟨_, rfl⟩
    | none =>
      simp only [ndctl.GetBuses]
      have hne : ∀ r ∈ enabledRegions (allRegions (env.GetBuses w1)), realAlign r ≠ 0 := by
        intro r hr
        have hm := hcap r (List.mem_of_mem_filter hr)
        rw [realAlign_eq r hm.2.1]
        omega
      obtain ⟨c1, hc1⟩ := GetCapacityRegions_isSome (allRegions (env.GetBuses w1))
        Capacity.zero hne
      rw [GetCapacityBuses_eq, hc1]
      exact ⟨_, rfl⟩
  · intro r hr hE
    obtain ⟨h1, h2, h3⟩ := hcap r hr
    have hra := realAlign_eq r h2
    have hae := alignedExtent_eq r h2 h3
    obtain ⟨a1, a2, a3, _⟩ := alignDown_spec r.MaxAvailableExtent (2 ^ 30 * r.InterleaveWays)
      (by omega)
    rw [← hae] at a1 a2 a3
    have hra2 : mul64 ndctlAlign r.InterleaveWays = 2 ^ 30 * r.InterleaveWays := hra
    refine ⟨hra2, ?_, a1, a2, a3⟩
    have hlt : alignedExtent r < 2 ^ 64 := by omega
    have hne : mul64 ndctlAlign r.InterleaveWays ≠ 0 := by rw [hra2]; omega
    have hav : mul64 (r.MaxAvailableExtent / mul64 ndctlAlign r.InterleaveWays)
        (mul64 ndctlAlign r.InterleaveWays) = alignedExtent r := rfl
    simp only [pmemNdctl.GetCapacityRegions, hE, Bool.not_true, Bool.false_eq_true, if_false,
      hne, hav, Capacity.zero, add64, Nat.zero_add]
    split
    · refine ⟨_, rfl, ?_, rfl⟩
      simp only [Nat.zero_add]
      exact Nat.mod_eq_of_lt hlt
    · rename_i hz
      refine ⟨_, rfl, ?_, ?_⟩
      · simp only [Nat.zero_add]
        exact Nat.mod_eq_of_lt hlt
      · simp only
        omega
  · obtain ⟨hw1, hw2⟩ := hreg
    have hc := setupNS_canUse_aligned (env.Region s.world bus region) percentage hw1 hw2
    have hGB : mul64 GB (env.Region s.world bus region).InterleaveWays =
        2 ^ 30 * (env.Region s.world bus region).InterleaveWays := by
      unfold mul64
      have e : GB = 2 ^ 30 := by decide
      rw [e]
      exact Nat.mod_eq_of_lt hw2
    obtain ⟨a1, a2, a3, _⟩ := alignDown_spec
      (setupNS.clamp (env.Region s.world bus region)
        (setupNS.subtract (setupNS.desired (env.Region s.world bus region) percentage)
          (env.Region s.world bus region).ActiveNamespaces))
      (2 ^ 30 * (env.Region s.world bus region).InterleaveWays) (by omega)
    rw [← setupNS_clamp_eq] at hc
    refine ⟨hGB, ?_, _, hc, a1, a2, a3⟩
    simp only [setupNS, hc]
    split
    · split <;> exact ⟨_, rfl⟩
    · exact ⟨_, rfl⟩

/-- Witness of C29 on `oneRegionHost`: one enabled region of 16 GiB with interleave
width 1. -/
theorem C29_align_down_is_safe_witness :
    (∀ r ∈ allRegions (oneRegionHost.GetBuses (oneRegionHost.NewContext ()).2),
      1 ≤ r.InterleaveWays ∧ 2 ^ 30 * r.InterleaveWays < 2 ^ 64 ∧
        r.MaxAvailableExtent < 2 ^ 64) ∧
    (1 ≤ (oneRegionHost.Region () 0 0).InterleaveWays ∧
      2 ^ 30 * (oneRegionHost.Region () 0 0).InterleaveWays < 2 ^ 64) ∧
    (∃ res, pmemNdctl.GetCapacity oneRegionHost.toEnv ⟨100⟩ Sys.start = some res) ∧
    (∃ res, setupNS oneRegionHost 0 0 50 Sys.start = some res) :=
  have h := C29_align_down_is_safe oneRegionHost ⟨100⟩ Sys.start 0 0 50 (by decide)
    (by decide)
  ⟨by decide, by decide, h.1, h.2.2.2.1⟩
/-! ## Endpoints -/

/-- An endpoint with the scheme `unix` or `tcp` in lower case and an address that is
not empty is accepted, with that scheme as the protocol and the rest as the
address. -/
theorem parseEndpoint_lower_case (rest : String) (h : rest ≠ "") :
    parseEndpoint ("unix://" ++ rest) = some (.ok ("unix", rest)) ∧
    parseEndpoint ("tcp://" ++ rest) = some (.ok ("tcp", rest)) := by
  have hne : ¬ (String.mk rest.data = "") := fun e => h e
  constructor
  · simp [parseEndpoint, HasPrefix, ToLower, unicode.ToLower, SplitN2, splitOnceAux,
      List.isPrefixOf, hne]
  · simp [parseEndpoint, HasPrefix, ToLower, unicode.ToLower, SplitN2, splitOnceAux,
      List.isPrefixOf, hne]

/-- An endpoint that does not start with `unix://` or `tcp://`, letter case
ignored, is rejected. -/
theorem parseEndpoint_other_scheme (ep : String)
    (h : HasPrefix (ToLower ep) "unix://" = false ∧ HasPrefix (ToLower ep) "tcp://" = false) :
    parseEndpoint ep = some (.error (.errorf "Invalid endpoint: %v" [ep])) := by
  simp [parseEndpoint, h.1, h.2]

/-- The case folding of the prefix test is that of Go also outside ASCII: a scheme
spelled with the capital I with dot above is accepted, and the protocol returned
keeps that spelling. -/
theorem parseEndpoint_dotted_capital_I :
    parseEndpoint "UN\u0130X://a" = some (.ok ("UN\u0130X", "a")) := rfl

/-- C30 (code defect, the scheme is compared without its case folded): the
endpoint `UNIX:///var/run/csi.sock` is accepted by `parseEndpoint`, and the
protocol returned is `UNIX`, which is neither `unix` nor `tcp`; `Connect` then
dials the address without the unix dialer, and `NewServer` listens on the network
`UNIX` without removing the socket file first. In the same way `TCP://host:10000`
is accepted with the protocol `TCP`, and `Connect` dials without setting the DNS
resolver. The same endpoints with the scheme in lower case get the unix dialer,
the removal of the socket file and the DNS resolver. -/
theorem C30_upper_case_scheme_is_accepted_unhandled :
    (parseEndpoint "UNIX:///var/run/csi.sock" = some (.ok ("UNIX", "/var/run/csi.sock")) ∧
      ("UNIX" : String) ≠ "unix" ∧ ("UNIX" : String) ≠ "tcp" ∧
      Connect "UNIX:///var/run/csi.sock" = some (.ok [.Dial "/var/run/csi.sock"]) ∧
      NewServer (fun _ => none) "UNIX:///var/run/csi.sock" =
        some (.ok [.Listen "UNIX" "/var/run/csi.sock"])) ∧
    (parseEndpoint "TCP://host:10000" = some (.ok ("TCP", "host:10000")) ∧
      Connect "TCP://host:10000" = some (.ok [.Dial "host:10000"])) ∧
    (Connect "unix:///var/run/csi.sock" =
        some (.ok [.WithDialer, .Dial "/var/run/csi.sock"]) ∧
      NewServer (fun _ => none) "unix:///var/run/csi.sock" =
        some (.ok [.Remove "/var/run/csi.sock", .Listen "unix" "/var/run/csi.sock"]) ∧
      Connect "tcp://host:10000" =
        some (.ok [.SetDefaultScheme "dns", .Dial "host:10000"])) :=
  ⟨⟨rfl, by decide, by decide, rfl, rfl⟩, ⟨rfl, rfl⟩, rfl, rfl, rfl⟩

end PmemCSI
